import Mathlib

/-!
# Pintos virtual memory: frame table, supplemental page table, swap store

A shallow embedding of `vm/swap.c`, `vm/frame.c` and `vm/page.c`.

* The kernel state that the C code keeps in globals (`frame_table`, the static
  `clock_hand`, `swap_bitmap`, `swap_device`) and in collaborators (hardware
  page tables, the page allocator, physical memory, files) is one explicit
  record `State`; every function takes a state and returns the new one.
* `PANIC`, a failed `ASSERT`, a NULL or dangling dereference and a loop that
  has not finished within its fuel are the error side of `Except Err`.
* Answers of collaborators that the code cannot predict (`malloc` returning
  NULL, `pagedir_set_page` failing) are explicit Boolean arguments.
* A `struct page *` is modelled by the key of the descriptor: the owning
  thread and the page-aligned address (`page_ptr`).  A `struct list_elem *`
  into the frame table is modelled by the `kpage` of the frame entry that
  embeds it (`list_elem_ptr`).
-/

namespace Pintos

/-! ## Constants of headers outside the sources -/

/-- Constants that the sources use from `threads/vaddr.h`, `devices/block.h` and
`lib/kernel/bitmap.h`; they are parameters of the development. -/
structure Consts where
  PGSIZE : Nat
  BLOCK_SECTOR_SIZE : Nat
  BITMAP_ERROR : Nat
  PHYS_BASE : Nat
deriving DecidableEq

/-- Number of sectors per page: `#define SECTORS_PER_PAGE (PGSIZE / BLOCK_SECTOR_SIZE)`. -/
def SECTORS_PER_PAGE (c : Consts) : Nat := c.PGSIZE / c.BLOCK_SECTOR_SIZE

/-- Rounds an address down to the start of its page (`pg_round_down` of `threads/vaddr.h`). -/
def pg_round_down (c : Consts) (va : Nat) : Nat := va - va % c.PGSIZE

/-- Offset of an address within its page (`pg_ofs` of `threads/vaddr.h`). -/
def pg_ofs (c : Consts) (va : Nat) : Nat := va % c.PGSIZE

/-! ## Outcomes -/

/-- Ways in which a call does not return normally. -/
inductive Err where
  /-- `PANIC ("Out of frames")` in `frame_alloc`. -/
  | out_of_frames
  /-- `PANIC ("Swap is full")` in `swap_out`. -/
  | swap_full
  /-- `PANIC ("Invalid swap slot")` in `swap_in` and `swap_free`. -/
  | invalid_swap_slot
  /-- `PANIC ("Invalid page status")` in `page_load`. -/
  | invalid_page_status
  /-- A failed `ASSERT` (here or in a collaborator). -/
  | assertion
  /-- Dereference of a NULL or dangling pointer. -/
  | bad_pointer
  /-- `PANIC ("Failed to create swap bitmap")` in `swap_init`. -/
  | swap_init_failed
  /-- The loop was still running when the fuel ran out. -/
  | out_of_fuel
deriving DecidableEq

/-! ## Data model (`vm/page.h`, `vm/frame.h`) -/

/-- Virtual page states (`enum page_status`). -/
inductive page_status where
  | PAGE_ZERO
  | PAGE_FILE
  | PAGE_SWAP
  | PAGE_FRAME
deriving DecidableEq

/-- Supplemental page table entry (`struct page`).  `file` and `frame` are
pointers: `none` is NULL. -/
structure page where
  vaddr : Nat
  owner : Nat
  status : page_status
  writable : Bool
  pinned : Bool
  file : Option Nat
  file_offset : Int
  file_bytes : Nat
  zero_bytes : Nat
  swap_slot : Nat
  frame : Option Nat
deriving DecidableEq

/-- A `struct page *`: the descriptor of thread `owner` keyed by `vaddr`. -/
structure page_ptr where
  owner : Nat
  vaddr : Nat
deriving DecidableEq

/-- Frame table entry (`struct frame`). -/
structure frame where
  kpage : Nat
  page : page_ptr
  owner : Nat
deriving DecidableEq

/-- A `struct list_elem *` into `frame_table`: NULL, the element embedded in
the frame entry with the given `kpage`, or the tail sentinel (`list_end`). -/
inductive list_elem_ptr where
  | null
  | elem (kpage : Nat)
  | tail
deriving DecidableEq

/-- Page table entry of the hardware page table. -/
structure pte where
  kpage : Nat
  writable : Bool
  accessed : Bool
  dirty : Bool
deriving DecidableEq

/-- Allocation flags (`enum palloc_flags`), one Boolean per bit. -/
structure palloc_flags where
  PAL_ASSERT : Bool
  PAL_ZERO : Bool
  PAL_USER : Bool
deriving DecidableEq

/-- The flag set `PAL_USER`. -/
def PAL_USER : palloc_flags := ⟨false, false, true⟩

/-- The swap block device: its size in sectors and the bytes of each sector. -/
structure block where
  size : Nat
  data : Nat → Nat → Nat

/-- Kernel state read and written by the virtual memory code. -/
structure State where
  /-- `thread_current ()`. -/
  current : Nat
  /-- The hash table `pages` of every thread, as the list of its descriptors. -/
  pages : Nat → List page
  /-- The hardware page table `pagedir` of every thread. -/
  pagedir : Nat → Nat → Option pte
  /-- The saved user stack pointer `esp` of every thread. -/
  esp : Nat → Nat
  /-- The list `frame_table`, front first. -/
  frame_table : List frame
  /-- The static `clock_hand` of `frame_evict`. -/
  clock_hand : list_elem_ptr
  /-- The bitmap `swap_bitmap`: `true` is an occupied slot. -/
  swap_bitmap : List Bool
  /-- The block device `swap_device`; `none` is NULL. -/
  swap_device : Option block
  /-- Free pages of the user pool of the page allocator. -/
  free_pages : List Nat
  /-- Physical memory, one byte per kernel virtual address. -/
  mem : Nat → Nat
  /-- Contents of the open files. -/
  files : Nat → List Nat
  /-- Current position of the open files. -/
  file_pos : Nat → Nat

/-! ## Collaborators -/

/-- Modelled from the spec: `memset (dst, 0, n)` of the C library, missing
from the sources; bytes `dst .. dst + n - 1` become zero. -/
def memset_zero (mem : Nat → Nat) (dst n : Nat) : Nat → Nat :=
  fun a => if dst ≤ a ∧ a < dst + n then 0 else mem a

/-- Modelled from the spec: `bitmap_test` of `lib/kernel/bitmap.c`, missing
from the sources; it asserts that the index is in range and returns the bit. -/
def bitmap_test (b : List Bool) (idx : Nat) : Except Err Bool :=
  match b[idx]? with
  | some v => .ok v
  | none => .error .assertion

/-- Modelled from the spec: `bitmap_flip` of `lib/kernel/bitmap.c`, missing
from the sources; it toggles one bit. -/
def bitmap_flip (b : List Bool) (idx : Nat) : List Bool :=
  b.modify (fun v => !v) idx

/-- Index of the first bit equal to `value` at or after position `start`
(the first-fit scan inside `bitmap_scan`). -/
def bitmap_scan_from (value : Bool) : List Bool → Nat → Option Nat
  | [], _ => none
  | v :: rest, start => if v = value then some start else bitmap_scan_from value rest (start + 1)

/-- Modelled from the spec: `bitmap_scan_and_flip (b, 0, 1, value)` of
`lib/kernel/bitmap.c`, missing from the sources; it finds the first bit equal
to `value`, flips it and returns its index, or returns `BITMAP_ERROR` and
leaves the bitmap alone when there is none. -/
def bitmap_scan_and_flip (c : Consts) (b : List Bool) (value : Bool) : Nat × List Bool :=
  match bitmap_scan_from value b 0 with
  | some idx => (idx, bitmap_flip b idx)
  | none => (c.BITMAP_ERROR, b)

/-- Modelled from the spec: `block_write` of `devices/block.c`, missing from
the sources; it copies one sector from memory at `buf` to the device and
panics on a sector outside the device. -/
def block_write (c : Consts) (dev : block) (sector : Nat) (mem : Nat → Nat) (buf : Nat) :
    Except Err block :=
  if sector < dev.size then
    .ok { dev with data := fun sec off =>
            if sec = sector ∧ off < c.BLOCK_SECTOR_SIZE then mem (buf + off) else dev.data sec off }
  else .error .assertion

/-- Modelled from the spec: `block_read` of `devices/block.c`, missing from
the sources; it copies one sector from the device to memory at `buf` and
panics on a sector outside the device. -/
def block_read (c : Consts) (dev : block) (sector : Nat) (mem : Nat → Nat) (buf : Nat) :
    Except Err (Nat → Nat) :=
  if sector < dev.size then
    .ok (fun a => if buf ≤ a ∧ a < buf + c.BLOCK_SECTOR_SIZE then dev.data sector (a - buf) else mem a)
  else .error .assertion

/-- Modelled from the spec: `pagedir_is_accessed` of `userprog/pagedir.c`,
missing from the sources; the accessed bit of the translation of `va`, false
when there is none. -/
def pagedir_is_accessed (s : State) (t va : Nat) : Bool :=
  match s.pagedir t va with
  | some e => e.accessed
  | none => false

/-- Modelled from the spec: `pagedir_is_dirty` of `userprog/pagedir.c`, missing
from the sources; the dirty bit of the translation of `va`, false when there
is none. -/
def pagedir_is_dirty (s : State) (t va : Nat) : Bool :=
  match s.pagedir t va with
  | some e => e.dirty
  | none => false

/-- Modelled from the spec: `pagedir_set_accessed` of `userprog/pagedir.c`,
missing from the sources; it sets the accessed bit of the translation of `va`
and does nothing when there is none. -/
def pagedir_set_accessed (s : State) (t va : Nat) (b : Bool) : State :=
  { s with pagedir := fun t' va' =>
      if t' = t ∧ va' = va then (s.pagedir t va).map (fun e => { e with accessed := b })
      else s.pagedir t' va' }

/-- Modelled from the spec: `pagedir_clear_page` of `userprog/pagedir.c`,
missing from the sources; it removes the translation of `va`. -/
def pagedir_clear_page (s : State) (t va : Nat) : State :=
  { s with pagedir := fun t' va' => if t' = t ∧ va' = va then none else s.pagedir t' va' }

/-- Modelled from the spec: `pagedir_set_page` of `userprog/pagedir.c`, missing
from the sources; when it succeeds (`ok`) it installs the translation
`va -> kpage` with the given permission and clear accessed and dirty bits,
when it fails (no memory for the page table) it changes nothing. -/
def pagedir_set_page (s : State) (t va kpage : Nat) (writable ok : Bool) : Bool × State :=
  if ok then
    (true, { s with pagedir := fun t' va' =>
      if t' = t ∧ va' = va then some ⟨kpage, writable, false, false⟩ else s.pagedir t' va' })
  else (false, s)

/-- Modelled from the spec: `palloc_get_page` of `threads/palloc.c`, missing
from the sources, for the user pool: it hands out a free page, zeroed under
`PAL_ZERO`; without a free page it returns NULL, or panics under `PAL_ASSERT`. -/
def palloc_get_page (c : Consts) (s : State) (flags : palloc_flags) : Except Err (Option Nat × State) :=
  match s.free_pages with
  | [] => if flags.PAL_ASSERT then .error .assertion else .ok (none, s)
  | k :: rest =>
    .ok (some k, { s with free_pages := rest,
                          mem := if flags.PAL_ZERO then memset_zero s.mem k c.PGSIZE else s.mem })

/-- Modelled from the spec: `palloc_free_page` of `threads/palloc.c`, missing
from the sources; it returns the page to the pool. -/
def palloc_free_page (s : State) (kpage : Nat) : State :=
  { s with free_pages := kpage :: s.free_pages }

/-- Modelled from the spec: `hash_find` of `lib/kernel/hash.c`, missing from
the sources, with `page_hash` and `page_less`: the element whose `vaddr`
equals the key. -/
def hash_find (h : List page) (va : Nat) : Option page :=
  h.find? (fun p => p.vaddr = va)

/-- Modelled from the spec: `hash_insert` of `lib/kernel/hash.c`, missing from
the sources: it inserts the element and returns NULL, or returns the element
already there with an equal key and leaves the table alone. -/
def hash_insert (h : List page) (p : page) : Option page × List page :=
  match hash_find h p.vaddr with
  | some old => (some old, h)
  | none => (none, p :: h)

/-- Modelled from the spec: `hash_delete` of `lib/kernel/hash.c`, missing from
the sources: it removes the element whose key equals the given one. -/
def hash_delete (h : List page) (va : Nat) : List page :=
  h.eraseP (fun p => p.vaddr = va)

/-- Reads `*p` for a `struct page *p`; `none` when the descriptor is gone. -/
def page_deref (s : State) (p : page_ptr) : Option page :=
  hash_find (s.pages p.owner) p.vaddr

/-- Writes fields of `*p` for a `struct page *p`. -/
def page_assign (s : State) (p : page_ptr) (f : page → page) : State :=
  { s with pages := fun t =>
      if t = p.owner then (s.pages t).map (fun q => if q.vaddr = p.vaddr then f q else q)
      else s.pages t }

/-- Modelled from the spec: `list_begin (&frame_table)` of `lib/kernel/list.c`,
missing from the sources. -/
def list_begin (l : List frame) : list_elem_ptr :=
  match l with
  | [] => .tail
  | f :: _ => .elem f.kpage

/-- Modelled from the spec: `list_next` of `lib/kernel/list.c`, missing from
the sources, on the element of the entry with the given `kpage`; `none` when
no entry of the list has it. -/
def list_next (l : List frame) (k : Nat) : Option list_elem_ptr :=
  match l with
  | [] => none
  | f :: rest => if f.kpage = k then some (list_begin rest) else list_next rest k

/-- Modelled from the spec: `list_remove` of `lib/kernel/list.c`, missing from
the sources, on the element of the entry with the given `kpage`. -/
def list_remove (l : List frame) (k : Nat) : List frame :=
  l.eraseP (fun f => f.kpage = k)

/-- The entry in which the element with the given `kpage` is embedded
(`list_entry (e, struct frame, elem)`). -/
def list_entry (l : List frame) (k : Nat) : Option frame :=
  l.find? (fun f => f.kpage = k)

/-- Conversion of a `size_t` to `int` on the 32-bit target. -/
def int_of_size_t (n : Nat) : Int :=
  if n % 2 ^ 32 < 2 ^ 31 then (n % 2 ^ 32 : Nat) else ((n % 2 ^ 32 : Nat) : Int) - 2 ^ 32

/-- Modelled from the spec: `file_seek` of `filesys/file.c`, missing from the
sources; it asserts a file and a non-negative position and sets the position. -/
def file_seek (s : State) (file : Option Nat) (pos : Int) : Except Err State :=
  match file with
  | none => .error .assertion
  | some f =>
    if pos < 0 then .error .assertion
    else .ok { s with file_pos := fun g => if g = f then pos.toNat else s.file_pos g }

/-- Modelled from the spec: `file_read` of `filesys/file.c`, missing from the
sources; it copies up to `size` bytes from the current position of the file
to memory at `buf`, advances the position and returns the number of bytes
read, which is less than `size` at end of file. -/
def file_read (s : State) (file : Option Nat) (buf : Nat) (size : Int) : Except Err (Int × State) :=
  match file with
  | none => .error .bad_pointer
  | some f =>
    let pos := s.file_pos f
    let n := min size.toNat ((s.files f).length - pos)
    .ok ((n : Int), { s with
      mem := fun a => if buf ≤ a ∧ a < buf + n then (s.files f).getD (pos + (a - buf)) 0 else s.mem a,
      file_pos := fun g => if g = f then pos + n else s.file_pos g })

/-! ## `vm/swap.c` -/

/-- The write loop of `swap_out`: sectors `i .. SECTORS_PER_PAGE - 1` of the
page at `frame`, `n` of them, go to the device. -/
def swap_out_loop (c : Consts) (slot frame : Nat) (mem : Nat → Nat) :
    Nat → Nat → block → Except Err block
  | 0, _, dev => .ok dev
  | n + 1, i, dev =>
    match block_write c dev (slot * SECTORS_PER_PAGE c + i) mem (frame + i * c.BLOCK_SECTOR_SIZE) with
    | .ok dev1 => swap_out_loop c slot frame mem n (i + 1) dev1
    | .error e => .error e

/-- Swap out a frame to disk: `swap_out`. -/
def swap_out (c : Consts) (s : State) (frame : Nat) : Except Err (Nat × State) :=
  let r := bitmap_scan_and_flip c s.swap_bitmap false
  if r.1 = c.BITMAP_ERROR then .error .swap_full
  else
    match s.swap_device with
    | none => if SECTORS_PER_PAGE c = 0 then .ok (r.1, { s with swap_bitmap := r.2 })
              else .error .bad_pointer
    | some dev =>
      match swap_out_loop c r.1 frame s.mem (SECTORS_PER_PAGE c) 0 dev with
      | .ok dev1 => .ok (r.1, { s with swap_bitmap := r.2, swap_device := some dev1 })
      | .error e => .error e

/-- The read loop of `swap_in`: sectors `i .. SECTORS_PER_PAGE - 1` of the
slot, `n` of them, go to the page at `frame`. -/
def swap_in_loop (c : Consts) (slot frame : Nat) (dev : block) :
    Nat → Nat → (Nat → Nat) → Except Err (Nat → Nat)
  | 0, _, mem => .ok mem
  | n + 1, i, mem =>
    match block_read c dev (slot * SECTORS_PER_PAGE c + i) mem (frame + i * c.BLOCK_SECTOR_SIZE) with
    | .ok mem1 => swap_in_loop c slot frame dev n (i + 1) mem1
    | .error e => .error e

/-- Swap in a page from disk: `swap_in`. -/
def swap_in (c : Consts) (s : State) (slot frame : Nat) : Except Err State :=
  match bitmap_test s.swap_bitmap slot with
  | .error e => .error e
  | .ok false => .error .invalid_swap_slot
  | .ok true =>
    match s.swap_device with
    | none => if SECTORS_PER_PAGE c = 0 then .ok { s with swap_bitmap := bitmap_flip s.swap_bitmap slot }
              else .error .bad_pointer
    | some dev =>
      match swap_in_loop c slot frame dev (SECTORS_PER_PAGE c) 0 s.mem with
      | .ok mem1 => .ok { s with mem := mem1, swap_bitmap := bitmap_flip s.swap_bitmap slot }
      | .error e => .error e

/-- Free a swap slot: `swap_free`. -/
def swap_free (s : State) (slot : Nat) : Except Err State :=
  match bitmap_test s.swap_bitmap slot with
  | .error e => .error e
  | .ok false => .error .invalid_swap_slot
  | .ok true => .ok { s with swap_bitmap := bitmap_flip s.swap_bitmap slot }

/-! ## `vm/frame.c` -/

/-- The two statements `clock_hand = list_next (clock_hand);
if (clock_hand == list_end (&frame_table)) clock_hand = list_begin (&frame_table);`
for a hand at the element with the given `kpage`.  `links` is the list in
which that element has its neighbours (after `list_remove` the removed element
keeps its pointers), the list of `s` is the current one. -/
def clock_advance (s : State) (k : Nat) (links : List frame) : Except Err State :=
  match list_next links k with
  | none => .error .bad_pointer
  | some .tail => .ok { s with clock_hand := list_begin s.frame_table }
  | some h => .ok { s with clock_hand := h }

/-- The first statement after `/* Found victim */` in `frame_evict`: a page
that is dirty or whose status is `PAGE_ZERO` is written to swap. -/
def frame_evict_swap (c : Consts) (s : State) (frame : frame) (page : page) : Except Err State :=
  if pagedir_is_dirty s frame.owner page.vaddr || decide (page.status = .PAGE_ZERO) then
    match swap_out c s frame.kpage with
    | .ok (slot, s1) =>
      .ok (page_assign s1 frame.page (fun q => { q with swap_slot := slot, status := .PAGE_SWAP }))
    | .error e => .error e
  else .ok s

/-- The statements from `/* Remove from page table */` to `list_remove` in
`frame_evict`. -/
def frame_evict_detach (s : State) (frame : frame) (page : page) : State :=
  let s2 := pagedir_clear_page s frame.owner page.vaddr
  let s3 := page_assign s2 frame.page (fun q =>
    { q with status := if q.status = .PAGE_FILE then .PAGE_FILE else .PAGE_SWAP, frame := none })
  { s3 with frame_table := list_remove s3.frame_table frame.kpage }

/-- The part of the loop body of `frame_evict` after `/* Found victim */`, for
the entry `frame` under the hand and the descriptor `page` it points to. -/
def frame_evict_victim (c : Consts) (s : State) (frame : frame) (page : page) :
    Except Err (Pintos.frame × State) :=
  match frame_evict_swap c s frame page with
  | .error e => .error e
  | .ok s1 =>
    match clock_advance (frame_evict_detach s1 frame page) frame.kpage s.frame_table with
    | .ok s5 => .ok (frame, s5)
    | .error e => .error e

/-- The `while (true)` loop of `frame_evict`; one unit of fuel per iteration. -/
def frame_evict_loop (c : Consts) : Nat → State → Except Err (frame × State)
  | 0, _ => .error .out_of_fuel
  | fuel + 1, s =>
    match s.clock_hand with
    | .elem k =>
      match list_entry s.frame_table k with
      | none => .error .bad_pointer
      | some frame =>
        match page_deref s frame.page with
        | none => .error .bad_pointer
        | some page =>
          if page.pinned then
            match clock_advance s k s.frame_table with
            | .ok s1 => frame_evict_loop c fuel s1
            | .error e => .error e
          else if pagedir_is_accessed s frame.owner page.vaddr then
            match clock_advance (pagedir_set_accessed s frame.owner page.vaddr false) k
                s.frame_table with
            | .ok s1 => frame_evict_loop c fuel s1
            | .error e => .error e
          else frame_evict_victim c s frame page
    | _ => .error .bad_pointer

/-- The statement `if (clock_hand == NULL || clock_hand == list_end (&frame_table))
clock_hand = list_begin (&frame_table);` of `frame_evict`. -/
def clock_hand_start (s : State) : State :=
  if s.clock_hand = .null ∨ s.clock_hand = .tail then
    { s with clock_hand := list_begin s.frame_table }
  else s

/-- Evict a frame using the clock algorithm: `frame_evict`.  The result is
`none` for the NULL of an empty table. -/
def frame_evict (c : Consts) (fuel : Nat) (s : State) : Except Err (Option frame × State) :=
  if s.frame_table.isEmpty then .ok (none, s)
  else
    match frame_evict_loop c fuel (clock_hand_start s) with
    | .ok (victim, s2) => .ok (some victim, s2)
    | .error e => .error e

/-- The second half of `frame_alloc`, from `malloc (sizeof (struct frame))` on. -/
def frame_alloc_register (s : State) (pg : page_ptr) (kpage : Nat) (malloc_ok : Bool) :
    Option Nat × State :=
  if malloc_ok then
    (some kpage, { s with frame_table := s.frame_table ++ [⟨kpage, pg, s.current⟩] })
  else (none, palloc_free_page s kpage)

/-- Allocate a frame for a page: `frame_alloc`.  The result is the kernel
address of the frame, `none` for NULL. -/
def frame_alloc (c : Consts) (fuel : Nat) (s : State) (pg : page_ptr) (flags : palloc_flags)
    (malloc_ok : Bool) : Except Err (Option Nat × State) :=
  if flags.PAL_USER = false then .ok (none, s)
  else
    match palloc_get_page c s flags with
    | .error e => .error e
    | .ok (some kpage, s1) => .ok (frame_alloc_register s1 pg kpage malloc_ok)
    | .ok (none, s1) =>
      match frame_evict c fuel s1 with
      | .error e => .error e
      | .ok (none, _) => .error .out_of_frames
      | .ok (some victim, s2) => .ok (frame_alloc_register s2 pg victim.kpage malloc_ok)

/-- Free a frame: `frame_free`. -/
def frame_free (s : State) (kpage : Nat) : State :=
  match list_entry s.frame_table kpage with
  | some _ => palloc_free_page { s with frame_table := list_remove s.frame_table kpage } kpage
  | none => s

/-! ## `vm/page.c` -/

/-- Create a new page entry: `page_create`. -/
def page_create (c : Consts) (s : State) (vaddr : Nat) (writable malloc_ok : Bool) :
    Option page_ptr × State :=
  if malloc_ok then
    let page : page :=
      { vaddr := pg_round_down c vaddr, owner := s.current, status := .PAGE_ZERO,
        writable := writable, pinned := false, file := none, file_offset := 0,
        file_bytes := 0, zero_bytes := c.PGSIZE, swap_slot := c.BITMAP_ERROR, frame := none }
    match hash_insert (s.pages s.current) page with
    | (some _, _) => (none, s)
    | (none, h) =>
      (some ⟨s.current, page.vaddr⟩,
        { s with pages := fun t => if t = s.current then h else s.pages t })
  else (none, s)

/-- Look up a page for the given virtual address: `page_lookup`. -/
def page_lookup (c : Consts) (s : State) (vaddr : Nat) : Option page_ptr :=
  match hash_find (s.pages s.current) (pg_round_down c vaddr) with
  | some p => some ⟨s.current, p.vaddr⟩
  | none => none

/-- Destroy a page entry: `page_destroy`. -/
def page_destroy (c : Consts) (s : State) (p : page_ptr) : Except Err State :=
  match page_deref s p with
  | none => .error .bad_pointer
  | some page =>
    let s1 := { s with pages := fun t =>
      if t = s.current then hash_delete (s.pages t) page.vaddr else s.pages t }
    let released : Except Err State :=
      match page.status, page.frame with
      | .PAGE_FRAME, some kpage => .ok (frame_free s1 kpage)
      | .PAGE_SWAP, _ =>
        if page.swap_slot ≠ c.BITMAP_ERROR then swap_free s1 page.swap_slot else .ok s1
      | _, _ => .ok s1
    match released with
    | .error e => .error e
    | .ok s2 =>
      .ok { s2 with pages := fun t =>
        if t = p.owner ∧ t ≠ s.current then hash_delete (s2.pages t) p.vaddr else s2.pages t }

/-- The statements under `if (page->file_bytes > 0)` in the `PAGE_FILE` case
of `page_load`: the Boolean is false on the short read. -/
def page_load_read (s : State) (page : page) (frame : Nat) : Except Err (Bool × State) :=
  if page.file_bytes > 0 then
    match file_seek s page.file page.file_offset with
    | .error e => .error e
    | .ok s1 =>
      match file_read s1 page.file frame (int_of_size_t page.file_bytes) with
      | .error e => .error e
      | .ok (n, s2) => .ok (decide (n = int_of_size_t page.file_bytes), s2)
  else .ok (true, s)

/-- The `switch (page->status)` of `page_load`: fills the frame from the
source of the page.  The Boolean is false on the short read of the file. -/
def page_load_fill (c : Consts) (s : State) (p : page_ptr) (page : page) (frame : Nat) :
    Except Err (Bool × State) :=
  match page.status with
  | .PAGE_ZERO => .ok (true, { s with mem := memset_zero s.mem frame c.PGSIZE })
  | .PAGE_FILE =>
    match page_load_read s page frame with
    | .error e => .error e
    | .ok (false, s2) => .ok (false, s2)
    | .ok (true, s2) =>
      .ok (true, { s2 with mem := memset_zero s2.mem (frame + page.file_bytes) page.zero_bytes })
  | .PAGE_SWAP =>
    match swap_in c s page.swap_slot frame with
    | .error e => .error e
    | .ok s1 => .ok (true, page_assign s1 p (fun q => { q with swap_slot := c.BITMAP_ERROR }))
  | .PAGE_FRAME => .error .invalid_page_status

/-- Load a page into memory: `page_load`. -/
def page_load (c : Consts) (fuel : Nat) (s : State) (p : page_ptr) (malloc_ok install_ok : Bool) :
    Except Err (Bool × State) :=
  match page_deref s p with
  | none => .error .bad_pointer
  | some page0 =>
    if page0.status = .PAGE_FRAME then .ok (true, s)
    else
      match frame_alloc c fuel s p PAL_USER malloc_ok with
      | .error e => .error e
      | .ok (none, s1) => .ok (false, s1)
      | .ok (some frame, s1) =>
        match page_deref s1 p with
        | none => .error .bad_pointer
        | some page =>
          match page_load_fill c s1 p page frame with
          | .error e => .error e
          | .ok (false, s2) => .ok (false, frame_free s2 frame)
          | .ok (true, s2) =>
            match pagedir_set_page s2 s2.current page.vaddr frame page.writable install_ok with
            | (false, s3) => .ok (false, frame_free s3 frame)
            | (true, s3) =>
              .ok (true, page_assign s3 p (fun q =>
                { q with status := .PAGE_FRAME, frame := some frame }))

/-- Map a zero page: `page_map_zero`. -/
def page_map_zero (c : Consts) (s : State) (vaddr : Nat) (writable malloc_ok : Bool) :
    Bool × State :=
  match page_create c s vaddr writable malloc_ok with
  | (none, s1) => (false, s1)
  | (some p, s1) => (true, page_assign s1 p (fun q => { q with status := .PAGE_ZERO }))

/-- The loop of `page_map_file`: one descriptor per iteration, one unit of
fuel per iteration.  `size_t` arithmetic is modulo `2 ^ 32`; `malloc_ok`
tells for which page address the `malloc` of `page_create` succeeds. -/
def page_map_file_loop (c : Consts) (file : Option Nat) (writable : Bool)
    (malloc_ok : Nat → Bool) : Nat → State → Nat → Int → Nat → Nat → Except Err (Bool × State)
  | 0, _, _, _, _, _ => .error .out_of_fuel
  | fuel + 1, s, vaddr, offset, read_bytes, zero_bytes =>
    if read_bytes > 0 ∨ zero_bytes > 0 then
      let page_read_bytes := if read_bytes < c.PGSIZE then read_bytes else c.PGSIZE
      let page_zero_bytes := c.PGSIZE - page_read_bytes
      match page_create c s vaddr writable (malloc_ok vaddr) with
      | (none, s1) => .ok (false, s1)
      | (some p, s1) =>
        let s2 := page_assign s1 p (fun q =>
          { q with status := .PAGE_FILE, file := file, file_offset := offset,
                   file_bytes := page_read_bytes, zero_bytes := page_zero_bytes })
        page_map_file_loop c file writable malloc_ok fuel s2 (vaddr + c.PGSIZE)
          (offset + page_read_bytes) (read_bytes - page_read_bytes)
          ((zero_bytes + 2 ^ 32 - page_zero_bytes) % 2 ^ 32)
    else .ok (true, s)

/-- Map a file into memory: `page_map_file`. -/
def page_map_file (c : Consts) (fuel : Nat) (s : State) (vaddr : Nat) (file : Option Nat)
    (offset : Int) (read_bytes zero_bytes : Nat) (writable : Bool) (malloc_ok : Nat → Bool) :
    Except Err (Bool × State) :=
  if (read_bytes + zero_bytes) % 2 ^ 32 % c.PGSIZE ≠ 0 then .error .assertion
  else if pg_ofs c vaddr ≠ 0 then .error .assertion
  else if offset % (c.PGSIZE : Int) ≠ 0 then .error .assertion
  else page_map_file_loop c file writable malloc_ok fuel s vaddr offset read_bytes zero_bytes

/-- Modelled from the spec: `is_user_vaddr` of `threads/vaddr.h`, missing from
the sources; a user address lies below `PHYS_BASE`. -/
def is_user_vaddr (c : Consts) (vaddr : Nat) : Bool := decide (vaddr < c.PHYS_BASE)

/-- The pointer `stack_ptr - 32` on the 32-bit target. -/
def stack_limit (stack_ptr : Nat) : Nat := (stack_ptr + 2 ^ 32 - 32) % 2 ^ 32

/-- The block `if (vaddr >= stack_ptr - 32 && vaddr < PHYS_BASE)` of
`page_fault_handler`: stack growth.  The Boolean is false for the
`return false` inside it. -/
def page_fault_grow (c : Consts) (s : State) (vaddr stack_ptr : Nat) (malloc_ok : Bool) :
    Bool × State :=
  if vaddr ≥ stack_limit stack_ptr ∧ vaddr < c.PHYS_BASE then
    let page_addr := pg_round_down c vaddr
    match page_lookup c s page_addr with
    | none => page_map_zero c s page_addr true malloc_ok
    | some _ => (true, s)
  else (true, s)

/-- Handle page fault: `page_fault_handler`.  A NULL `esp` is 0;
`malloc_page` is the answer of the `malloc` in `page_create`, `malloc_frame`
the one in `frame_alloc`, `install_ok` the one of `pagedir_set_page`. -/
def page_fault_handler (c : Consts) (fuel : Nat) (s : State) (vaddr : Nat) (write : Bool)
    (esp : Nat) (malloc_page malloc_frame install_ok : Bool) : Except Err (Bool × State) :=
  if vaddr = 0 ∨ is_user_vaddr c vaddr = false then .ok (false, s)
  else
    let stack_ptr := if esp = 0 then s.esp s.current else esp
    match page_fault_grow c s vaddr stack_ptr malloc_page with
    | (false, s1) => .ok (false, s1)
    | (true, s1) =>
      match page_lookup c s1 vaddr with
      | none => .ok (false, s1)
      | some p =>
        match page_deref s1 p with
        | none => .error .bad_pointer
        | some page =>
          if write && !page.writable then .ok (false, s1)
          else page_load c fuel s1 p malloc_frame install_ok

/-- Modelled from the spec: `bitmap_create` of `lib/kernel/bitmap.c`, missing
from the sources; a bitmap of the given number of bits, all false. -/
def bitmap_create (bit_cnt : Nat) : List Bool := List.replicate bit_cnt false

/-- Initialize swap table: `swap_init`.  `role` is the answer of
`block_get_role (BLOCK_SWAP)`, `bitmap_ok` tells whether `bitmap_create` finds
memory for the slots of the device. -/
def swap_init (c : Consts) (s : State) (role : Option block) (bitmap_ok : Bool) :
    Except Err State :=
  match role with
  | none => .ok { s with swap_device := none, swap_bitmap := bitmap_create 0 }
  | some dev =>
    if bitmap_ok then
      .ok { s with swap_device := some dev,
                   swap_bitmap := bitmap_create (dev.size / SECTORS_PER_PAGE c) }
    else .error .swap_init_failed

/-! ## `threads/fixed_point.h` -/

/-- The number of fractional bits: `#define FP_SHIFT_AMOUNT 16`. -/
def FP_SHIFT_AMOUNT : Nat := 16

/-- The macro `FP_ROUND (A)` on a `fixed_t` (an `int`) that does not overflow;
`>>` on a negative `int` is the arithmetic shift. -/
def FP_ROUND (A : Int) : Int :=
  if A ≥ 0 then (A + ((1 <<< (FP_SHIFT_AMOUNT - 1) : Nat) : Int)) >>> FP_SHIFT_AMOUNT
  else (A - ((1 <<< (FP_SHIFT_AMOUNT - 1) : Nat) : Int)) >>> FP_SHIFT_AMOUNT

/-! ## Well-formed states -/

/-- The clock hand is NULL, the end of the list, or an element of the list. -/
def hand_valid (s : State) : Prop :=
  s.clock_hand = .null ∨ s.clock_hand = .tail ∨
    ∃ k, s.clock_hand = .elem k ∧ ∃ f ∈ s.frame_table, f.kpage = k

/-- The `pinned` flag of the descriptor a frame entry points to (false when
the descriptor is gone). -/
def page_pinned (s : State) (p : page_ptr) : Bool :=
  match page_deref s p with
  | some pg => pg.pinned
  | none => false

/-- The accessed bit that `frame_evict` reads for a frame entry. -/
def frame_accessed (s : State) (f : frame) : Bool :=
  pagedir_is_accessed s f.owner f.page.vaddr

/-- A well-formed frame table: every entry has its own physical page and its
own descriptor, the descriptor exists, and the entry is owned by the thread
that owns the descriptor. -/
structure frame_table_wf (s : State) : Prop where
  kpages : (s.frame_table.map (fun f => f.kpage)).Nodup
  pages : (s.frame_table.map (fun f => f.page)).Nodup
  owner : ∀ f ∈ s.frame_table, f.owner = f.page.owner
  alive : ∀ f ∈ s.frame_table, (page_deref s f.page).isSome = true

/-- The state `s1` is `s` up to the clock hand and accessed bits that have
been cleared. -/
structure swept (s s1 : State) : Prop where
  current : s1.current = s.current
  pages : s1.pages = s.pages
  esp : s1.esp = s.esp
  frame_table : s1.frame_table = s.frame_table
  swap_bitmap : s1.swap_bitmap = s.swap_bitmap
  swap_device : s1.swap_device = s.swap_device
  free_pages : s1.free_pages = s.free_pages
  mem : s1.mem = s.mem
  files : s1.files = s.files
  file_pos : s1.file_pos = s.file_pos
  pagedir : ∀ t va, s1.pagedir t va = s.pagedir t va ∨
    ∃ e, s.pagedir t va = some e ∧ s1.pagedir t va = some { e with accessed := false }

/-! ## The clock policy in the words of its description -/

/-- The state with the clock hand moved to `h`. -/
def set_hand (s : State) (h : list_elem_ptr) : State :=
  { s with clock_hand := h }

/-- What one skipped entry costs: the accessed bit of an unpinned page is
cleared, a pinned page is left alone. -/
def sweep_visit (s : State) (f : frame) : State :=
  if page_pinned s f.page then s else pagedir_set_accessed s f.owner f.page.vaddr false

/-- The state after the hand has passed the given entries in order (the hand
itself apart). -/
def sweep (s : State) : List frame → State
  | [] => s
  | f :: rest => sweep (sweep_visit s f) rest

/-- Where the hand stands after it has passed the entry in front of `rest`:
on the first entry of `rest`, or on the first entry of the table `l` when
`rest` is empty. -/
def next_hand (l rest : List frame) : list_elem_ptr :=
  match rest with
  | [] => list_begin l
  | f :: _ => .elem f.kpage

/-- The frame table read in cyclic order starting at the clock hand (at the
front for a hand that is NULL or at the end of the list). -/
def clock_order (s : State) : List frame :=
  match s.clock_hand with
  | .elem k =>
    s.frame_table.dropWhile (fun f => decide (f.kpage ≠ k)) ++
      s.frame_table.takeWhile (fun f => decide (f.kpage ≠ k))
  | _ => s.frame_table

/-- An entry that the hand does not skip: its page is neither pinned nor
accessed. -/
def evictable (s : State) (f : frame) : Bool :=
  !page_pinned s f.page && !frame_accessed s f

/-- The victim in the words of the second-chance policy: the first entry in
clock order whose page is unpinned with a clear accessed bit, and without
such an entry the first entry in clock order whose page is unpinned. -/
def clock_victim (s : State) : Option frame :=
  match (clock_order s).find? (evictable s) with
  | some v => some v
  | none => (clock_order s).find? (fun f => !page_pinned s f.page)

/-- The entries that the hand passes before it stops on the victim: those in
front of the first evictable entry in clock order, and the whole table once
when there is no evictable entry. -/
def clock_visited (s : State) : List frame :=
  (clock_order s).takeWhile (fun f => !evictable s f)

/-- The state in which the victim part of `frame_evict` runs: the passed
entries have been swept and the hand is on the victim. -/
def clock_select (s : State) (v : frame) : State :=
  set_hand (sweep s (clock_visited s)) (.elem v.kpage)

/-- The swap store as `swap_init` leaves it: without a device the bitmap has
no bit, with a device every slot of the bitmap lies on the device; no index
of the bitmap is `BITMAP_ERROR`. -/
def swap_wf (c : Consts) (s : State) : Prop :=
  s.swap_bitmap.length ≤ c.BITMAP_ERROR ∧
    match s.swap_device with
    | none => s.swap_bitmap = []
    | some dev => s.swap_bitmap.length * SECTORS_PER_PAGE c ≤ dev.size

/-- The descriptor as `page_create` initialises it. -/
def fresh_page (c : Consts) (owner vaddr : Nat) (writable : Bool) : page :=
  ⟨pg_round_down c vaddr, owner, .PAGE_ZERO, writable, false, none, 0, 0, c.PGSIZE,
    c.BITMAP_ERROR, none⟩

/-- The state with one more descriptor in the table of the current thread. -/
def with_page (s : State) (pg : page) : State :=
  { s with pages := fun t => if t = s.current then pg :: s.pages s.current else s.pages t }

/-- Small constants for the examples: pages of 8 bytes, sectors of 4 bytes. -/
def ex_consts : Consts := ⟨8, 4, 4294967295, 3221225472⟩

/-- A freshly booted machine: thread 1 running, no descriptors, no frames, two
free user pages, a swap device of four sectors (two slots), one file of three
bytes. -/
def ex_boot : State :=
  { current := 1, pages := fun _ => [], pagedir := fun _ _ => none, esp := fun _ => 0,
    frame_table := [], clock_hand := .null, swap_bitmap := [false, false],
    swap_device := some ⟨4, fun _ _ => 0⟩, free_pages := [1000, 2000], mem := fun _ => 0,
    files := fun f => if f = 7 then [11, 22, 33] else [], file_pos := fun _ => 0 }

/-- The descriptor that the examples create: thread 1, page at address 16. -/
def ex_page : page_ptr := ⟨1, 16⟩

/-- The machine after `page_create (19, true)`. -/
def ex_created : State := (page_create ex_consts ex_boot 19 true true).2

/-- The machine after `page_load` of the new descriptor. -/
def ex_loaded : State :=
  match page_load ex_consts 1 ex_created ex_page true true with
  | .ok r => r.2
  | .error _ => ex_created

/-- The machine after `frame_evict` has taken the frame of the loaded, never
written page. -/
def ex_evicted : State :=
  match frame_evict ex_consts 1 ex_loaded with
  | .ok r => r.2
  | .error _ => ex_loaded

/-- The loaded example with its page pinned and the allocator exhausted. -/
def ex_pinned : State :=
  { page_assign ex_loaded ex_page (fun q => { q with pinned := true }) with free_pages := [] }

/-- The descriptor of the file-backed example: thread 1, page at address 32. -/
def ex_file_page : page_ptr := ⟨1, 32⟩

/-- The machine after `page_map_file (32, file 7, 0, 3, 5, false)`. -/
def ex_mapped : State :=
  match page_map_file ex_consts 2 ex_boot 32 (some 7) 0 3 5 false (fun _ => true) with
  | .ok r => r.2
  | .error _ => ex_boot

/-- The machine after `page_load` of the file-backed descriptor. -/
def ex_file_loaded : State :=
  match page_load ex_consts 1 ex_mapped ex_file_page true true with
  | .ok r => r.2
  | .error _ => ex_mapped

/-- The machine after `frame_evict` has taken the frame of the loaded, never
written file-backed page. -/
def ex_file_evicted : State :=
  match frame_evict ex_consts 1 ex_file_loaded with
  | .ok r => r.2
  | .error _ => ex_file_loaded

/-- A machine with two resident pages of thread 1: the page at 16 is pinned,
the page at 24 is unpinned, accessed and dirty; the clock hand is on the
second entry, one swap slot is taken, one user page is free. -/
def ex_two : State :=
  { current := 1,
    pages := fun t =>
      if t = 1 then
        [⟨16, 1, .PAGE_FRAME, true, true, none, 0, 0, 8, 4294967295, some 1000⟩,
         ⟨24, 1, .PAGE_FRAME, true, false, none, 0, 0, 8, 4294967295, some 2000⟩]
      else [],
    pagedir := fun t va =>
      if t = 1 ∧ va = 16 then some ⟨1000, true, true, false⟩
      else if t = 1 ∧ va = 24 then some ⟨2000, true, true, true⟩
      else none,
    esp := fun _ => 0,
    frame_table := [⟨1000, ⟨1, 16⟩, 1⟩, ⟨2000, ⟨1, 24⟩, 1⟩],
    clock_hand := .elem 2000,
    swap_bitmap := [true, false],
    swap_device := some ⟨4, fun _ _ => 0⟩,
    free_pages := [3000],
    mem := fun a => a % 5,
    files := fun _ => [],
    file_pos := fun _ => 0 }

/-- The machine `ex_two` with the accessed bit of the unpinned page clear. -/
def ex_dirty : State :=
  { ex_two with
    pagedir := fun t va =>
      if t = 1 ∧ va = 16 then some ⟨1000, true, true, false⟩
      else if t = 1 ∧ va = 24 then some ⟨2000, true, false, true⟩
      else none }

/-- The machine after `frame_evict` has taken the frame of the dirty page. -/
def ex_dirty_evicted : State :=
  match frame_evict ex_consts 4 ex_dirty with
  | .ok r => r.2
  | .error _ => ex_dirty

/-- The machine `ex_two` after `page_destroy` of the page at 24, whose frame
entry is the one under the clock hand. -/
def ex_destroyed : State :=
  match page_destroy ex_consts ex_two ⟨1, 24⟩ with
  | .ok r => r
  | .error _ => ex_two

/-- The machine after a `page_load` of the swapped-out page during which
`pagedir_set_page` failed. -/
def ex_install_failed : State :=
  match page_load ex_consts 1 ex_dirty_evicted ⟨1, 24⟩ true false with
  | .ok r => r.2
  | .error _ => ex_dirty_evicted

theorem hash_find_vaddr {h : List page} {va : Nat} {pg : page}
    (hf : hash_find h va = some pg) : pg.vaddr = va := by
  unfold hash_find at hf
  have := List.find?_some hf
  simpa using this

theorem hash_find_mem {h : List page} {va : Nat} {pg : page}
    (hf : hash_find h va = some pg) : pg ∈ h := by
  unfold hash_find at hf
  exact List.mem_of_find?_eq_some hf

theorem hash_find_map (h : List page) (v va : Nat) (f : page → page)
    (hf : ∀ q, (f q).vaddr = q.vaddr) :
    hash_find (h.map (fun q => if q.vaddr = v then f q else q)) va
      = (hash_find h va).map (fun q => if q.vaddr = v then f q else q) := by
  induction h with
  | nil => rfl
  | cons a t ih =>
    unfold hash_find at ih ⊢
    rw [List.map_cons, List.find?_cons, List.find?_cons]
    have hvad : (if a.vaddr = v then f a else a).vaddr = a.vaddr := by
      split <;> simp [hf]
    rw [hvad]
    by_cases ha : a.vaddr = va
    · simp only [ha, decide_True, Option.map_some']
    · simp only [ha, decide_False]
      exact ih

theorem page_deref_assign (s : State) (p : page_ptr) (f : page → page)
    (hf : ∀ q, (f q).vaddr = q.vaddr) :
    page_deref (page_assign s p f) p = (page_deref s p).map f := by
  unfold page_deref page_assign
  simp only [if_true]
  rw [hash_find_map _ _ _ _ hf]
  cases h : hash_find (s.pages p.owner) p.vaddr with
  | none => rfl
  | some pg => simp [hash_find_vaddr h]

theorem page_deref_assign_ne (s : State) (p q : page_ptr) (f : page → page)
    (hf : ∀ q, (f q).vaddr = q.vaddr) (hne : q ≠ p) :
    page_deref (page_assign s p f) q = page_deref s q := by
  unfold page_deref page_assign
  by_cases ho : q.owner = p.owner
  · simp only [ho, if_true]
    rw [hash_find_map _ _ _ _ hf]
    cases h : hash_find (s.pages p.owner) q.vaddr with
    | none => rfl
    | some pg =>
      have hv := hash_find_vaddr h
      have : pg.vaddr ≠ p.vaddr := by
        intro e
        apply hne
        cases q; cases p
        simp_all
      simp [this]
  · simp [ho]

theorem page_deref_congr {s s1 : State} (h : s1.pages = s.pages) (q : page_ptr) :
    page_deref s1 q = page_deref s q := by
  unfold page_deref
  rw [h]

/-! ## The sweep of the clock hand -/

theorem swept_refl (s : State) : swept s s :=
  ⟨rfl, rfl, rfl, rfl, rfl, rfl, rfl, rfl, rfl, rfl, fun _ _ => Or.inl rfl⟩

theorem swept_trans {s s1 s2 : State} (h1 : swept s s1) (h2 : swept s1 s2) : swept s s2 := by
  refine ⟨h2.current.trans h1.current, h2.pages.trans h1.pages, h2.esp.trans h1.esp,
    h2.frame_table.trans h1.frame_table, h2.swap_bitmap.trans h1.swap_bitmap,
    h2.swap_device.trans h1.swap_device, h2.free_pages.trans h1.free_pages,
    h2.mem.trans h1.mem, h2.files.trans h1.files, h2.file_pos.trans h1.file_pos, ?_⟩
  intro t va
  rcases h2.pagedir t va with h | ⟨e, he, he'⟩
  · rw [h]; exact h1.pagedir t va
  · rcases h1.pagedir t va with h | ⟨e0, he0, he0'⟩
    · right; exact ⟨e, h ▸ he, he'⟩
    · right
      refine ⟨e0, he0, ?_⟩
      rw [he', ← Option.some_inj.mp (he0'.symm.trans he)]

theorem swept_set_accessed (s : State) (t va : Nat) :
    swept s (pagedir_set_accessed s t va false) := by
  refine ⟨rfl, rfl, rfl, rfl, rfl, rfl, rfl, rfl, rfl, rfl, ?_⟩
  intro t' va'
  unfold pagedir_set_accessed
  by_cases h : t' = t ∧ va' = va
  · obtain ⟨rfl, rfl⟩ := h
    cases he : s.pagedir t' va' with
    | none => left; simp [he]
    | some e => right; exact ⟨e, rfl, by simp [he]⟩
  · left; simp [h]

theorem clock_advance_ok {s s1 : State} {k : Nat} {links : List frame}
    (h : clock_advance s k links = .ok s1) : ∃ hand, s1 = { s with clock_hand := hand } := by
  unfold clock_advance at h
  split at h
  · cases h
  · cases h; exact ⟨_, rfl⟩
  · cases h; exact ⟨_, rfl⟩

theorem swept_clock_hand (s : State) (hand : list_elem_ptr) :
    swept s { s with clock_hand := hand } :=
  ⟨rfl, rfl, rfl, rfl, rfl, rfl, rfl, rfl, rfl, rfl, fun _ _ => Or.inl rfl⟩

theorem swept_dirty {s s1 : State} (h : swept s s1) (t va : Nat) :
    pagedir_is_dirty s1 t va = pagedir_is_dirty s t va := by
  unfold pagedir_is_dirty
  rcases h.pagedir t va with e | ⟨e, he, he'⟩
  · rw [e]
  · rw [he, he']

theorem swept_page_deref {s s1 : State} (h : swept s s1) (p : page_ptr) :
    page_deref s1 p = page_deref s p := by
  unfold page_deref
  rw [h.pages]

/-- Whenever the loop of `frame_evict` returns, it has only moved the hand
and cleared accessed bits before it ran the victim part on an entry of the
table whose page is neither pinned nor accessed. -/
theorem frame_evict_loop_ok (c : Consts) :
    ∀ (fuel : Nat) (s : State) (v : frame) (s1 : State),
      frame_evict_loop c fuel s = .ok (v, s1) →
      ∃ sel pg, swept s sel ∧ sel.clock_hand = .elem v.kpage ∧
        list_entry sel.frame_table v.kpage = some v ∧ page_deref sel v.page = some pg ∧
        pg.pinned = false ∧ pagedir_is_accessed sel v.owner pg.vaddr = false ∧
        frame_evict_victim c sel v pg = .ok (v, s1) := by
  intro fuel
  induction fuel with
  | zero => intro s v s1 h; simp [frame_evict_loop] at h
  | succ n ih =>
    intro s v s1 h
    unfold frame_evict_loop at h
    split at h
    · rename_i k hk
      split at h
      · cases h
      · rename_i fr hfr
        split at h
        · cases h
        · rename_i pg hpg
          split at h
          · split at h
            · rename_i s2 hadv
              obtain ⟨sel, pg', hsw, rest⟩ := ih _ _ _ h
              obtain ⟨hand, rfl⟩ := clock_advance_ok hadv
              exact ⟨sel, pg', swept_trans (swept_clock_hand _ _) hsw, rest⟩
            · cases h
          · split at h
            · split at h
              · rename_i s2 hadv
                obtain ⟨sel, pg', hsw, rest⟩ := ih _ _ _ h
                obtain ⟨hand, rfl⟩ := clock_advance_ok hadv
                exact ⟨sel, pg', swept_trans (swept_trans (swept_set_accessed _ _ _)
                  (swept_clock_hand _ _)) hsw, rest⟩
              · cases h
            · rename_i hpin hacc
              have hv : fr = v := by
                unfold frame_evict_victim at h
                split at h
                · cases h
                · split at h
                  · cases h; rfl
                  · cases h
              subst hv
              have hk' : fr.kpage = k := by
                have := List.find?_some hfr
                simpa using this
              refine ⟨s, pg, swept_refl s, by rw [hk, hk'], by rw [hk']; exact hfr, hpg, ?_, ?_, h⟩
              · simpa using hpin
              · simpa using hacc
    · cases h

/-! ## Shape of the results of the victim part -/

theorem swap_out_shape {c : Consts} {s s1 : State} {k slot : Nat}
    (h : swap_out c s k = .ok (slot, s1)) :
    bitmap_scan_from false s.swap_bitmap 0 = some slot ∧
      ∃ dev1, s1 = { s with swap_bitmap := bitmap_flip s.swap_bitmap slot, swap_device := dev1 } := by
  unfold swap_out bitmap_scan_and_flip at h
  cases hscan : bitmap_scan_from false s.swap_bitmap 0 with
  | none => simp [hscan] at h
  | some idx =>
    simp only [hscan] at h
    split at h
    · cases h
    · split at h
      · split at h
        · cases h; exact ⟨rfl, _, rfl⟩
        · cases h
      · split at h
        · cases h; exact ⟨rfl, _, rfl⟩
        · cases h

theorem frame_evict_swap_shape {c : Consts} {s sw : State} {v : frame} {pg : page}
    (h : frame_evict_swap c s v pg = .ok sw) :
    (pagedir_is_dirty s v.owner pg.vaddr = false ∧ pg.status ≠ .PAGE_ZERO ∧ sw = s) ∨
    ((pagedir_is_dirty s v.owner pg.vaddr = true ∨ pg.status = .PAGE_ZERO) ∧
      ∃ slot s1, swap_out c s v.kpage = .ok (slot, s1) ∧
        sw = page_assign s1 v.page (fun q => { q with swap_slot := slot, status := .PAGE_SWAP })) := by
  unfold frame_evict_swap at h
  split at h
  · rename_i hc
    right
    refine ⟨by simpa using hc, ?_⟩
    split at h
    · rename_i slot s1 hs
      cases h
      exact ⟨slot, s1, hs, rfl⟩
    · cases h
  · rename_i hc
    left
    cases h
    simp only [Bool.or_eq_true, decide_eq_true_eq, not_or, Bool.not_eq_true] at hc
    exact ⟨hc.1, hc.2, rfl⟩

theorem frame_evict_victim_shape {c : Consts} {s s1 : State} {v r : frame} {pg : page}
    (h : frame_evict_victim c s v pg = .ok (r, s1)) :
    r = v ∧ ∃ sw hand, frame_evict_swap c s v pg = .ok sw ∧
      s1 = { frame_evict_detach sw v pg with clock_hand := hand } := by
  unfold frame_evict_victim at h
  split at h
  · cases h
  · rename_i sw hsw
    split at h
    · rename_i s5 hadv
      cases h
      obtain ⟨hand, rfl⟩ := clock_advance_ok hadv
      exact ⟨rfl, sw, hand, hsw, rfl⟩
    · cases h

/-- Whenever `frame_evict` returns a victim, it has only moved the hand and
cleared accessed bits before it ran the victim part on an entry of the table
whose page is neither pinned nor accessed. -/
theorem frame_evict_ok {c : Consts} {fuel : Nat} {s s1 : State} {v : frame}
    (h : frame_evict c fuel s = .ok (some v, s1)) :
    ∃ sel pg, swept s sel ∧ sel.clock_hand = .elem v.kpage ∧
      list_entry sel.frame_table v.kpage = some v ∧ page_deref sel v.page = some pg ∧
      pg.pinned = false ∧ pagedir_is_accessed sel v.owner pg.vaddr = false ∧
      frame_evict_victim c sel v pg = .ok (v, s1) := by
  unfold frame_evict at h
  split at h
  · cases h
  · cases hl : frame_evict_loop c fuel (clock_hand_start s) with
    | error e => rw [hl] at h; cases h
    | ok r =>
      obtain ⟨v', s2⟩ := r
      rw [hl] at h
      cases h
      obtain ⟨sel, pg, hsw, rest⟩ := frame_evict_loop_ok c _ _ _ _ hl
      refine ⟨sel, pg, swept_trans ?_ hsw, rest⟩
      unfold clock_hand_start
      split
      · exact swept_clock_hand _ _
      · exact swept_refl _

theorem frame_evict_none {c : Consts} {fuel : Nat} {s s1 : State}
    (h : frame_evict c fuel s = .ok (none, s1)) : s.frame_table = [] ∧ s1 = s := by
  unfold frame_evict at h
  split at h
  · rename_i he
    cases h
    exact ⟨List.isEmpty_iff.mp he, rfl⟩
  · cases hl : frame_evict_loop c fuel (clock_hand_start s) with
    | error e => rw [hl] at h; cases h
    | ok r => rw [hl] at h; cases h

/-- A returned victim has left the table; the current thread, the free pages
and the memory are as before. -/
theorem frame_evict_frame_table {c : Consts} {fuel : Nat} {s s1 : State} {v : frame}
    (h : frame_evict c fuel s = .ok (some v, s1)) :
    s1.frame_table = list_remove s.frame_table v.kpage ∧ s1.current = s.current ∧
      s1.free_pages = s.free_pages ∧ s1.mem = s.mem := by
  obtain ⟨sel, pg, hsw, -, -, -, -, -, hv⟩ := frame_evict_ok h
  obtain ⟨-, sw, hand, hswap, rfl⟩ := frame_evict_victim_shape hv
  rcases frame_evict_swap_shape hswap with ⟨-, -, rfl⟩ | ⟨-, slot, s2, hout, rfl⟩
  · simp [frame_evict_detach, page_assign, pagedir_clear_page, hsw.frame_table, hsw.current,
      hsw.free_pages, hsw.mem]
  · obtain ⟨-, dev1, rfl⟩ := swap_out_shape hout
    simp [frame_evict_detach, page_assign, pagedir_clear_page, hsw.frame_table, hsw.current,
      hsw.free_pages, hsw.mem]

/-! ## `page_load` -/

theorem swap_in_shape {c : Consts} {s s1 : State} {slot k : Nat}
    (h : swap_in c s slot k = .ok s1) :
    s.swap_bitmap[slot]? = some true ∧
      ∃ mem1, s1 = { s with mem := mem1, swap_bitmap := bitmap_flip s.swap_bitmap slot } := by
  unfold swap_in bitmap_test at h
  cases hb : s.swap_bitmap[slot]? with
  | none => simp [hb] at h
  | some v =>
    cases v with
    | false => simp [hb] at h
    | true =>
      simp only [hb] at h
      cases hd : s.swap_device with
      | none =>
        simp only [hd] at h
        split at h
        · cases h; exact ⟨rfl, s.mem, rfl⟩
        · cases h
      | some dev =>
        simp only [hd] at h
        cases hl : swap_in_loop c slot k dev (SECTORS_PER_PAGE c) 0 s.mem with
        | error e => simp [hl] at h
        | ok m1 =>
          simp only [hl] at h
          cases h
          exact ⟨rfl, m1, rfl⟩

theorem frame_alloc_register_shape (s : State) (p : page_ptr) (k : Nat) (m : Bool) {k1 : Nat}
    {s1 : State} (h : frame_alloc_register s p k m = (some k1, s1)) :
    k1 = k ∧ s1 = { s with frame_table := s.frame_table ++ [⟨k, p, s.current⟩] } := by
  unfold frame_alloc_register at h
  split at h
  · cases h; exact ⟨rfl, rfl⟩
  · cases h

/-- A successful `frame_alloc` appends exactly one entry, for the page it was
called for, to what is left of the frame table after at most one eviction. -/
theorem frame_alloc_ok {c : Consts} {fuel : Nat} {s s1 : State} {p : page_ptr} {m : Bool}
    {k : Nat} (h : frame_alloc c fuel s p PAL_USER m = .ok (some k, s1)) :
    ∃ T, T.Sublist s.frame_table ∧ s1.frame_table = T ++ [⟨k, p, s.current⟩] ∧
      s1.current = s.current := by
  unfold frame_alloc palloc_get_page at h
  simp only [PAL_USER, Bool.true_eq_false, Bool.false_eq_true, if_false] at h
  cases hfp : s.free_pages with
  | nil =>
    simp only [hfp] at h
    cases hev : frame_evict c fuel s with
    | error e => simp [hev] at h
    | ok r =>
      obtain ⟨ov, s2⟩ := r
      cases ov with
      | none => simp [hev] at h
      | some v =>
        simp only [hev] at h
        have h' := Except.ok.inj h
        obtain ⟨rfl, rfl⟩ := frame_alloc_register_shape _ _ _ _ h'
        obtain ⟨hft, hcur, -, -⟩ := frame_evict_frame_table hev
        refine ⟨list_remove s.frame_table v.kpage, List.eraseP_sublist _, ?_, ?_⟩
        · simp [hft, hcur]
        · simp [hcur]
  | cons k0 rest =>
    simp only [hfp] at h
    have h' := Except.ok.inj h
    obtain ⟨rfl, rfl⟩ := frame_alloc_register_shape _ _ _ _ h'
    exact ⟨s.frame_table, List.Sublist.refl _, rfl, rfl⟩

theorem file_seek_shape {s s1 : State} {f : Option Nat} {pos : Int}
    (h : file_seek s f pos = .ok s1) : ∃ fp, s1 = { s with file_pos := fp } := by
  unfold file_seek at h
  cases f with
  | none => cases h
  | some g =>
    simp only at h
    split at h
    · cases h
    · cases h; exact ⟨_, rfl⟩

theorem file_read_shape {s s1 : State} {f : Option Nat} {buf : Nat} {size n : Int}
    (h : file_read s f buf size = .ok (n, s1)) :
    ∃ mem1 fp, s1 = { s with mem := mem1, file_pos := fp } := by
  unfold file_read at h
  cases f with
  | none => cases h
  | some g =>
    simp only at h
    cases h
    exact ⟨_, _, rfl⟩

theorem page_load_read_shape {s s2 : State} {pg : page} {k : Nat} {b : Bool}
    (h : page_load_read s pg k = .ok (b, s2)) :
    ∃ mem1 fp, s2 = { s with mem := mem1, file_pos := fp } := by
  unfold page_load_read at h
  split at h
  · cases hs : file_seek s pg.file pg.file_offset with
    | error e => simp [hs] at h
    | ok s1 =>
      simp only [hs] at h
      cases hr : file_read s1 pg.file k (int_of_size_t pg.file_bytes) with
      | error e => simp [hr] at h
      | ok r =>
        obtain ⟨n, s3⟩ := r
        simp only [hr] at h
        cases h
        obtain ⟨fp, rfl⟩ := file_seek_shape hs
        obtain ⟨mem1, fp1, rfl⟩ := file_read_shape hr
        exact ⟨mem1, fp1, rfl⟩
  · cases h
    exact ⟨s.mem, s.file_pos, rfl⟩

theorem page_load_fill_ok {c : Consts} {s s2 : State} {p : page_ptr} {pg : page} {k : Nat}
    {b : Bool} (h : page_load_fill c s p pg k = .ok (b, s2)) :
    s2.frame_table = s.frame_table ∧ s2.current = s.current ∧ s2.free_pages = s.free_pages ∧
      s2.clock_hand = s.clock_hand ∧
      ∀ q, (page_deref s q).isSome = true → (page_deref s2 q).isSome = true := by
  unfold page_load_fill at h
  cases hst : pg.status with
  | PAGE_ZERO =>
    simp only [hst] at h
    cases h; exact ⟨rfl, rfl, rfl, rfl, fun _ hq => hq⟩
  | PAGE_FILE =>
    simp only [hst] at h
    cases hr : page_load_read s pg k with
    | error e => simp [hr] at h
    | ok r =>
      obtain ⟨b1, s3⟩ := r
      obtain ⟨mem1, fp, rfl⟩ := page_load_read_shape hr
      cases b1 with
      | false =>
        simp only [hr] at h
        cases h; exact ⟨rfl, rfl, rfl, rfl, fun _ hq => hq⟩
      | true =>
        simp only [hr] at h
        cases h; exact ⟨rfl, rfl, rfl, rfl, fun _ hq => hq⟩
  | PAGE_SWAP =>
    simp only [hst] at h
    cases hin : swap_in c s pg.swap_slot k with
    | error e => simp [hin] at h
    | ok s1 =>
      simp only [hin] at h
      cases h
      obtain ⟨-, mem1, rfl⟩ := swap_in_shape hin
      refine ⟨rfl, rfl, rfl, rfl, ?_⟩
      intro q hq
      by_cases hqp : q = p
      · subst hqp
        rw [page_deref_assign]
        · change (Option.map _ (page_deref s q)).isSome = true
          cases hd : page_deref s q with
          | none => rw [hd] at hq; cases hq
          | some x => rfl
        · intro _; rfl
      · rw [page_deref_assign_ne _ _ _ _ _ hqp]
        · exact hq
        · intro _; rfl
  | PAGE_FRAME =>
    simp only [hst] at h
    cases h

theorem page_load_resident {c : Consts} {fuel : Nat} {s : State} {p : page_ptr} {m i : Bool}
    {pg : page} (hd : page_deref s p = some pg) (hst : pg.status = .PAGE_FRAME) :
    page_load c fuel s p m i = .ok (true, s) := by
  unfold page_load
  simp [hd, hst]

/-- A successful `page_load` leaves the descriptor in state `PAGE_FRAME`; when
it did anything at all, the descriptor points to the frame of the one entry
that was appended to the frame table. -/
theorem page_load_ok {c : Consts} {fuel : Nat} {s s1 : State} {p : page_ptr} {m i : Bool}
    (h : page_load c fuel s p m i = .ok (true, s1)) :
    ∃ pg1, page_deref s1 p = some pg1 ∧ pg1.status = .PAGE_FRAME ∧
      (s1 = s ∨ ∃ k T, pg1.frame = some k ∧ T.Sublist s.frame_table ∧
        s1.frame_table = T ++ [⟨k, p, s.current⟩]) := by
  unfold page_load at h
  cases hd : page_deref s p with
  | none => simp [hd] at h
  | some pg0 =>
    simp only [hd] at h
    by_cases hst : pg0.status = .PAGE_FRAME
    · simp only [hst, if_true] at h
      cases h
      exact ⟨pg0, hd, hst, Or.inl rfl⟩
    · simp only [hst, if_false] at h
      cases ha : frame_alloc c fuel s p PAL_USER m with
      | error e => simp [ha] at h
      | ok r =>
        obtain ⟨ok, sa⟩ := r
        cases ok with
        | none => simp [ha] at h
        | some k =>
          simp only [ha] at h
          obtain ⟨T, hT, hft, hcur⟩ := frame_alloc_ok ha
          cases hd1 : page_deref sa p with
          | none => simp [hd1] at h
          | some pg =>
            simp only [hd1] at h
            cases hf : page_load_fill c sa p pg k with
            | error e => simp [hf] at h
            | ok r =>
              obtain ⟨b, s2⟩ := r
              obtain ⟨hft2, hcur2, -, -, hsome⟩ := page_load_fill_ok hf
              cases b with
              | false => simp [hf] at h
              | true =>
                simp only [hf] at h
                unfold pagedir_set_page at h
                cases i with
                | false => simp at h
                | true =>
                  simp only [if_true] at h
                  cases h
                  have hs2 := hsome p (by rw [hd1]; rfl)
                  rw [page_deref_assign]
                  · change ∃ pg1, Option.map _ (page_deref s2 p) = some pg1 ∧ _
                    cases hd2 : page_deref s2 p with
                    | none => rw [hd2] at hs2; cases hs2
                    | some pg2 =>
                      refine ⟨_, rfl, rfl, Or.inr ⟨k, T, rfl, hT, ?_⟩⟩
                      simp [page_assign, hft2, hft]
                  · intro _; rfl

/-- C10: `page_load` is idempotent on a Resident page.  On a descriptor in
state `PAGE_FRAME` it returns success and leaves the whole state (the
descriptor with its frame reference, the frame table, the swap bitmap, the
hardware page table) as it is; hence after any successful `page_load` a second
call, whatever the allocator would answer, succeeds and changes nothing, the
descriptor keeps the frame of the first call, and that first call appended
exactly one entry to the frame table. -/
theorem page_load_idempotent (c : Consts) (fuel : Nat) (s : State) (p : page_ptr) (m i : Bool) :
    (∀ pg, page_deref s p = some pg → pg.status = .PAGE_FRAME →
        page_load c fuel s p m i = .ok (true, s)) ∧
    (∀ s1, page_load c fuel s p m i = .ok (true, s1) →
        (∀ fuel1 m1 i1, page_load c fuel1 s1 p m1 i1 = .ok (true, s1)) ∧
        ∃ pg1, page_deref s1 p = some pg1 ∧ pg1.status = .PAGE_FRAME ∧
          (s1 = s ∨ ∃ k T, pg1.frame = some k ∧ T.Sublist s.frame_table ∧
            s1.frame_table = T ++ [⟨k, p, s.current⟩])) := by
  refine ⟨fun pg hd hst => page_load_resident hd hst, ?_⟩
  intro s1 h
  obtain ⟨pg1, hd1, hst1, hrest⟩ := page_load_ok h
  exact ⟨fun _ _ _ => page_load_resident hd1 hst1, pg1, hd1, hst1, hrest⟩

/-! ## `page_create` and `page_lookup` -/

theorem page_lookup_eq_none {c : Consts} {s : State} {v : Nat} :
    page_lookup c s v = none ↔ hash_find (s.pages s.current) (pg_round_down c v) = none := by
  unfold page_lookup
  cases hash_find (s.pages s.current) (pg_round_down c v) <;> simp

/-- C9 (as stated) fails: on a table without a descriptor for the page,
`page_create` still returns NULL when `malloc` has no memory. -/
theorem page_create_malloc_fails :
    page_lookup ex_consts ex_boot 19 = none ∧
      (page_create ex_consts ex_boot 19 true false).1 = none := by
  decide

/-- C9 (amended): when the table of the current thread has no descriptor for
the page of `v` and `malloc` succeeds, `page_create (v, w)` returns a new
descriptor keyed by `v` rounded down, in state `PAGE_ZERO`, with
`writable = w`, unpinned, without frame and without swap slot
(`BITMAP_ERROR`), and afterwards `page_lookup` returns it for every address
of the same page; when `malloc` fails, or when a descriptor for the page
exists, `page_create` returns NULL and leaves the state as it is, so that
`page_lookup` still returns the existing descriptor. -/
theorem page_create_spec (c : Consts) (s : State) (v : Nat) (w m : Bool) :
    (m = true → page_lookup c s v = none →
      ∃ s1, page_create c s v w m = (some ⟨s.current, pg_round_down c v⟩, s1) ∧
        page_deref s1 ⟨s.current, pg_round_down c v⟩ =
          some { vaddr := pg_round_down c v, owner := s.current, status := .PAGE_ZERO,
                 writable := w, pinned := false, file := none, file_offset := 0,
                 file_bytes := 0, zero_bytes := c.PGSIZE, swap_slot := c.BITMAP_ERROR,
                 frame := none } ∧
        (∀ u, pg_round_down c u = pg_round_down c v →
          page_lookup c s1 u = some ⟨s.current, pg_round_down c v⟩) ∧
        (∀ q : page_ptr, q ≠ ⟨s.current, pg_round_down c v⟩ →
          page_deref s1 q = page_deref s q)) ∧
    (m = false → page_create c s v w m = (none, s)) ∧
    (∀ q, page_lookup c s v = some q →
      page_create c s v w m = (none, s) ∧ page_lookup c (page_create c s v w m).2 v = some q) := by
  refine ⟨?_, ?_, ?_⟩
  · intro hm hl
    subst hm
    rw [page_lookup_eq_none] at hl
    have hpc : page_create c s v w true = (some ⟨s.current, pg_round_down c v⟩,
        ({ s with pages := fun t => if t = s.current then
            (⟨pg_round_down c v, s.current, .PAGE_ZERO, w, false, none, 0, 0, c.PGSIZE,
              c.BITMAP_ERROR, none⟩ : page) :: s.pages s.current
          else s.pages t } : State)) := by
      unfold page_create hash_insert
      simp only [if_true, hl]
    refine ⟨_, hpc, ?_, ?_, ?_⟩
    · unfold page_deref hash_find
      simp
    · intro u hu
      unfold page_lookup hash_find
      simp [hu]
    · intro q hq
      unfold page_deref
      by_cases ho : q.owner = s.current
      · have hv : q.vaddr ≠ pg_round_down c v := by
          intro e
          apply hq
          cases q
          simp_all
        unfold hash_find
        simp only [ho, if_true, List.find?_cons]
        have : decide (pg_round_down c v = q.vaddr) = false := by
          simpa using fun e => hv e.symm
        simp only [this]
      · simp [ho]
  · intro hm
    subst hm
    rfl
  · intro q hq
    have hpc : page_create c s v w m = (none, s) := by
      unfold page_lookup at hq
      unfold page_create hash_insert
      cases hf : hash_find (s.pages s.current) (pg_round_down c v) with
      | none => simp [hf] at hq
      | some old =>
        cases m <;> simp [hf]
    rw [hpc]
    exact ⟨rfl, hq⟩

/-! ## `page_destroy` -/

theorem hash_find_delete_self (h : List page) (v : Nat)
    (hk : (h.map (fun q => q.vaddr)).Nodup) : hash_find (hash_delete h v) v = none := by
  unfold hash_find hash_delete
  induction h with
  | nil => rfl
  | cons a t ih =>
    rw [List.map_cons, List.nodup_cons] at hk
    by_cases ha : a.vaddr = v
    · rw [List.eraseP_cons_of_pos (by simpa using ha)]
      rw [List.find?_eq_none]
      intro x hx hxv
      apply hk.1
      rw [ha]
      have : x.vaddr = v := by simpa using hxv
      rw [← this]
      exact List.mem_map_of_mem _ hx
    · rw [List.eraseP_cons_of_neg (by simpa using ha), List.find?_cons]
      simp only [ha, decide_False]
      exact ih hk.2

theorem hash_find_delete_ne (h : List page) (v u : Nat) (hne : u ≠ v) :
    hash_find (hash_delete h v) u = hash_find h u := by
  unfold hash_find hash_delete
  induction h with
  | nil => rfl
  | cons a t ih =>
    by_cases ha : a.vaddr = v
    · rw [List.eraseP_cons_of_pos (by simpa using ha), List.find?_cons]
      have : decide (a.vaddr = u) = false := by
        simpa [ha] using fun e => hne e.symm
      rw [this]
    · rw [List.eraseP_cons_of_neg (by simpa using ha), List.find?_cons, List.find?_cons]
      by_cases hu : a.vaddr = u
      · simp [hu]
      · simp only [hu, decide_False]
        exact ih

theorem list_remove_not_mem (l : List frame) (k : Nat)
    (hk : (l.map (fun f => f.kpage)).Nodup) : ∀ f ∈ list_remove l k, f.kpage ≠ k := by
  unfold list_remove
  induction l with
  | nil => intro f hf; cases hf
  | cons a t ih =>
    rw [List.map_cons, List.nodup_cons] at hk
    by_cases ha : a.kpage = k
    · rw [List.eraseP_cons_of_pos (by simpa using ha)]
      intro f hf e
      apply hk.1
      rw [ha, ← e]
      exact List.mem_map_of_mem _ hf
    · rw [List.eraseP_cons_of_neg (by simpa using ha)]
      intro f hf
      rcases List.mem_cons.mp hf with rfl | hf
      · exact ha
      · exact ih hk.2 f hf

theorem list_entry_isSome_of_mem (l : List frame) (k : Nat) (h : ∃ f ∈ l, f.kpage = k) :
    ∃ f, list_entry l k = some f := by
  unfold list_entry
  cases hf : l.find? (fun f => decide (f.kpage = k)) with
  | some f => exact ⟨f, rfl⟩
  | none =>
    rw [List.find?_eq_none] at hf
    obtain ⟨f, hfm, hfk⟩ := h
    exact absurd (by simpa using hfk) (hf f hfm)

theorem bitmap_flip_getElem (b : List Bool) (i j : Nat) :
    (bitmap_flip b i)[j]? = if i = j then (b[j]?).map (fun v => !v) else b[j]? := by
  unfold bitmap_flip
  rw [List.getElem?_modify]
  by_cases h : i = j
  · simp [h]
  · cases b[j]? <;> simp [h]

theorem bitmap_flip_flip (b : List Bool) (i : Nat) : bitmap_flip (bitmap_flip b i) i = b := by
  apply List.ext_getElem?
  intro j
  rw [bitmap_flip_getElem, bitmap_flip_getElem]
  by_cases h : i = j
  · cases b[j]? <;> simp [h]
  · simp [h]

/-- The state after the `hash_delete` of `page_destroy`. -/
theorem page_destroy_deleted (s : State) (p : page_ptr) (pg : page)
    (hown : p.owner = s.current) (hd : page_deref s p = some pg)
    (hkeys : ((s.pages s.current).map (fun q => q.vaddr)).Nodup) (c : Consts) (s1 : State)
    (hcur : s1.current = s.current)
    (hpages : ∀ t, s1.pages t =
      if t = s.current then hash_delete (s.pages t) pg.vaddr else s.pages t) :
    (∀ u, pg_round_down c u = p.vaddr → page_lookup c s1 u = none) ∧
      (∀ q : page_ptr, q ≠ p → page_deref s1 q = page_deref s q) := by
  have hv : pg.vaddr = p.vaddr := hash_find_vaddr hd
  constructor
  · intro u hu
    rw [page_lookup_eq_none, hcur, hpages, if_pos rfl, hu, hv]
    exact hash_find_delete_self _ _ hkeys
  · intro q hq
    unfold page_deref
    rw [hpages]
    by_cases ho : q.owner = s.current
    · rw [if_pos ho, ho, hv]
      apply hash_find_delete_ne
      intro e
      apply hq
      cases q; cases p
      simp_all
    · rw [if_neg ho]
/-- C8: for a descriptor `p` of the current thread's table (keys unique, frame
table entries with distinct frames), `page_destroy (p)` returns and
afterwards `page_lookup` of any address in the page of `p` finds nothing and
every other descriptor is as before; moreover (1) if `p` was Resident, no
entry of the frame table holds its frame any more, the other entries remain,
and the physical page is back in the allocator; (2) if `p` was in Swap state
with a valid (occupied) slot, that slot is free and all other bits of the swap
bitmap, the frame table and the allocator are unchanged; (3) if `p` was Zero
or File, the frame table, the swap bitmap and the allocator are unchanged. -/
theorem page_destroy_spec (c : Consts) (s : State) (p : page_ptr) (pg : page)
    (hown : p.owner = s.current) (hd : page_deref s p = some pg)
    (hkeys : ((s.pages s.current).map (fun q => q.vaddr)).Nodup)
    (hkp : (s.frame_table.map (fun f => f.kpage)).Nodup) :
    (∀ k, pg.status = .PAGE_FRAME → pg.frame = some k → (∃ f ∈ s.frame_table, f.kpage = k) →
      ∃ s1, page_destroy c s p = .ok s1 ∧
        (∀ u, pg_round_down c u = p.vaddr → page_lookup c s1 u = none) ∧
        (∀ q : page_ptr, q ≠ p → page_deref s1 q = page_deref s q) ∧
        (∀ f ∈ s1.frame_table, f.kpage ≠ k) ∧
        s1.frame_table = list_remove s.frame_table k ∧
        s1.free_pages = k :: s.free_pages ∧ s1.swap_bitmap = s.swap_bitmap) ∧
    (pg.status = .PAGE_SWAP → pg.swap_slot ≠ c.BITMAP_ERROR →
        s.swap_bitmap[pg.swap_slot]? = some true →
      ∃ s1, page_destroy c s p = .ok s1 ∧
        (∀ u, pg_round_down c u = p.vaddr → page_lookup c s1 u = none) ∧
        (∀ q : page_ptr, q ≠ p → page_deref s1 q = page_deref s q) ∧
        s1.swap_bitmap[pg.swap_slot]? = some false ∧
        (∀ j, j ≠ pg.swap_slot → s1.swap_bitmap[j]? = s.swap_bitmap[j]?) ∧
        s1.frame_table = s.frame_table ∧ s1.free_pages = s.free_pages) ∧
    (pg.status = .PAGE_ZERO ∨ pg.status = .PAGE_FILE →
      ∃ s1, page_destroy c s p = .ok s1 ∧
        (∀ u, pg_round_down c u = p.vaddr → page_lookup c s1 u = none) ∧
        (∀ q : page_ptr, q ≠ p → page_deref s1 q = page_deref s q) ∧
        s1.frame_table = s.frame_table ∧ s1.swap_bitmap = s.swap_bitmap ∧
        s1.free_pages = s.free_pages) := by
  have hno : ∀ t, ¬ (t = p.owner ∧ t ≠ s.current) := by
    intro t ⟨h1, h2⟩
    exact h2 (h1.trans hown)
  refine ⟨?_, ?_, ?_⟩
  · intro k hst hfr hin
    obtain ⟨f0, hf0⟩ := list_entry_isSome_of_mem _ _ hin
    unfold page_destroy
    simp only [hd, hst, hfr]
    refine ⟨_, rfl, ?_⟩
    rw [← and_assoc]
    refine ⟨page_destroy_deleted s p pg hown hd hkeys c _ ?_ ?_, ?_, ?_, ?_, ?_⟩
    · simp only [frame_free, hf0, palloc_free_page]
    · intro t
      simp only [frame_free, hf0, palloc_free_page, hno, if_false]
    · simp only [frame_free, hf0, palloc_free_page]
      exact list_remove_not_mem _ _ hkp
    · simp only [frame_free, hf0, palloc_free_page]
    · simp only [frame_free, hf0, palloc_free_page]
    · simp only [frame_free, hf0, palloc_free_page]
  · intro hst hslot hocc
    unfold page_destroy
    simp only [hd, hst, hslot, ne_eq, not_false_eq_true, if_true, swap_free, bitmap_test, hocc]
    refine ⟨_, rfl, ?_⟩
    rw [← and_assoc]
    refine ⟨page_destroy_deleted s p pg hown hd hkeys c _ rfl ?_, ?_, ?_, rfl, rfl⟩
    · intro t
      simp only [hno, if_false]
    · show (bitmap_flip s.swap_bitmap pg.swap_slot)[pg.swap_slot]? = some false
      rw [bitmap_flip_getElem, if_pos rfl, hocc]
      rfl
    · intro j hj
      show (bitmap_flip s.swap_bitmap pg.swap_slot)[j]? = s.swap_bitmap[j]?
      rw [bitmap_flip_getElem, if_neg (fun e => hj e.symm)]
  · intro hst
    unfold page_destroy
    simp only [hd]
    rcases hst with hst | hst
    · simp only [hst]
      refine ⟨_, rfl, ?_⟩
      rw [← and_assoc]
      refine ⟨page_destroy_deleted s p pg hown hd hkeys c _ rfl ?_, rfl, rfl, rfl⟩
      intro t
      simp only [hno, if_false]
    · simp only [hst]
      refine ⟨_, rfl, ?_⟩
      rw [← and_assoc]
      refine ⟨page_destroy_deleted s p pg hown hd hkeys c _ rfl ?_, rfl, rfl, rfl⟩
      intro t
      simp only [hno, if_false]

/-- C8, witness: the hypotheses hold for the loaded page of the example, and
destroying it empties the frame table and returns its physical page. -/
theorem page_destroy_spec_witness :
    ex_page.owner = ex_loaded.current ∧
    page_deref ex_loaded ex_page =
      some ⟨16, 1, .PAGE_FRAME, true, false, none, 0, 0, 8, 4294967295, some 1000⟩ ∧
    ∃ s1, page_destroy ex_consts ex_loaded ex_page = .ok s1 ∧
      (∀ u, pg_round_down ex_consts u = ex_page.vaddr → page_lookup ex_consts s1 u = none) ∧
      (∀ q : page_ptr, q ≠ ex_page → page_deref s1 q = page_deref ex_loaded q) ∧
      (∀ f ∈ s1.frame_table, f.kpage ≠ 1000) ∧
      s1.frame_table = list_remove ex_loaded.frame_table 1000 ∧
      s1.free_pages = 1000 :: ex_loaded.free_pages ∧ s1.swap_bitmap = ex_loaded.swap_bitmap :=
  ⟨by decide, by decide,
    (page_destroy_spec ex_consts ex_loaded ex_page
      ⟨16, 1, .PAGE_FRAME, true, false, none, 0, 0, 8, 4294967295, some 1000⟩
      (by decide) (by decide) (by decide) (by decide)).1 1000 rfl rfl
      ⟨⟨1000, ex_page, 1⟩, by decide, rfl⟩⟩

/-! ## Pages that were never written -/

/-- C2 (code at the failing input): a page created in Zero state, loaded and
never written (dirty bit clear) loses its frame to `frame_evict` without
being written to swap: the swap bitmap and the swap device are as before,
and the descriptor is left in state `PAGE_SWAP` with `swap_slot` still
`BITMAP_ERROR`, which no call of `swap_out` returned. -/
theorem evict_clean_zero_page_skips_swap :
    page_create ex_consts ex_boot 19 true true = (some ex_page, ex_created) ∧
    page_load ex_consts 1 ex_created ex_page true true = .ok (true, ex_loaded) ∧
    pagedir_is_dirty ex_loaded 1 16 = false ∧
    frame_evict ex_consts 1 ex_loaded = .ok (some ⟨1000, ex_page, 1⟩, ex_evicted) ∧
    ex_evicted.swap_bitmap = [false, false] ∧
    ex_evicted.swap_bitmap = ex_loaded.swap_bitmap ∧
    ex_evicted.swap_device = ex_loaded.swap_device ∧
    page_deref ex_evicted ex_page =
      some ⟨16, 1, .PAGE_SWAP, true, false, none, 0, 0, 8, 4294967295, none⟩ :=
  ⟨rfl, rfl, rfl, rfl, rfl, rfl, rfl, by decide⟩

/-- C3 (code at the failing input): a File-backed page that was loaded (first
three bytes from the file, the rest zero) and never written is left by
`frame_evict` in state `PAGE_SWAP`, not `PAGE_FILE`, although no swap slot was
taken; the next `page_load` does not re-read the file, it stops in the
assertion of `bitmap_test` on slot `BITMAP_ERROR`. -/
theorem evict_clean_file_page_forgets_file :
    page_map_file ex_consts 2 ex_boot 32 (some 7) 0 3 5 false (fun _ => true)
      = .ok (true, ex_mapped) ∧
    page_deref ex_mapped ex_file_page =
      some ⟨32, 1, .PAGE_FILE, false, false, some 7, 0, 3, 5, 4294967295, none⟩ ∧
    page_load ex_consts 1 ex_mapped ex_file_page true true = .ok (true, ex_file_loaded) ∧
    (List.range 8).map (fun j => ex_file_loaded.mem (1000 + j)) = [11, 22, 33, 0, 0, 0, 0, 0] ∧
    pagedir_is_dirty ex_file_loaded 1 32 = false ∧
    frame_evict ex_consts 1 ex_file_loaded
      = .ok (some ⟨1000, ex_file_page, 1⟩, ex_file_evicted) ∧
    ex_file_evicted.swap_bitmap = ex_file_loaded.swap_bitmap ∧
    page_deref ex_file_evicted ex_file_page =
      some ⟨32, 1, .PAGE_SWAP, false, false, some 7, 0, 3, 5, 4294967295, none⟩ ∧
    page_load ex_consts 1 ex_file_evicted ex_file_page true true = .error .assertion :=
  ⟨rfl, by decide, rfl, by decide, rfl, rfl, rfl, by decide, rfl⟩

/-- C7 (code at the failing input): after `page_create`, `page_load` and
`frame_evict` of the never written page, the descriptor is in state
`PAGE_SWAP` while its `swap_slot` is `BITMAP_ERROR`, which is not an index of
the swap bitmap, let alone an occupied one; loading it panics. -/
theorem evict_breaks_swap_slot_invariant :
    frame_evict ex_consts 1 ex_loaded = .ok (some ⟨1000, ex_page, 1⟩, ex_evicted) ∧
    ∃ pg, page_deref ex_evicted ex_page = some pg ∧ pg.status = .PAGE_SWAP ∧
      pg.frame = none ∧ pg.swap_slot = ex_consts.BITMAP_ERROR ∧
      ex_evicted.swap_bitmap[pg.swap_slot]? = none ∧
      ex_evicted.swap_bitmap.length = 2 ∧
      page_load ex_consts 1 ex_evicted ex_page true true = .error .assertion :=
  ⟨rfl, _, rfl, rfl, rfl, rfl, rfl, rfl, rfl⟩

/-! ## A frame table of pinned pages -/

theorem list_next_mem (l : List frame) (k : Nat) (h : ∃ f ∈ l, f.kpage = k) :
    ∃ hd, list_next l k = some hd ∧
      (hd = .tail ∨ ∃ k1, hd = .elem k1 ∧ ∃ f ∈ l, f.kpage = k1) := by
  induction l with
  | nil => obtain ⟨f, hf, -⟩ := h; cases hf
  | cons a t ih =>
    unfold list_next
    by_cases ha : a.kpage = k
    · simp only [ha, if_true]
      refine ⟨_, rfl, ?_⟩
      cases t with
      | nil => left; rfl
      | cons b u => right; exact ⟨b.kpage, rfl, b, by simp, rfl⟩
    · simp only [ha, if_false]
      obtain ⟨f, hf, hfk⟩ := h
      rcases List.mem_cons.mp hf with rfl | hf
      · exact absurd hfk ha
      · obtain ⟨hd, h1, h2⟩ := ih ⟨f, hf, hfk⟩
        refine ⟨hd, h1, ?_⟩
        rcases h2 with h2 | ⟨k1, hk1, g, hg, hgk⟩
        · left; exact h2
        · right; exact ⟨k1, hk1, g, List.mem_cons_of_mem _ hg, hgk⟩

theorem list_begin_mem (l : List frame) (hne : l ≠ []) :
    ∃ k, list_begin l = .elem k ∧ ∃ f ∈ l, f.kpage = k := by
  cases l with
  | nil => exact absurd rfl hne
  | cons a t => exact ⟨a.kpage, rfl, a, by simp, rfl⟩

/-- On a table of pinned pages the loop of `frame_evict` is still running
when the fuel is used up, whatever the fuel. -/
theorem frame_evict_loop_all_pinned (c : Consts) :
    ∀ (fuel : Nat) (s : State),
      (∀ f ∈ s.frame_table, ∃ pg, page_deref s f.page = some pg ∧ pg.pinned = true) →
      (∃ k, s.clock_hand = .elem k ∧ ∃ f ∈ s.frame_table, f.kpage = k) →
      frame_evict_loop c fuel s = .error .out_of_fuel := by
  intro fuel
  induction fuel with
  | zero => intro s _ _; rfl
  | succ n ih =>
    intro s hpin ⟨k, hk, hin⟩
    unfold frame_evict_loop
    simp only [hk]
    obtain ⟨fr, hfr⟩ := list_entry_isSome_of_mem _ _ hin
    have hfrm : fr ∈ s.frame_table := by
      unfold list_entry at hfr
      exact List.mem_of_find?_eq_some hfr
    obtain ⟨pg, hpg, hp⟩ := hpin fr hfrm
    simp only [hfr, hpg, hp, if_true]
    obtain ⟨hd, hnext, hhd⟩ := list_next_mem _ _ hin
    have hne : s.frame_table ≠ [] := by
      intro e
      rw [e] at hfrm
      cases hfrm
    unfold clock_advance
    rw [hnext]
    rcases hhd with rfl | ⟨k1, rfl, hk1⟩
    · simp only
      exact ih _ hpin (list_begin_mem _ hne)
    · simp only
      exact ih _ hpin ⟨k1, rfl, hk1⟩

/-- With every page pinned and no free page, `frame_alloc` neither returns
nor reaches its panic: the loop of `frame_evict` uses up any fuel. -/
theorem frame_alloc_all_pinned (c : Consts) (fuel : Nat) (s : State) (p : page_ptr) (m : Bool)
    (hne : s.frame_table ≠ [])
    (hpin : ∀ f ∈ s.frame_table, ∃ pg, page_deref s f.page = some pg ∧ pg.pinned = true)
    (hhand : hand_valid s) (hfree : s.free_pages = []) :
    frame_evict c fuel s = .error .out_of_fuel ∧
      frame_alloc c fuel s p PAL_USER m = .error .out_of_fuel := by
  have hev : frame_evict c fuel s = .error .out_of_fuel := by
    unfold frame_evict
    have : s.frame_table.isEmpty = false := by
      cases h : s.frame_table with
      | nil => exact absurd h hne
      | cons a t => rfl
    simp only [this, Bool.false_eq_true, if_false]
    rw [frame_evict_loop_all_pinned c fuel (clock_hand_start s)]
    · unfold clock_hand_start
      split <;> exact hpin
    · unfold clock_hand_start
      split
      · exact list_begin_mem _ hne
      · rename_i hnot
        rcases hhand with h | h | h
        · exact absurd (Or.inl h) hnot
        · exact absurd (Or.inr h) hnot
        · exact h
  refine ⟨hev, ?_⟩
  unfold frame_alloc palloc_get_page
  simp only [PAL_USER, Bool.true_eq_false, Bool.false_eq_true, if_false, hfree, hev]

/-- C5 (code at the failing input): one frame, its page pinned, no free page.
`frame_evict` never produces its NULL and `frame_alloc` never reaches
`PANIC ("Out of frames")`: for every amount of fuel both are still in the
`while (true)` loop when the fuel is used up. -/
theorem frame_alloc_all_pinned_hangs :
    ex_pinned.frame_table = [⟨1000, ex_page, 1⟩] ∧ page_pinned ex_pinned ex_page = true ∧
    ex_pinned.free_pages = [] ∧
    ∀ fuel, frame_evict ex_consts fuel ex_pinned = .error .out_of_fuel ∧
      frame_alloc ex_consts fuel ex_pinned ex_file_page PAL_USER true = .error .out_of_fuel :=
  ⟨rfl, rfl, rfl, fun fuel =>
    frame_alloc_all_pinned ex_consts fuel ex_pinned ex_file_page true (by decide)
      (by
        intro f hf
        have hft : ex_pinned.frame_table = [⟨1000, ex_page, 1⟩] := rfl
        rw [hft] at hf
        have hf' : f = ⟨1000, ex_page, 1⟩ := by simpa using hf
        subst hf'
        exact ⟨_, (by decide : page_deref ex_pinned ex_page =
          some ⟨16, 1, .PAGE_FRAME, true, true, none, 0, 0, 8, 4294967295, some 1000⟩), rfl⟩)
      (Or.inl rfl) rfl⟩

/-! ## One step of the clock hand -/

theorem list_entry_split (pre post : List frame) (f : frame)
    (hnd : ((pre ++ f :: post).map (fun g => g.kpage)).Nodup) :
    list_entry (pre ++ f :: post) f.kpage = some f := by
  unfold list_entry
  induction pre with
  | nil => simp
  | cons a t ih =>
    rw [List.cons_append, List.map_cons, List.nodup_cons] at hnd
    have hne : a.kpage ≠ f.kpage := by
      intro e
      apply hnd.1
      rw [e]
      exact List.mem_map_of_mem _ (by simp)
    rw [List.cons_append, List.find?_cons]
    simp only [hne, decide_False]
    exact ih hnd.2

theorem list_next_split (pre post : List frame) (f : frame)
    (hnd : ((pre ++ f :: post).map (fun g => g.kpage)).Nodup) :
    list_next (pre ++ f :: post) f.kpage = some (list_begin post) := by
  induction pre with
  | nil => simp [list_next]
  | cons a t ih =>
    rw [List.cons_append, List.map_cons, List.nodup_cons] at hnd
    have hne : a.kpage ≠ f.kpage := by
      intro e
      apply hnd.1
      rw [e]
      exact List.mem_map_of_mem _ (by simp)
    rw [List.cons_append, list_next]
    simp only [hne, if_false]
    exact ih hnd.2

theorem clock_advance_split (s : State) (pre post : List frame) (f : frame)
    (hT : s.frame_table = pre ++ f :: post)
    (hnd : (s.frame_table.map (fun g => g.kpage)).Nodup) (s0 : State)
    (h0 : s0.frame_table = s.frame_table) :
    clock_advance s0 f.kpage s.frame_table
      = .ok (set_hand s0 (next_hand s.frame_table post)) := by
  unfold clock_advance set_hand
  rw [hT] at hnd
  rw [hT, list_next_split pre post f hnd]
  cases post with
  | nil => simp only [list_begin, next_hand, h0, hT]
  | cons b u => simp only [list_begin, next_hand]

theorem page_pinned_eq {s : State} {p : page_ptr} {pg : page}
    (h : page_deref s p = some pg) : page_pinned s p = pg.pinned := by
  unfold page_pinned
  rw [h]

/-- An entry whose page is pinned or accessed costs one iteration: the hand
moves on and the accessed bit of an unpinned page is cleared. -/
theorem frame_evict_loop_skip (c : Consts) (fuel : Nat) (s : State) (pre post : List frame)
    (f : frame) (hT : s.frame_table = pre ++ f :: post)
    (hnd : (s.frame_table.map (fun g => g.kpage)).Nodup)
    (hh : s.clock_hand = .elem f.kpage)
    (halive : ∃ pg, page_deref s f.page = some pg)
    (hskip : page_pinned s f.page = true ∨ frame_accessed s f = true) :
    frame_evict_loop c (fuel + 1) s
      = frame_evict_loop c fuel (set_hand (sweep_visit s f) (next_hand s.frame_table post)) := by
  obtain ⟨pg, hpg⟩ := halive
  have hent : list_entry s.frame_table f.kpage = some f := by
    rw [hT] at hnd ⊢
    exact list_entry_split pre post f hnd
  have hva : pg.vaddr = f.page.vaddr := hash_find_vaddr hpg
  rw [page_pinned_eq hpg] at hskip
  unfold frame_accessed at hskip
  rw [frame_evict_loop]
  simp only [hh, hent, hpg]
  by_cases hp : pg.pinned = true
  · simp only [hp, if_true]
    rw [clock_advance_split s pre post f hT hnd s rfl]
    have : sweep_visit s f = s := by
      unfold sweep_visit
      rw [page_pinned_eq hpg, hp]
      rfl
    rw [this]
  · have hacc : pagedir_is_accessed s f.owner f.page.vaddr = true := by
      rcases hskip with h | h
      · exact absurd h hp
      · exact h
    simp only [hp, Bool.false_eq_true, if_false, hva, hacc, if_true]
    rw [clock_advance_split s pre post f hT hnd
      (pagedir_set_accessed s f.owner f.page.vaddr false) rfl]
    have : sweep_visit s f = pagedir_set_accessed s f.owner f.page.vaddr false := by
      unfold sweep_visit
      rw [page_pinned_eq hpg]
      simp [hp]
    rw [this]

/-- An entry whose page is neither pinned nor accessed is the victim. -/
theorem frame_evict_loop_stop (c : Consts) (fuel : Nat) (s : State) (pre post : List frame)
    (f : frame) (pg : page) (hT : s.frame_table = pre ++ f :: post)
    (hnd : (s.frame_table.map (fun g => g.kpage)).Nodup)
    (hh : s.clock_hand = .elem f.kpage) (hpg : page_deref s f.page = some pg)
    (hpin : page_pinned s f.page = false) (hacc : frame_accessed s f = false) :
    frame_evict_loop c (fuel + 1) s = frame_evict_victim c s f pg := by
  have hent : list_entry s.frame_table f.kpage = some f := by
    rw [hT] at hnd ⊢
    exact list_entry_split pre post f hnd
  have hva : pg.vaddr = f.page.vaddr := hash_find_vaddr hpg
  rw [page_pinned_eq hpg] at hpin
  unfold frame_accessed at hacc
  rw [frame_evict_loop]
  simp only [hh, hent, hpg, hpin, Bool.false_eq_true, if_false, hva, hacc]

/-! ## Passing a run of entries -/

theorem sweep_visit_swept (s : State) (f : frame) : swept s (sweep_visit s f) := by
  unfold sweep_visit
  split
  · exact swept_refl s
  · exact swept_set_accessed s _ _

theorem sweep_swept (s : State) (run : List frame) : swept s (sweep s run) := by
  induction run generalizing s with
  | nil => exact swept_refl s
  | cons f rest ih => exact swept_trans (sweep_visit_swept s f) (ih _)

theorem swept_page_pinned {s s1 : State} (h : swept s s1) (p : page_ptr) :
    page_pinned s1 p = page_pinned s p := by
  unfold page_pinned
  rw [swept_page_deref h]

theorem swept_accessed_false {s s1 : State} (h : swept s s1) (t va : Nat)
    (ha : pagedir_is_accessed s t va = false) : pagedir_is_accessed s1 t va = false := by
  unfold pagedir_is_accessed at ha ⊢
  rcases h.pagedir t va with e | ⟨e, he, he1⟩
  · rw [e]; exact ha
  · rw [he1]

theorem sweep_visit_hand (s : State) (f : frame) (h : list_elem_ptr) :
    sweep_visit (set_hand s h) f = set_hand (sweep_visit s f) h := by
  unfold sweep_visit
  have : page_pinned (set_hand s h) f.page = page_pinned s f.page := rfl
  rw [this]
  split <;> rfl

theorem set_hand_set_hand (s : State) (h h1 : list_elem_ptr) :
    set_hand (set_hand s h) h1 = set_hand s h1 := rfl

theorem set_hand_self (s : State) (h : list_elem_ptr) (e : s.clock_hand = h) :
    set_hand s h = s := by
  subst e
  rfl

theorem sweep_hand (s : State) (run : List frame) (h : list_elem_ptr) :
    sweep (set_hand s h) run = set_hand (sweep s run) h := by
  induction run generalizing s with
  | nil => rfl
  | cons f rest ih =>
    unfold sweep
    rw [sweep_visit_hand, ih]

theorem sweep_append (s : State) (a b : List frame) :
    sweep s (a ++ b) = sweep (sweep s a) b := by
  induction a generalizing s with
  | nil => rfl
  | cons f rest ih =>
    show sweep (sweep_visit s f) (rest ++ b) = sweep (sweep (sweep_visit s f) rest) b
    exact ih _

/-- The sweep leaves alone every translation that is not the one of an
unpinned page it passed. -/
theorem sweep_pagedir_other (s : State) (run : List frame) (t va : Nat)
    (h : ∀ f ∈ run, page_pinned s f.page = false → ¬ (f.owner = t ∧ f.page.vaddr = va)) :
    (sweep s run).pagedir t va = s.pagedir t va := by
  induction run generalizing s with
  | nil => rfl
  | cons f rest ih =>
    unfold sweep
    rw [ih]
    · unfold sweep_visit
      split
      · rfl
      · rename_i hp
        have hk := h f (by simp) (by simpa using hp)
        unfold pagedir_set_accessed
        have : ¬ (t = f.owner ∧ va = f.page.vaddr) := fun ⟨a, b⟩ => hk ⟨a.symm, b.symm⟩
        simp only [this, if_false]
    · intro g hg hpg
      rw [swept_page_pinned (sweep_visit_swept s f)] at hpg
      exact h g (List.mem_cons_of_mem _ hg) hpg

/-- The sweep clears the accessed bit of every unpinned page it passed. -/
theorem sweep_accessed_cleared (s : State) (run : List frame) (t va : Nat)
    (h : ∃ f ∈ run, page_pinned s f.page = false ∧ f.owner = t ∧ f.page.vaddr = va) :
    pagedir_is_accessed (sweep s run) t va = false := by
  induction run generalizing s with
  | nil => obtain ⟨f, hf, -⟩ := h; cases hf
  | cons f rest ih =>
    unfold sweep
    obtain ⟨g, hg, hgp, hgo, hgv⟩ := h
    rcases List.mem_cons.mp hg with rfl | hg
    · apply swept_accessed_false (sweep_swept _ rest)
      unfold sweep_visit
      rw [hgp]
      simp only [Bool.false_eq_true, if_false]
      unfold pagedir_is_accessed pagedir_set_accessed
      simp only [hgo, hgv, and_self, if_true]
      cases s.pagedir t va <;> rfl
    · apply ih
      exact ⟨g, hg, by rw [swept_page_pinned (sweep_visit_swept s f)]; exact hgp, hgo, hgv⟩

theorem sweep_pinned_id (s : State) (run : List frame)
    (h : ∀ f ∈ run, page_pinned s f.page = true) : sweep s run = s := by
  induction run generalizing s with
  | nil => rfl
  | cons f rest ih =>
    unfold sweep
    have : sweep_visit s f = s := by
      unfold sweep_visit
      rw [h f (by simp)]
      rfl
    rw [this]
    exact ih s (fun g hg => h g (List.mem_cons_of_mem _ hg))

/-- A run of entries whose pages are pinned or accessed costs one iteration
each; afterwards the run is swept and the hand is behind it. -/
theorem frame_evict_loop_sweep (c : Consts) :
    ∀ (run pre rest : List frame) (s : State) (fuel : Nat),
      s.frame_table = pre ++ run ++ rest →
      (s.frame_table.map (fun g => g.kpage)).Nodup →
      s.clock_hand = next_hand s.frame_table (run ++ rest) →
      (∀ f ∈ run, ∃ pg, page_deref s f.page = some pg) →
      (∀ f ∈ run, page_pinned s f.page = true ∨ frame_accessed s f = true) →
      (run.map (fun g => (g.owner, g.page.vaddr))).Nodup →
      frame_evict_loop c (fuel + run.length) s
        = frame_evict_loop c fuel (set_hand (sweep s run) (next_hand s.frame_table rest)) := by
  intro run
  induction run with
  | nil =>
    intro pre rest s fuel _ _ hh _ _ _
    rw [List.nil_append] at hh
    show frame_evict_loop c fuel s = frame_evict_loop c fuel (set_hand s _)
    rw [set_hand_self s _ hh]
  | cons f run1 ih =>
    intro pre rest s fuel hT hnd hh halive hskip hkeys
    have hT1 : s.frame_table = pre ++ f :: (run1 ++ rest) := by
      rw [hT]; simp
    have hstep := frame_evict_loop_skip c (fuel + run1.length) s pre (run1 ++ rest) f hT1 hnd
      (by rw [hh]; rfl) (halive f (by simp)) (hskip f (by simp))
    rw [List.length_cons, ← Nat.add_assoc, hstep]
    have hsw := sweep_visit_swept s f
    rw [List.map_cons, List.nodup_cons] at hkeys
    have hft : (set_hand (sweep_visit s f) (next_hand s.frame_table (run1 ++ rest))).frame_table
        = s.frame_table := hsw.frame_table
    have hih := ih (pre ++ [f]) rest
      (set_hand (sweep_visit s f) (next_hand s.frame_table (run1 ++ rest))) fuel
      (by rw [hft, hT]; simp)
      (by rw [hft]; exact hnd)
      (by rw [hft]; rfl)
      (by intro g hg
          obtain ⟨pg, hpg⟩ := halive g (List.mem_cons_of_mem _ hg)
          refine ⟨pg, ?_⟩
          show page_deref (sweep_visit s f) g.page = some pg
          rw [swept_page_deref hsw]
          exact hpg)
      (by intro g hg
          have hpin : page_pinned (set_hand (sweep_visit s f)
              (next_hand s.frame_table (run1 ++ rest))) g.page = page_pinned s g.page :=
            swept_page_pinned hsw _
          rw [hpin]
          rcases hskip g (List.mem_cons_of_mem _ hg) with h | h
          · exact Or.inl h
          · right
            have hne : ¬ (f.owner = g.owner ∧ f.page.vaddr = g.page.vaddr) := by
              intro ⟨e1, e2⟩
              apply hkeys.1
              rw [List.mem_map]
              exact ⟨g, hg, by rw [e1, e2]⟩
            have hpd : (sweep s [f]).pagedir g.owner g.page.vaddr
                = s.pagedir g.owner g.page.vaddr :=
              sweep_pagedir_other s [f] g.owner g.page.vaddr (by
                intro x hx _
                have hx1 : x = f := by simpa using hx
                subst hx1
                exact hne)
            unfold frame_accessed pagedir_is_accessed at h ⊢
            show (match (sweep s [f]).pagedir g.owner g.page.vaddr with
              | some e => e.accessed
              | none => false) = true
            rw [hpd]
            exact h)
      hkeys.2
    rw [hih, hft, sweep_hand, set_hand_set_hand]
    rfl

/-! ## Around the table -/

theorem next_hand_self (l : List frame) : next_hand l l = list_begin l := by
  cases l <;> rfl

theorem next_hand_append (l a b : List frame) (ha : a ≠ []) :
    next_hand l (a ++ b) = next_hand l a := by
  cases a with
  | nil => exact absurd rfl ha
  | cons x t => rfl

theorem list_begin_append (a b : List frame) (ha : a ≠ []) :
    list_begin (a ++ b) = next_hand (a ++ b) a := by
  cases a with
  | nil => exact absurd rfl ha
  | cons x t => rfl

/-- An entry that the loop skips stays one after a sweep over entries with
other translations. -/
theorem skip_after_sweep (s : State) (run : List frame) (g : frame)
    (hg : page_pinned s g.page = true ∨ frame_accessed s g = true)
    (hne : ∀ f ∈ run, ¬ (f.owner = g.owner ∧ f.page.vaddr = g.page.vaddr)) :
    page_pinned (sweep s run) g.page = true ∨ frame_accessed (sweep s run) g = true := by
  rw [swept_page_pinned (sweep_swept s run)]
  rcases hg with h | h
  · exact Or.inl h
  · right
    unfold frame_accessed pagedir_is_accessed at h ⊢
    rw [sweep_pagedir_other s run g.owner g.page.vaddr (fun f hf _ => hne f hf)]
    exact h

/-- The hand passes the rest of the list and goes on from the front: `post`
is the part of the table from the hand on, `a1` the entries passed after the
wrap. -/
theorem frame_evict_loop_wrap (c : Consts) (s : State) (a1 rest1 post : List frame) (fuel : Nat)
    (hT : s.frame_table = a1 ++ rest1 ++ post)
    (hnd : (s.frame_table.map (fun g => g.kpage)).Nodup)
    (hkeys : (s.frame_table.map (fun g => (g.owner, g.page.vaddr))).Nodup)
    (hh : s.clock_hand = next_hand s.frame_table post)
    (halive : ∀ f ∈ s.frame_table, ∃ pg, page_deref s f.page = some pg)
    (hskip : ∀ f ∈ post ++ a1, page_pinned s f.page = true ∨ frame_accessed s f = true) :
    frame_evict_loop c (fuel + (post ++ a1).length) s
      = frame_evict_loop c fuel
          (set_hand (sweep s (post ++ a1)) (next_hand s.frame_table (rest1 ++ post))) := by
  have hkeys1 := hkeys
  rw [hT, List.map_append, List.map_append, List.nodup_append] at hkeys1
  obtain ⟨hk1, hk2, hk3⟩ := hkeys1
  rw [List.nodup_append] at hk1
  have hsub : ∀ f, f ∈ post ∨ f ∈ a1 → f ∈ s.frame_table := by
    intro f hf
    rw [hT]
    rcases hf with h | h <;> simp [h]
  -- first the rest of the list
  have h1 := frame_evict_loop_sweep c post (a1 ++ rest1) [] s (fuel + a1.length)
    (by rw [hT]; simp) hnd (by rw [hh]; simp)
    (fun f hf => halive f (hsub f (Or.inl hf)))
    (fun f hf => hskip f (by simp [hf])) hk2
  have hsw := sweep_swept s post
  have hft : (set_hand (sweep s post) (next_hand s.frame_table [])).frame_table
      = s.frame_table := hsw.frame_table
  -- then from the front
  have h2 := frame_evict_loop_sweep c a1 [] (rest1 ++ post)
    (set_hand (sweep s post) (next_hand s.frame_table [])) fuel
    (by rw [hft, hT]; simp) (by rw [hft]; exact hnd)
    (by rw [hft]
        show list_begin s.frame_table = _
        rw [← next_hand_self s.frame_table]
        congr 1
        rw [hT]; simp)
    (by intro f hf
        obtain ⟨pg, hpg⟩ := halive f (hsub f (Or.inr hf))
        refine ⟨pg, ?_⟩
        show page_deref (sweep s post) f.page = some pg
        rw [swept_page_deref hsw]
        exact hpg)
    (by intro g hg
        show page_pinned (sweep s post) g.page = true ∨ frame_accessed (sweep s post) g = true
        apply skip_after_sweep s post g (hskip g (by simp [hg]))
        intro f hf ⟨e1, e2⟩
        refine hk3 (?_ : (g.owner, g.page.vaddr) ∈ _) ?_
        · rw [List.mem_append]
          left
          rw [List.mem_map]
          exact ⟨g, hg, rfl⟩
        · rw [List.mem_map]
          exact ⟨f, hf, by rw [e1, e2]⟩)
    hk1.1
  rw [List.length_append, Nat.add_comm post.length, ← Nat.add_assoc, h1, h2, hft, sweep_hand,
    set_hand_set_hand, sweep_append]

/-- The hand passes a run of entries in clock order and stops in front of
an entry: `post` is the part of the table from the hand on, `pre` the part
in front of it. -/
theorem frame_evict_loop_cycle (c : Consts) (s : State) (pre post run rest : List frame)
    (fuel : Nat) (hT : s.frame_table = pre ++ post)
    (hR : post ++ pre = run ++ rest) (hrest : rest ≠ [])
    (hnd : (s.frame_table.map (fun g => g.kpage)).Nodup)
    (hkeys : (s.frame_table.map (fun g => (g.owner, g.page.vaddr))).Nodup)
    (hh : s.clock_hand = next_hand s.frame_table post)
    (halive : ∀ f ∈ s.frame_table, ∃ pg, page_deref s f.page = some pg)
    (hskip : ∀ f ∈ run, page_pinned s f.page = true ∨ frame_accessed s f = true) :
    frame_evict_loop c (fuel + run.length) s
      = frame_evict_loop c fuel (set_hand (sweep s run) (next_hand s.frame_table rest)) := by
  rcases List.append_eq_append_iff.mp hR with ⟨a1, hrun, hpre⟩ | ⟨c1, hpo, hre⟩
  · -- the run wraps around the end of the list
    subst hrun
    have := frame_evict_loop_wrap c s a1 rest post fuel (by rw [hT, hpre]) hnd hkeys hh
      halive hskip
    rw [this, next_hand_append _ _ _ hrest]
  · -- the run ends before the end of the list
    have hsubl : run.Sublist s.frame_table := by
      rw [hT, hpo]
      exact ((List.sublist_append_left run c1).trans (List.sublist_append_right pre _))
    have := frame_evict_loop_sweep c run pre c1 s fuel (by rw [hT, hpo]; simp) hnd
      (by rw [hh, hpo]) (fun f hf => halive f (hsubl.subset hf)) hskip
      (hkeys.sublist (hsubl.map _))
    rw [this]
    congr 2
    cases c1 with
    | nil =>
      rw [List.nil_append] at hre
      subst hre
      rw [List.append_nil] at hpo
      show list_begin s.frame_table = _
      rw [hT]
      exact list_begin_append _ _ hrest
    | cons x t =>
      rw [hre]
      rfl

/-! ## The two ways to a victim -/

theorem frame_evict_loop_stop_at (c : Consts) (fuel : Nat) (s : State) (v : frame) (pg : page)
    (hv : v ∈ s.frame_table) (hnd : (s.frame_table.map (fun g => g.kpage)).Nodup)
    (hh : s.clock_hand = .elem v.kpage) (hpg : page_deref s v.page = some pg)
    (hpin : page_pinned s v.page = false) (hacc : frame_accessed s v = false) :
    frame_evict_loop c (fuel + 1) s = frame_evict_victim c s v pg := by
  obtain ⟨pre, post, hT⟩ := List.append_of_mem hv
  exact frame_evict_loop_stop c fuel s pre post v pg hT hnd hh hpg hpin hacc

/-- First sweep: the hand passes entries that are pinned or accessed and
stops on the first entry in clock order that is neither. -/
theorem frame_evict_loop_first (c : Consts) (s : State) (pre post run bs : List frame)
    (v : frame) (pg : page) (fuel : Nat) (hT : s.frame_table = pre ++ post)
    (hR : post ++ pre = run ++ v :: bs)
    (hnd : (s.frame_table.map (fun g => g.kpage)).Nodup)
    (hkeys : (s.frame_table.map (fun g => (g.owner, g.page.vaddr))).Nodup)
    (hh : s.clock_hand = next_hand s.frame_table post)
    (halive : ∀ f ∈ s.frame_table, ∃ pg, page_deref s f.page = some pg)
    (hskip : ∀ f ∈ run, page_pinned s f.page = true ∨ frame_accessed s f = true)
    (hpg : page_deref s v.page = some pg)
    (hpin : page_pinned s v.page = false) (hacc : frame_accessed s v = false) :
    frame_evict_loop c (fuel + 1 + run.length) s
      = frame_evict_victim c (set_hand (sweep s run) (.elem v.kpage)) v pg := by
  have hperm : (post ++ pre).Perm s.frame_table := by
    rw [hT]; exact List.perm_append_comm
  have hvT : v ∈ s.frame_table := hperm.subset (by rw [hR]; simp)
  have hkR : ((run ++ v :: bs).map (fun g => (g.owner, g.page.vaddr))).Nodup := by
    rw [← hR]
    exact (List.Perm.nodup_iff (hperm.map _)).mpr hkeys
  rw [frame_evict_loop_cycle c s pre post run (v :: bs) (fuel + 1) hT hR (by simp) hnd
    hkeys hh halive hskip]
  have hsw := sweep_swept s run
  apply frame_evict_loop_stop_at c fuel _ v pg
  · show v ∈ (sweep s run).frame_table
    rw [hsw.frame_table]; exact hvT
  · show ((sweep s run).frame_table.map _).Nodup
    rw [hsw.frame_table]; exact hnd
  · rfl
  · show page_deref (sweep s run) v.page = some pg
    rw [swept_page_deref hsw]; exact hpg
  · show page_pinned (sweep s run) v.page = false
    rw [swept_page_pinned hsw]; exact hpin
  · show frame_accessed (sweep s run) v = false
    unfold frame_accessed pagedir_is_accessed at hacc ⊢
    rw [sweep_pagedir_other s run v.owner v.page.vaddr]
    · exact hacc
    · intro f hf _ ⟨e1, e2⟩
      rw [List.map_append, List.nodup_append] at hkR
      refine hkR.2.2 (?_ : (v.owner, v.page.vaddr) ∈ _) ?_
      · rw [List.mem_map]
        exact ⟨f, hf, by rw [e1, e2]⟩
      · simp

/-- Second sweep: when every entry is pinned or accessed, the hand goes
around the table once, clears the accessed bits of the unpinned pages, and
then stops on the first entry in clock order whose page is unpinned. -/
theorem frame_evict_loop_second (c : Consts) (s : State) (pre post run bs : List frame)
    (v : frame) (pg : page) (fuel : Nat) (hT : s.frame_table = pre ++ post)
    (hR : post ++ pre = run ++ v :: bs)
    (hnd : (s.frame_table.map (fun g => g.kpage)).Nodup)
    (hkeys : (s.frame_table.map (fun g => (g.owner, g.page.vaddr))).Nodup)
    (hh : s.clock_hand = next_hand s.frame_table post)
    (halive : ∀ f ∈ s.frame_table, ∃ pg, page_deref s f.page = some pg)
    (hall : ∀ f ∈ s.frame_table, page_pinned s f.page = true ∨ frame_accessed s f = true)
    (hrun : ∀ f ∈ run, page_pinned s f.page = true)
    (hpg : page_deref s v.page = some pg) (hpin : page_pinned s v.page = false) :
    frame_evict_loop c (fuel + 1 + run.length + (post ++ pre).length) s
      = frame_evict_victim c (set_hand (sweep s (post ++ pre)) (.elem v.kpage)) v pg := by
  have hperm : (post ++ pre).Perm s.frame_table := by
    rw [hT]; exact List.perm_append_comm
  have hvR : v ∈ post ++ pre := by rw [hR]; simp
  -- once around
  rw [frame_evict_loop_wrap c s pre [] post (fuel + 1 + run.length) (by rw [hT]; simp) hnd
    hkeys hh halive (fun f hf => hall f (hperm.subset hf))]
  have hsw := sweep_swept s (post ++ pre)
  -- then along the pinned entries
  have h2 := frame_evict_loop_first c
    (set_hand (sweep s (post ++ pre)) (next_hand s.frame_table ([] ++ post))) pre post run bs v pg
    fuel (by show (sweep s (post ++ pre)).frame_table = _
             rw [hsw.frame_table]; exact hT) hR
    (by show ((sweep s (post ++ pre)).frame_table.map _).Nodup
        rw [hsw.frame_table]; exact hnd)
    (by show ((sweep s (post ++ pre)).frame_table.map _).Nodup
        rw [hsw.frame_table]; exact hkeys)
    (by show next_hand s.frame_table ([] ++ post) = next_hand (sweep s (post ++ pre)).frame_table post
        rw [hsw.frame_table]; rfl)
    (by intro f hf
        have hf1 : f ∈ s.frame_table := by
          have : f ∈ (sweep s (post ++ pre)).frame_table := hf
          rw [hsw.frame_table] at this
          exact this
        obtain ⟨pg1, hpg1⟩ := halive f hf1
        refine ⟨pg1, ?_⟩
        show page_deref (sweep s (post ++ pre)) f.page = some pg1
        rw [swept_page_deref hsw]; exact hpg1)
    (by intro f hf
        left
        show page_pinned (sweep s (post ++ pre)) f.page = true
        rw [swept_page_pinned hsw]; exact hrun f hf)
    (by show page_deref (sweep s (post ++ pre)) v.page = some pg
        rw [swept_page_deref hsw]; exact hpg)
    (by show page_pinned (sweep s (post ++ pre)) v.page = false
        rw [swept_page_pinned hsw]; exact hpin)
    (by show pagedir_is_accessed (sweep s (post ++ pre)) v.owner v.page.vaddr = false
        exact sweep_accessed_cleared s _ _ _ ⟨v, hvR, hpin, rfl, rfl⟩)
  rw [h2, sweep_hand, set_hand_set_hand]
  congr 2
  apply sweep_pinned_id
  intro f hf
  rw [swept_page_pinned hsw]
  exact hrun f hf

/-! ## The victim of `frame_evict` -/

theorem frame_table_wf_keys {s : State} (hwf : frame_table_wf s) :
    (s.frame_table.map (fun g => (g.owner, g.page.vaddr))).Nodup := by
  apply List.Nodup.map_on _ hwf.kpages.of_map
  intro x hx y hy hxy
  have h1 : x.owner = y.owner := congrArg Prod.fst hxy
  have h2 : x.page.vaddr = y.page.vaddr := congrArg Prod.snd hxy
  have hp : x.page = y.page := by
    have ox := hwf.owner x hx
    have oy := hwf.owner y hy
    cases hxp : x.page
    cases hyp : y.page
    rw [hxp] at ox h2
    rw [hyp] at oy h2
    simp only at ox oy h2
    rw [← ox, ← oy, h1, h2]
  exact List.inj_on_of_nodup_map hwf.pages hx hy hp

theorem not_evictable_iff (s : State) (f : frame) :
    (!evictable s f) = true ↔ (page_pinned s f.page = true ∨ frame_accessed s f = true) := by
  unfold evictable
  cases page_pinned s f.page <;> cases frame_accessed s f <;> simp

theorem evictable_iff (s : State) (f : frame) :
    evictable s f = true ↔ (page_pinned s f.page = false ∧ frame_accessed s f = false) := by
  unfold evictable
  cases page_pinned s f.page <;> cases frame_accessed s f <;> simp

theorem takeWhile_split {α : Type} (p : α → Bool) (as bs : List α) (v : α)
    (has : ∀ a ∈ as, p a = true) (hv : p v = false) :
    (as ++ v :: bs).takeWhile p = as := by
  induction as with
  | nil => simp [List.takeWhile, hv]
  | cons a t ih =>
    rw [List.cons_append, List.takeWhile_cons, has a (by simp)]
    simp only [if_true]
    rw [ih (fun x hx => has x (List.mem_cons_of_mem _ hx))]

theorem takeWhile_all {α : Type} (p : α → Bool) (l : List α) (h : ∀ a ∈ l, p a = true) :
    l.takeWhile p = l := by
  induction l with
  | nil => rfl
  | cons a t ih =>
    rw [List.takeWhile_cons, h a (by simp)]
    simp only [if_true]
    rw [ih (fun x hx => h x (List.mem_cons_of_mem _ hx))]

/-- The table splits at the hand: `post` from the hand to the end of the
list, `pre` in front of the hand. -/
theorem clock_start (s : State) (hhand : hand_valid s) :
    ∃ pre post, s.frame_table = pre ++ post ∧ clock_order s = post ++ pre ∧
      clock_hand_start s = set_hand s (next_hand s.frame_table post) := by
  rcases hhand with h | h | ⟨k, hk, f, hf, hfk⟩
  · refine ⟨[], s.frame_table, rfl, ?_, ?_⟩
    · unfold clock_order; rw [h]; simp
    · unfold clock_hand_start; rw [h, next_hand_self]; simp [set_hand]
  · refine ⟨[], s.frame_table, rfl, ?_, ?_⟩
    · unfold clock_order; rw [h]; simp
    · unfold clock_hand_start; rw [h, next_hand_self]; simp [set_hand]
  · refine ⟨s.frame_table.takeWhile (fun f => decide (f.kpage ≠ k)),
      s.frame_table.dropWhile (fun f => decide (f.kpage ≠ k)),
      (List.takeWhile_append_dropWhile _ _).symm, ?_, ?_⟩
    · unfold clock_order; rw [hk]
    · have hstart : clock_hand_start s = s := by
        unfold clock_hand_start; rw [hk]; simp
      rw [hstart]
      symm
      apply set_hand_self
      rw [hk]
      cases hdw : s.frame_table.dropWhile (fun f => decide (f.kpage ≠ k)) with
      | nil =>
        rw [List.dropWhile_eq_nil_iff] at hdw
        have := hdw f hf
        simp [hfk] at this
      | cons x t =>
        have := List.head_dropWhile_not (fun f => decide (f.kpage ≠ k)) s.frame_table
          (by rw [hdw]; simp)
        simp only [hdw, List.head_cons] at this
        have hx : x.kpage = k := by simpa using this
        simp [next_hand, hx]

/-- The victim of `frame_evict` on a well-formed table with an unpinned
page: the loop stops within two sweeps on `clock_victim`, in the state
`clock_select`. -/
theorem frame_evict_select (c : Consts) (s : State) (hwf : frame_table_wf s)
    (hhand : hand_valid s) (hunp : ∃ f ∈ s.frame_table, page_pinned s f.page = false) :
    ∃ v pg, clock_victim s = some v ∧ v ∈ s.frame_table ∧ page_deref s v.page = some pg ∧
      page_pinned s v.page = false ∧
      ∀ fuel, 2 * s.frame_table.length ≤ fuel →
        frame_evict_loop c fuel (clock_hand_start s)
          = frame_evict_victim c (clock_select s v) v pg := by
  obtain ⟨pre, post, hT, hord, hstart⟩ := clock_start s hhand
  have hkeys := frame_table_wf_keys hwf
  have hperm : (post ++ pre).Perm s.frame_table := by
    rw [hT]; exact List.perm_append_comm
  have hlen : (post ++ pre).length = s.frame_table.length := hperm.length_eq
  cases hfind : (clock_order s).find? (evictable s) with
  | some v =>
    obtain ⟨hev, run, bs, hR, hrun⟩ := List.find?_eq_some.mp hfind
    rw [evictable_iff] at hev
    have hvT : v ∈ s.frame_table := hperm.subset (by rw [← hord, hR]; simp)
    obtain ⟨pg, hpg⟩ := Option.isSome_iff_exists.mp (hwf.alive v hvT)
    have hvis : clock_visited s = run := by
      unfold clock_visited
      rw [hR]
      apply takeWhile_split _ _ _ _ hrun
      simp [evictable_iff, hev.1, hev.2]
    refine ⟨v, pg, ?_, hvT, hpg, hev.1, ?_⟩
    · unfold clock_victim; rw [hfind]
    · intro fuel hfuel
      have hl : run.length + 1 ≤ s.frame_table.length := by
        rw [← hlen, ← hord, hR]; simp
      obtain ⟨f0, rfl⟩ : ∃ f0, fuel = f0 + 1 + run.length := ⟨fuel - 1 - run.length, by omega⟩
      rw [hstart]
      rw [frame_evict_loop_first c (set_hand s (next_hand s.frame_table post)) pre post run bs v
        pg f0 hT (by rw [← hord, hR]) hwf.kpages hkeys rfl
        (fun f hf => Option.isSome_iff_exists.mp (hwf.alive f hf))
        (fun f hf => (not_evictable_iff s f).mp (hrun f hf)) hpg hev.1 hev.2]
      rw [sweep_hand, set_hand_set_hand]
      unfold clock_select
      rw [hvis]
  | none =>
    have hnone : ∀ f ∈ clock_order s, (!evictable s f) = true := by
      intro f hf
      have := List.find?_eq_none.mp hfind f hf
      simpa using this
    obtain ⟨u, hu, hup⟩ := hunp
    have huR : u ∈ clock_order s := by rw [hord]; exact hperm.symm.subset hu
    cases hfind2 : (clock_order s).find? (fun f => !page_pinned s f.page) with
    | none =>
      have := List.find?_eq_none.mp hfind2 u huR
      simp [hup] at this
    | some v =>
      obtain ⟨hvp, run, bs, hR, hrun⟩ := List.find?_eq_some.mp hfind2
      have hvp1 : page_pinned s v.page = false := by simpa using hvp
      have hvT : v ∈ s.frame_table := hperm.subset (by rw [← hord, hR]; simp)
      obtain ⟨pg, hpg⟩ := Option.isSome_iff_exists.mp (hwf.alive v hvT)
      have hvis : clock_visited s = post ++ pre := by
        unfold clock_visited
        rw [takeWhile_all _ _ hnone, hord]
      refine ⟨v, pg, ?_, hvT, hpg, hvp1, ?_⟩
      · unfold clock_victim; rw [hfind, hfind2]
      · intro fuel hfuel
        have hl : run.length + 1 ≤ s.frame_table.length := by
          rw [← hlen, ← hord, hR]; simp
        obtain ⟨f0, rfl⟩ : ∃ f0, fuel = f0 + 1 + run.length + (post ++ pre).length :=
          ⟨fuel - 1 - run.length - (post ++ pre).length, by omega⟩
        rw [hstart]
        rw [frame_evict_loop_second c (set_hand s (next_hand s.frame_table post)) pre post run bs
          v pg f0 hT (by rw [← hord, hR]) hwf.kpages hkeys rfl
        (fun f hf => Option.isSome_iff_exists.mp (hwf.alive f hf))
          (fun f hf => (not_evictable_iff s f).mp
            (hnone f (by rw [hord]; exact hperm.symm.subset hf)))
          (fun f hf => by simpa using hrun f hf) hpg hvp1]
        rw [sweep_hand, set_hand_set_hand]
        unfold clock_select
        rw [hvis]

/-! ## The swap store -/

theorem bitmap_scan_from_spec (v : Bool) :
    ∀ (b : List Bool) (start idx : Nat), bitmap_scan_from v b start = some idx →
      start ≤ idx ∧ idx - start < b.length ∧ b[idx - start]? = some v ∧
        ∀ j, j < idx - start → b[j]? ≠ some v := by
  intro b
  induction b with
  | nil => intro start idx h; cases h
  | cons a t ih =>
    intro start idx h
    unfold bitmap_scan_from at h
    by_cases ha : a = v
    · simp only [ha, if_true, Option.some.injEq] at h
      subst h
      simp [ha]
    · simp only [ha, if_false] at h
      obtain ⟨h1, h2, h3, h4⟩ := ih _ _ h
      have e : idx - start = (idx - (start + 1)) + 1 := by omega
      refine ⟨by omega, by rw [e]; simp; omega, by rw [e]; simpa using h3, ?_⟩
      intro j hj
      cases j with
      | zero => simpa using ha
      | succ j =>
        have := h4 j (by omega)
        simpa using this

theorem bitmap_scan_from_some (v : Bool) :
    ∀ (b : List Bool) (start : Nat), v ∈ b → ∃ idx, bitmap_scan_from v b start = some idx := by
  intro b
  induction b with
  | nil => intro start h; cases h
  | cons a t ih =>
    intro start h
    unfold bitmap_scan_from
    by_cases ha : a = v
    · exact ⟨start, by simp [ha]⟩
    · simp only [ha, if_false]
      apply ih
      rcases List.mem_cons.mp h with h | h
      · exact absurd h.symm ha
      · exact h

theorem block_write_size {c : Consts} {dev dev1 : block} {sector buf : Nat} {mem : Nat → Nat}
    (h : block_write c dev sector mem buf = .ok dev1) : dev1.size = dev.size := by
  unfold block_write at h
  split at h
  · cases h; rfl
  · cases h

theorem block_write_ok (c : Consts) (dev : block) (sector buf : Nat) (mem : Nat → Nat)
    (hlt : sector < dev.size) :
    ∃ dev1, block_write c dev sector mem buf = .ok dev1 ∧ dev1.size = dev.size ∧
      ∀ sec off, dev1.data sec off =
        if sec = sector ∧ off < c.BLOCK_SECTOR_SIZE then mem (buf + off) else dev.data sec off := by
  unfold block_write
  rw [if_pos hlt]
  exact ⟨_, rfl, rfl, fun _ _ => rfl⟩

theorem block_read_ok (c : Consts) (dev : block) (sector buf : Nat) (mem : Nat → Nat)
    (hlt : sector < dev.size) :
    ∃ mem1, block_read c dev sector mem buf = .ok mem1 ∧
      ∀ a, mem1 a =
        if buf ≤ a ∧ a < buf + c.BLOCK_SECTOR_SIZE then dev.data sector (a - buf) else mem a := by
  unfold block_read
  rw [if_pos hlt]
  exact ⟨_, rfl, fun _ => rfl⟩

/-- The write loop of `swap_out` succeeds when its sectors are on the
device, and leaves on the device the bytes of the page, sector by sector. -/
theorem swap_out_loop_ok (c : Consts) (slot frame : Nat) (mem : Nat → Nat) :
    ∀ (n i : Nat) (dev : block),
      (∀ j, i ≤ j → j < i + n → slot * SECTORS_PER_PAGE c + j < dev.size) →
      ∃ dev1, swap_out_loop c slot frame mem n i dev = .ok dev1 ∧ dev1.size = dev.size ∧
        ∀ sec off, dev1.data sec off =
          if (slot * SECTORS_PER_PAGE c + i ≤ sec ∧ sec < slot * SECTORS_PER_PAGE c + i + n) ∧
              off < c.BLOCK_SECTOR_SIZE then
            mem (frame + (sec - slot * SECTORS_PER_PAGE c) * c.BLOCK_SECTOR_SIZE + off)
          else dev.data sec off := by
  intro n
  induction n with
  | zero =>
    intro i dev _
    refine ⟨dev, rfl, rfl, ?_⟩
    intro sec off
    have : ¬ ((slot * SECTORS_PER_PAGE c + i ≤ sec ∧ sec < slot * SECTORS_PER_PAGE c + i + 0) ∧
        off < c.BLOCK_SECTOR_SIZE) := by omega
    rw [if_neg this]
  | succ n ih =>
    intro i dev hin
    unfold swap_out_loop
    have hlt : slot * SECTORS_PER_PAGE c + i < dev.size := hin i (Nat.le_refl _) (by omega)
    obtain ⟨dev0, hw, hsz, hdata⟩ := block_write_ok c dev (slot * SECTORS_PER_PAGE c + i)
      (frame + i * c.BLOCK_SECTOR_SIZE) mem hlt
    rw [hw]
    simp only
    obtain ⟨dev1, h1, h2, h3⟩ := ih (i + 1) dev0
      (fun j hj1 hj2 => by rw [hsz]; exact hin j (by omega) (by omega))
    refine ⟨dev1, h1, h2.trans hsz, ?_⟩
    intro sec off
    rw [h3, hdata]
    by_cases hoff : off < c.BLOCK_SECTOR_SIZE
    · by_cases hs : sec = slot * SECTORS_PER_PAGE c + i
      · subst hs
        have e : slot * SECTORS_PER_PAGE c + i - slot * SECTORS_PER_PAGE c = i := by omega
        rw [if_neg (by omega), if_pos ⟨rfl, hoff⟩, if_pos ⟨⟨by omega, by omega⟩, hoff⟩, e]
      · by_cases hr : slot * SECTORS_PER_PAGE c + (i + 1) ≤ sec ∧
            sec < slot * SECTORS_PER_PAGE c + (i + 1) + n
        · rw [if_pos ⟨hr, hoff⟩, if_pos ⟨⟨by omega, by omega⟩, hoff⟩]
        · rw [if_neg (fun h => hr h.1), if_neg (fun h => hs h.1), if_neg (fun h => by omega)]
    · rw [if_neg (fun h => hoff h.2), if_neg (fun h => hoff h.2), if_neg (fun h => hoff h.2)]

/-- The read loop of `swap_in` succeeds when its sectors are on the device,
and leaves in the frame the bytes of the slot, sector by sector. -/
theorem swap_in_loop_ok (c : Consts) (slot frame : Nat) (dev : block) :
    ∀ (n i : Nat) (mem : Nat → Nat),
      (∀ j, i ≤ j → j < i + n → slot * SECTORS_PER_PAGE c + j < dev.size) →
      ∃ mem1, swap_in_loop c slot frame dev n i mem = .ok mem1 ∧
        (∀ j off, i ≤ j → j < i + n → off < c.BLOCK_SECTOR_SIZE →
          mem1 (frame + j * c.BLOCK_SECTOR_SIZE + off)
            = dev.data (slot * SECTORS_PER_PAGE c + j) off) ∧
        (∀ a, (a < frame + i * c.BLOCK_SECTOR_SIZE ∨ frame + (i + n) * c.BLOCK_SECTOR_SIZE ≤ a) →
          mem1 a = mem a) := by
  intro n
  induction n with
  | zero =>
    intro i mem _
    exact ⟨mem, rfl, fun j off h1 h2 => by omega, fun _ _ => rfl⟩
  | succ n ih =>
    intro i mem hin
    unfold swap_in_loop
    have hlt : slot * SECTORS_PER_PAGE c + i < dev.size := hin i (Nat.le_refl _) (by omega)
    obtain ⟨mem0, hr, hm0⟩ := block_read_ok c dev (slot * SECTORS_PER_PAGE c + i)
      (frame + i * c.BLOCK_SECTOR_SIZE) mem hlt
    rw [hr]
    simp only
    obtain ⟨mem1, h1, h2, h3⟩ := ih (i + 1) mem0 (fun j hj1 hj2 => hin j (by omega) (by omega))
    have hmul : (i + 1) * c.BLOCK_SECTOR_SIZE = i * c.BLOCK_SECTOR_SIZE + c.BLOCK_SECTOR_SIZE :=
      Nat.succ_mul _ _
    refine ⟨mem1, h1, ?_, ?_⟩
    · intro j off hj1 hj2 hoff
      by_cases hji : j = i
      · subst hji
        rw [h3 _ (Or.inl (by rw [hmul]; omega)), hm0, if_pos ⟨by omega, by omega⟩]
        congr 1
        omega
      · exact h2 j off (by omega) (by omega) hoff
    · intro a ha
      have hmul2 : (i + (n + 1)) * c.BLOCK_SECTOR_SIZE
          = (i + 1 + n) * c.BLOCK_SECTOR_SIZE := by
        congr 1; omega
      have hle : (i + 1) * c.BLOCK_SECTOR_SIZE ≤ (i + 1 + n) * c.BLOCK_SECTOR_SIZE :=
        Nat.mul_le_mul_right _ (by omega)
      rw [h3 a (by
        rcases ha with ha | ha
        · left; rw [hmul]; omega
        · right; rw [← hmul2]; exact ha), hm0, if_neg]
      intro ⟨h4, h5⟩
      rcases ha with ha | ha
      · omega
      · rw [hmul2] at ha
        rw [hmul] at hle
        omega

theorem slot_sector_lt (c : Consts) (len size slot j : Nat) (hslot : slot < len)
    (hsize : len * SECTORS_PER_PAGE c ≤ size) (hj : j < SECTORS_PER_PAGE c) :
    slot * SECTORS_PER_PAGE c + j < size := by
  have h1 : (slot + 1) * SECTORS_PER_PAGE c ≤ len * SECTORS_PER_PAGE c :=
    Nat.mul_le_mul_right _ hslot
  rw [Nat.succ_mul] at h1
  omega

/-- With a free slot on a well-formed swap store `swap_out` returns: it takes
a free slot, marks it, and the slot holds the bytes of the page. -/
theorem swap_out_ok (c : Consts) (s : State) (k : Nat) (hwf : swap_wf c s)
    (hfree : false ∈ s.swap_bitmap) :
    ∃ slot dev dev1, swap_out c s k = .ok (slot,
        { s with swap_bitmap := bitmap_flip s.swap_bitmap slot, swap_device := some dev1 }) ∧
      s.swap_device = some dev ∧ s.swap_bitmap[slot]? = some false ∧
      slot < s.swap_bitmap.length ∧ dev1.size = dev.size ∧
      ∀ j off, j < SECTORS_PER_PAGE c → off < c.BLOCK_SECTOR_SIZE →
        dev1.data (slot * SECTORS_PER_PAGE c + j) off = s.mem (k + j * c.BLOCK_SECTOR_SIZE + off) := by
  obtain ⟨slot, hscan⟩ := bitmap_scan_from_some false s.swap_bitmap 0 hfree
  obtain ⟨-, hlt, hbit, -⟩ := bitmap_scan_from_spec false _ _ _ hscan
  rw [Nat.sub_zero] at hlt hbit
  obtain ⟨hlen, hdev⟩ := hwf
  cases hd : s.swap_device with
  | none =>
    rw [hd] at hdev
    simp only at hdev
    rw [hdev] at hlt
    cases hlt
  | some dev =>
    rw [hd] at hdev
    simp only at hdev
    obtain ⟨dev1, hloop, hsz, hdata⟩ := swap_out_loop_ok c slot k s.mem (SECTORS_PER_PAGE c) 0 dev
      (fun j _ hj => slot_sector_lt c _ _ _ _ hlt hdev (by omega))
    refine ⟨slot, dev, dev1, ?_, rfl, hbit, hlt, hsz, ?_⟩
    · unfold swap_out bitmap_scan_and_flip
      simp only [hscan, hd, hloop]
      rw [if_neg (by omega)]
    · intro j off hj hoff
      have e : slot * SECTORS_PER_PAGE c + j - slot * SECTORS_PER_PAGE c = j := by omega
      rw [hdata, if_pos ⟨⟨by omega, by omega⟩, hoff⟩, e]

/-- On an occupied slot of a well-formed swap store `swap_in` returns: the
frame holds the bytes of the slot and the slot is free. -/
theorem swap_in_ok (c : Consts) (s : State) (slot k : Nat) (dev : block)
    (hdev : s.swap_device = some dev)
    (hsize : s.swap_bitmap.length * SECTORS_PER_PAGE c ≤ dev.size)
    (hbit : s.swap_bitmap[slot]? = some true) :
    ∃ mem1, swap_in c s slot k = .ok
        { s with mem := mem1, swap_bitmap := bitmap_flip s.swap_bitmap slot } ∧
      ∀ j off, j < SECTORS_PER_PAGE c → off < c.BLOCK_SECTOR_SIZE →
        mem1 (k + j * c.BLOCK_SECTOR_SIZE + off) = dev.data (slot * SECTORS_PER_PAGE c + j) off := by
  have hlt : slot < s.swap_bitmap.length := by
    by_contra h
    rw [List.getElem?_eq_none (by omega)] at hbit
    cases hbit
  obtain ⟨mem1, hloop, hdata, -⟩ := swap_in_loop_ok c slot k dev (SECTORS_PER_PAGE c) 0 s.mem
    (fun j _ hj => slot_sector_lt c _ _ _ _ hlt hsize (by omega))
  refine ⟨mem1, ?_, fun j off hj hoff => hdata j off (Nat.zero_le _) (by omega) hoff⟩
  unfold swap_in bitmap_test
  simp only [hbit, hdev, hloop]

/-- Whether `swap_out` panics depends on the swap store and the memory
only. -/
theorem swap_out_error_congr {c : Consts} {s s1 : State} {k : Nat} {e : Err}
    (hb : s1.swap_bitmap = s.swap_bitmap) (hd : s1.swap_device = s.swap_device)
    (hm : s1.mem = s.mem) (h : swap_out c s1 k = .error e) : swap_out c s k = .error e := by
  unfold swap_out at h ⊢
  rw [hb, hd, hm] at h
  simp only at h ⊢
  by_cases h1 : (bitmap_scan_and_flip c s.swap_bitmap false).1 = c.BITMAP_ERROR
  · rw [if_pos h1] at h ⊢
    exact h
  · rw [if_neg h1] at h ⊢
    cases hdev : s.swap_device with
    | none =>
      simp only [hdev] at h ⊢
      by_cases h2 : SECTORS_PER_PAGE c = 0
      · rw [if_pos h2] at h
        cases h
      · rw [if_neg h2] at h ⊢
        exact h
    | some dev =>
      simp only [hdev] at h ⊢
      cases hl : swap_out_loop c (bitmap_scan_and_flip c s.swap_bitmap false).1 k s.mem
          (SECTORS_PER_PAGE c) 0 dev with
      | ok d => rw [hl] at h; cases h
      | error e1 =>
        rw [hl] at h
        exact h

/-! ## What the victim part changes -/

theorem frame_table_wf_alive {s : State} (hwf : frame_table_wf s) :
    ∀ f ∈ s.frame_table, ∃ pg, page_deref s f.page = some pg := by
  intro f hf
  exact Option.isSome_iff_exists.mp (hwf.alive f hf)

theorem frame_evict_victim_effects {c : Consts} {sel s1 : State} {v r : frame} {pg : page}
    (h : frame_evict_victim c sel v pg = .ok (r, s1)) :
    r = v ∧ s1.frame_table = list_remove sel.frame_table v.kpage ∧
      (∀ t va, s1.pagedir t va
        = if t = v.owner ∧ va = pg.vaddr then none else sel.pagedir t va) ∧
      (∀ q, q ≠ v.page → page_deref s1 q = page_deref sel q) ∧
      s1.mem = sel.mem ∧ s1.free_pages = sel.free_pages ∧ s1.current = sel.current := by
  obtain ⟨hr, sw, hand, hswap, rfl⟩ := frame_evict_victim_shape h
  refine ⟨hr, ?_⟩
  have hdet : ∀ q, q ≠ v.page →
      page_deref (frame_evict_detach sw v pg) q = page_deref sw q := by
    intro q hq
    unfold frame_evict_detach
    show page_deref (page_assign (pagedir_clear_page sw v.owner pg.vaddr) v.page _) q = _
    rw [page_deref_assign_ne _ _ _ _ _ hq]
    · rfl
    · intro _; rfl
  rcases frame_evict_swap_shape hswap with ⟨-, -, rfl⟩ | ⟨-, slot, s2, hout, rfl⟩
  · exact ⟨rfl, fun _ _ => rfl, hdet, rfl, rfl, rfl⟩
  · obtain ⟨-, dev1, rfl⟩ := swap_out_shape hout
    refine ⟨rfl, fun _ _ => rfl, ?_, rfl, rfl, rfl⟩
    intro q hq
    show page_deref (frame_evict_detach _ v pg) q = _
    rw [hdet q hq, page_deref_assign_ne _ _ _ _ _ hq]
    · rfl
    · intro _; rfl

theorem frame_evict_victim_error {c : Consts} {sel : State} {v : frame} {pg : page} {e : Err}
    (hin : ∃ f ∈ sel.frame_table, f.kpage = v.kpage)
    (h : frame_evict_victim c sel v pg = .error e) : swap_out c sel v.kpage = .error e := by
  unfold frame_evict_victim at h
  cases hsw : frame_evict_swap c sel v pg with
  | error e1 =>
    rw [hsw] at h
    simp only at h
    cases h
    unfold frame_evict_swap at hsw
    split at hsw
    · cases hout : swap_out c sel v.kpage with
      | error e2 =>
        rw [hout] at hsw
        simp only at hsw
        cases hsw
        rfl
      | ok r =>
        rw [hout] at hsw
        cases hsw
    · cases hsw
  | ok sw =>
    rw [hsw] at h
    simp only at h
    obtain ⟨hd, hnext, -⟩ := list_next_mem _ _ hin
    unfold clock_advance at h
    rw [hnext] at h
    cases hd <;> simp at h

theorem swap_out_loop_error {c : Consts} {slot frame : Nat} {mem : Nat → Nat} {e : Err} :
    ∀ (n i : Nat) (dev : block), swap_out_loop c slot frame mem n i dev = .error e →
      e = .assertion := by
  intro n
  induction n with
  | zero => intro i dev h; cases h
  | succ n ih =>
    intro i dev h
    unfold swap_out_loop at h
    cases hw : block_write c dev (slot * SECTORS_PER_PAGE c + i) mem
        (frame + i * c.BLOCK_SECTOR_SIZE) with
    | ok d =>
      rw [hw] at h
      exact ih _ _ h
    | error e1 =>
      rw [hw] at h
      simp only at h
      cases h
      unfold block_write at hw
      split at hw
      · cases hw
      · cases hw; rfl

theorem swap_out_error_kind {c : Consts} {s : State} {k : Nat} {e : Err}
    (h : swap_out c s k = .error e) : e ≠ .out_of_fuel := by
  unfold swap_out at h
  simp only at h
  split at h
  · cases h; simp
  · cases hdev : s.swap_device with
    | none =>
      simp only [hdev] at h
      split at h
      · cases h
      · cases h; simp
    | some dev =>
      simp only [hdev] at h
      cases hl : swap_out_loop c (bitmap_scan_and_flip c s.swap_bitmap false).1 k s.mem
          (SECTORS_PER_PAGE c) 0 dev with
      | ok d => rw [hl] at h; cases h
      | error e1 =>
        rw [hl] at h
        cases h
        rw [swap_out_loop_error _ _ _ hl]
        simp

theorem mem_list_remove (l : List frame) (g : frame) (k : Nat) (hg : g ∈ l)
    (hk : g.kpage ≠ k) : g ∈ list_remove l k := by
  unfold list_remove
  rw [List.mem_eraseP_of_neg (by simpa using hk)]
  exact hg

/-- Two entries of a well-formed table with the same translation are entries
for the same descriptor. -/
theorem frame_table_wf_key {s : State} (hwf : frame_table_wf s) {f g : frame}
    (hf : f ∈ s.frame_table) (hg : g ∈ s.frame_table)
    (h : f.owner = g.owner ∧ f.page.vaddr = g.page.vaddr) : f.page = g.page := by
  have o1 := hwf.owner f hf
  have o2 := hwf.owner g hg
  cases hfp : f.page
  cases hgp : g.page
  rw [hfp] at o1 h
  rw [hgp] at o2 h
  simp only at o1 o2 h
  rw [← o1, ← o2, h.1, h.2]

theorem clock_visited_subset (s : State) (hhand : hand_valid s) :
    ∀ f ∈ clock_visited s, f ∈ s.frame_table := by
  obtain ⟨pre, post, hT, hord, -⟩ := clock_start s hhand
  intro f hf
  unfold clock_visited at hf
  have h1 : f ∈ clock_order s := (List.takeWhile_sublist _).subset hf
  rw [hord] at h1
  rw [hT]
  rcases List.mem_append.mp h1 with h | h <;> simp [h]

/-- The state in which the victim part runs differs from the state at the
call in accessed bits of unpinned pages (and the hand) only. -/
theorem clock_select_pinned {s : State} (hwf : frame_table_wf s) (hhand : hand_valid s)
    (v g : frame) (hg : g ∈ s.frame_table) (hgp : page_pinned s g.page = true) :
    (clock_select s v).pagedir g.owner g.page.vaddr = s.pagedir g.owner g.page.vaddr := by
  unfold clock_select
  show (sweep s (clock_visited s)).pagedir _ _ = _
  apply sweep_pagedir_other
  intro f hf hfp hkey
  have := frame_table_wf_key hwf (clock_visited_subset s hhand f hf) hg hkey
  rw [this, hgp] at hfp
  cases hfp

theorem frame_evict_eq_loop (c : Consts) (fuel : Nat) (s : State) (hne : s.frame_table ≠ []) :
    frame_evict c fuel s =
      match frame_evict_loop c fuel (clock_hand_start s) with
      | .ok (victim, s2) => .ok (some victim, s2)
      | .error e => .error e := by
  unfold frame_evict
  have : s.frame_table.isEmpty = false := by
    cases h : s.frame_table with
    | nil => exact absurd h hne
    | cons a t => rfl
  rw [this]
  rfl

/-! ## Eviction spares pinned pages -/

theorem clock_select_swept (s : State) (v : frame) : swept s (clock_select s v) := by
  unfold clock_select set_hand
  exact swept_trans (sweep_swept s _) (swept_clock_hand _ _)

/-- On a well-formed table with an unpinned page, `frame_evict` is the
victim part run on `clock_victim` in the state `clock_select`, for every
fuel of at least two sweeps. -/
theorem frame_evict_eq_victim (c : Consts) (s : State) (hwf : frame_table_wf s)
    (hhand : hand_valid s) (hunp : ∃ f ∈ s.frame_table, page_pinned s f.page = false) :
    ∃ v pg, clock_victim s = some v ∧ v ∈ s.frame_table ∧ page_deref s v.page = some pg ∧
      page_pinned s v.page = false ∧
      ∀ fuel, 2 * s.frame_table.length ≤ fuel →
        frame_evict c fuel s =
          match frame_evict_victim c (clock_select s v) v pg with
          | .ok (r, s1) => .ok (some r, s1)
          | .error e => .error e := by
  obtain ⟨v, pg, h1, h2, h3, h4, h5⟩ := frame_evict_select c s hwf hhand hunp
  refine ⟨v, pg, h1, h2, h3, h4, ?_⟩
  intro fuel hfuel
  have hne : s.frame_table ≠ [] := by
    intro e
    rw [e] at h2
    cases h2
  rw [frame_evict_eq_loop c fuel s hne, h5 fuel hfuel]

/-- C4: on a well-formed frame table with at least one unpinned page and the
clock hand NULL, at the end of the list or on an entry, `frame_evict`
terminates within `2 * n` iterations (each of the `n` entries is visited at
most twice; more fuel changes nothing).  It ends in the panic of `swap_out`
on the unpinned victim or returns, and it returns whenever the swap store is
well formed with a free slot.  The entry it returns backs an unpinned page,
and every entry of a pinned page is still in the table, with its translation
and its descriptor unchanged. -/
theorem frame_evict_spares_pinned (c : Consts) (s : State) (fuel : Nat)
    (hwf : frame_table_wf s) (hhand : hand_valid s)
    (hunp : ∃ f ∈ s.frame_table, page_pinned s f.page = false)
    (hfuel : 2 * s.frame_table.length ≤ fuel) :
    frame_evict c fuel s = frame_evict c (2 * s.frame_table.length) s ∧
    (∀ e, frame_evict c fuel s = .error e →
      e ≠ .out_of_fuel ∧
        ∃ v ∈ s.frame_table, page_pinned s v.page = false ∧ swap_out c s v.kpage = .error e) ∧
    (swap_wf c s → false ∈ s.swap_bitmap → ∃ v s1, frame_evict c fuel s = .ok (some v, s1)) ∧
    (∀ r s1, frame_evict c fuel s = .ok (r, s1) →
      ∃ v, r = some v ∧ v ∈ s.frame_table ∧ page_pinned s v.page = false ∧
        ∀ g ∈ s.frame_table, page_pinned s g.page = true →
          g ∈ s1.frame_table ∧
          s1.pagedir g.owner g.page.vaddr = s.pagedir g.owner g.page.vaddr ∧
          page_deref s1 g.page = page_deref s g.page) := by
  obtain ⟨v, pg, -, hvT, hpg, hvp, heq⟩ := frame_evict_eq_victim c s hwf hhand hunp
  have hsw := clock_select_swept s v
  have hva : pg.vaddr = v.page.vaddr := hash_find_vaddr hpg
  have herr : ∀ e, frame_evict_victim c (clock_select s v) v pg = .error e →
      swap_out c s v.kpage = .error e := by
    intro e he
    have h1 := frame_evict_victim_error (by
      rw [hsw.frame_table]
      exact ⟨v, hvT, rfl⟩) he
    exact swap_out_error_congr hsw.swap_bitmap hsw.swap_device hsw.mem h1
  refine ⟨by rw [heq fuel hfuel, heq _ (Nat.le_refl _)], ?_, ?_, ?_⟩
  · intro e he
    rw [heq fuel hfuel] at he
    cases hv : frame_evict_victim c (clock_select s v) v pg with
    | ok r =>
      rw [hv] at he
      cases he
    | error e1 =>
      rw [hv] at he
      simp only at he
      cases he
      exact ⟨swap_out_error_kind (herr _ hv), v, hvT, hvp, herr _ hv⟩
  · intro hswf hfree
    rw [heq fuel hfuel]
    cases hv : frame_evict_victim c (clock_select s v) v pg with
    | ok r => exact ⟨r.1, r.2, rfl⟩
    | error e1 =>
      obtain ⟨slot, dev, dev1, hok, -⟩ := swap_out_ok c s v.kpage hswf hfree
      rw [herr _ hv] at hok
      cases hok
  · intro r s1 hok
    rw [heq fuel hfuel] at hok
    cases hv : frame_evict_victim c (clock_select s v) v pg with
    | error e1 =>
      rw [hv] at hok
      cases hok
    | ok r1 =>
      obtain ⟨r2, s2⟩ := r1
      rw [hv] at hok
      simp only at hok
      cases hok
      obtain ⟨hr, hft, hpd, hpages, -, -, -⟩ := frame_evict_victim_effects hv
      subst hr
      refine ⟨r2, rfl, hvT, hvp, ?_⟩
      intro g hg hgp
      have hgv : g.page ≠ r2.page := by
        intro e
        rw [e, hvp] at hgp
        cases hgp
      refine ⟨?_, ?_, ?_⟩
      · rw [hft, hsw.frame_table]
        apply mem_list_remove _ _ _ hg
        intro e
        apply hgv
        rw [List.inj_on_of_nodup_map hwf.kpages hg hvT e]
      · rw [hpd, if_neg, clock_select_pinned hwf hhand r2 g hg hgp]
        intro ⟨e1, e2⟩
        exact hgv (frame_table_wf_key hwf hg hvT ⟨e1, e2.trans hva⟩)
      · rw [hpages _ hgv, swept_page_deref hsw]

/-- C4, witness: a table of a pinned and an unpinned, accessed and dirty
page with the hand on the second entry; `frame_evict` returns within four
iterations. -/
theorem frame_evict_spares_pinned_witness :
    frame_table_wf ex_two ∧ hand_valid ex_two ∧
    (∃ f ∈ ex_two.frame_table, page_pinned ex_two f.page = false) ∧
    2 * ex_two.frame_table.length ≤ 4 ∧
    ∃ v s1, frame_evict ex_consts 4 ex_two = .ok (some v, s1) :=
  have hwf : frame_table_wf ex_two := ⟨by decide, by decide, by decide, by decide⟩
  have hhand : hand_valid ex_two :=
    Or.inr (Or.inr ⟨2000, rfl, ⟨2000, ⟨1, 24⟩, 1⟩, by decide, rfl⟩)
  have hunp : ∃ f ∈ ex_two.frame_table, page_pinned ex_two f.page = false :=
    ⟨⟨2000, ⟨1, 24⟩, 1⟩, by decide, by decide⟩
  ⟨hwf, hhand, hunp, by decide,
    (frame_evict_spares_pinned ex_consts ex_two 4 hwf hhand hunp (by decide)).2.2.1
      ⟨by decide, (by decide : [true, false].length * SECTORS_PER_PAGE ex_consts ≤ 4)⟩
      (by decide)⟩

/-! ## Second-chance selection -/

/-- C6: on a well-formed frame table with at least one unpinned page, read
in cyclic order from the clock hand, `frame_evict` runs its victim part on
`clock_victim`: the first unpinned entry with a clear accessed bit, or, when
every unpinned entry's accessed bit is set, the first unpinned entry at or
after the hand (reached on the second sweep).  It does so in the state
`clock_select`, in which exactly the unpinned entries passed before the
victim (`clock_visited`) have lost their accessed bit while pinned and
unvisited entries kept theirs; whenever `frame_evict` returns, it returns
that victim and the accessed bits of all other entries are still those. -/
theorem frame_evict_second_chance (c : Consts) (s : State)
    (hwf : frame_table_wf s) (hhand : hand_valid s)
    (hunp : ∃ f ∈ s.frame_table, page_pinned s f.page = false) :
    ∃ v pg, clock_victim s = some v ∧ v ∈ s.frame_table ∧ page_pinned s v.page = false ∧
      page_deref s v.page = some pg ∧
      (∀ g ∈ s.frame_table, frame_accessed (clock_select s v) g =
        if g ∈ clock_visited s ∧ page_pinned s g.page = false then false
        else frame_accessed s g) ∧
      ∀ fuel, 2 * s.frame_table.length ≤ fuel →
        (frame_evict c fuel s =
          match frame_evict_victim c (clock_select s v) v pg with
          | .ok (r, s1) => .ok (some r, s1)
          | .error e => .error e) ∧
        ∀ r s1, frame_evict c fuel s = .ok (r, s1) →
          r = some v ∧
          ∀ g ∈ s.frame_table, g ≠ v → frame_accessed s1 g =
            if g ∈ clock_visited s ∧ page_pinned s g.page = false then false
            else frame_accessed s g := by
  obtain ⟨v, pg, hcv, hvT, hpg, hvp, heq⟩ := frame_evict_eq_victim c s hwf hhand hunp
  have hva : pg.vaddr = v.page.vaddr := hash_find_vaddr hpg
  have hbits : ∀ g ∈ s.frame_table, frame_accessed (clock_select s v) g =
      if g ∈ clock_visited s ∧ page_pinned s g.page = false then false
      else frame_accessed s g := by
    intro g hg
    unfold frame_accessed clock_select
    show pagedir_is_accessed (sweep s (clock_visited s)) g.owner g.page.vaddr = _
    by_cases hvis : g ∈ clock_visited s ∧ page_pinned s g.page = false
    · rw [if_pos hvis]
      exact sweep_accessed_cleared s _ _ _ ⟨g, hvis.1, hvis.2, rfl, rfl⟩
    · rw [if_neg hvis]
      unfold pagedir_is_accessed
      rw [sweep_pagedir_other]
      intro f hf hfp hkey
      have hfT := clock_visited_subset s hhand f hf
      have hpage := frame_table_wf_key hwf hfT hg hkey
      have hfg : f = g := List.inj_on_of_nodup_map hwf.pages hfT hg hpage
      subst hfg
      exact hvis ⟨hf, hfp⟩
  refine ⟨v, pg, hcv, hvT, hvp, hpg, hbits, ?_⟩
  intro fuel hfuel
  refine ⟨heq fuel hfuel, ?_⟩
  intro r s1 hok
  rw [heq fuel hfuel] at hok
  cases hv : frame_evict_victim c (clock_select s v) v pg with
  | error e1 =>
    rw [hv] at hok
    cases hok
  | ok r1 =>
    obtain ⟨r2, s2⟩ := r1
    rw [hv] at hok
    simp only at hok
    cases hok
    obtain ⟨hr, -, hpd, -, -, -, -⟩ := frame_evict_victim_effects hv
    subst hr
    refine ⟨rfl, ?_⟩
    intro g hg hgv
    rw [← hbits g hg]
    unfold frame_accessed pagedir_is_accessed
    rw [hpd, if_neg]
    intro ⟨e1, e2⟩
    apply hgv
    exact List.inj_on_of_nodup_map hwf.pages hg hvT
      (frame_table_wf_key hwf hg hvT ⟨e1, e2.trans hva⟩)

/-- C6, witness: in the example the hand is on the unpinned, accessed entry
and the other entry is pinned; both are passed once and the unpinned entry
is the victim of the second sweep. -/
theorem frame_evict_second_chance_witness :
    frame_table_wf ex_two ∧ hand_valid ex_two ∧
    (∃ f ∈ ex_two.frame_table, page_pinned ex_two f.page = false) ∧
    clock_visited ex_two = [⟨2000, ⟨1, 24⟩, 1⟩, ⟨1000, ⟨1, 16⟩, 1⟩] ∧
    ∃ v, clock_victim ex_two = some v ∧ v = ⟨2000, ⟨1, 24⟩, 1⟩ ∧
      ∃ s1, frame_evict ex_consts 4 ex_two = .ok (some v, s1) :=
  have hwf : frame_table_wf ex_two := ⟨by decide, by decide, by decide, by decide⟩
  have hhand : hand_valid ex_two :=
    Or.inr (Or.inr ⟨2000, rfl, ⟨2000, ⟨1, 24⟩, 1⟩, by decide, rfl⟩)
  have hunp : ∃ f ∈ ex_two.frame_table, page_pinned ex_two f.page = false :=
    ⟨⟨2000, ⟨1, 24⟩, 1⟩, by decide, by decide⟩
  ⟨hwf, hhand, hunp, by decide,
    match frame_evict_second_chance ex_consts ex_two hwf hhand hunp with
    | ⟨v, _, hcv, _, _, _, _, _⟩ =>
      have hv : v = ⟨2000, ⟨1, 24⟩, 1⟩ :=
        Option.some.inj (hcv.symm.trans (by decide))
      ⟨v, hcv, hv, by
        subst hv
        exact ⟨_, rfl⟩⟩⟩

/-! ## Round trip through the swap store -/

theorem frame_alloc_free (c : Consts) (fuel : Nat) (s : State) (p : page_ptr) (k : Nat)
    (rest : List Nat) (h : s.free_pages = k :: rest) :
    frame_alloc c fuel s p PAL_USER true = .ok (some k,
      { s with free_pages := rest,
               frame_table := s.frame_table ++ [⟨k, p, s.current⟩] }) := by
  unfold frame_alloc palloc_get_page frame_alloc_register
  simp only [PAL_USER, Bool.true_eq_false, Bool.false_eq_true, if_false, h, if_true]

/-- Loading a descriptor in state `PAGE_SWAP` whose slot is occupied, with a
free page and a working `pagedir_set_page`: the frame receives the sectors of
the slot, the slot is freed, the descriptor is Resident. -/
theorem page_load_swap_ok (c : Consts) (fuel : Nat) (s : State) (p : page_ptr) (pg : page)
    (dev : block) (k : Nat) (rest : List Nat)
    (hd : page_deref s p = some pg) (hst : pg.status = .PAGE_SWAP)
    (hbit : s.swap_bitmap[pg.swap_slot]? = some true) (hdev : s.swap_device = some dev)
    (hsize : s.swap_bitmap.length * SECTORS_PER_PAGE c ≤ dev.size)
    (hfree : s.free_pages = k :: rest) :
    ∃ s2 pg2, page_load c fuel s p true true = .ok (true, s2) ∧
      page_deref s2 p = some pg2 ∧ pg2.status = .PAGE_FRAME ∧ pg2.frame = some k ∧
      s2.swap_bitmap = bitmap_flip s.swap_bitmap pg.swap_slot ∧
      ∀ j off, j < SECTORS_PER_PAGE c → off < c.BLOCK_SECTOR_SIZE →
        s2.mem (k + j * c.BLOCK_SECTOR_SIZE + off)
          = dev.data (pg.swap_slot * SECTORS_PER_PAGE c + j) off := by
  let sA : State :=
    { s with free_pages := rest, frame_table := s.frame_table ++ [⟨k, p, s.current⟩] }
  have hfa : frame_alloc c fuel s p PAL_USER true = .ok (some k, sA) :=
    frame_alloc_free c fuel s p k rest hfree
  have hdA : page_deref sA p = some pg := hd
  obtain ⟨mem1, hin, hdata⟩ := swap_in_ok c sA pg.swap_slot k dev hdev hsize hbit
  let sB : State := { sA with mem := mem1, swap_bitmap := bitmap_flip sA.swap_bitmap pg.swap_slot }
  have hin1 : swap_in c sA pg.swap_slot k = .ok sB := hin
  have hne : pg.status ≠ .PAGE_FRAME := by rw [hst]; simp
  have hfill : page_load_fill c sA p pg k
      = .ok (true, page_assign sB p (fun q => { q with swap_slot := c.BITMAP_ERROR })) := by
    unfold page_load_fill
    rw [hst]
    simp only
    rw [hin1]
  let sC : State := page_assign sB p (fun q => { q with swap_slot := c.BITMAP_ERROR })
  let sD : State := (pagedir_set_page sC sC.current pg.vaddr k pg.writable true).2
  let sE : State := page_assign sD p (fun q => { q with status := .PAGE_FRAME, frame := some k })
  have hres : page_load c fuel s p true true = .ok (true, sE) := by
    unfold page_load
    rw [hd]
    simp only [hne, if_false]
    rw [hfa]
    simp only
    rw [hdA]
    simp only
    rw [hfill]
    simp only [pagedir_set_page, if_true]
    rfl
  have hdE : page_deref sE p
      = some { pg with swap_slot := c.BITMAP_ERROR, status := .PAGE_FRAME, frame := some k } := by
    show page_deref (page_assign sD p _) p = _
    rw [page_deref_assign]
    · show Option.map _ (page_deref (page_assign sB p _) p) = _
      rw [page_deref_assign]
      · show Option.map _ (Option.map _ (page_deref s p)) = _
        rw [hd]
        rfl
      · intro _; rfl
    · intro _; rfl
  exact ⟨sE, _, hres, hdE, rfl, rfl, rfl, hdata⟩

theorem bitmap_flip_length (b : List Bool) (i : Nat) : (bitmap_flip b i).length = b.length := by
  unfold bitmap_flip
  exact List.length_modify _ _ _

theorem swap_wf_swept {c : Consts} {s s1 : State} (h : swept s s1) (hwf : swap_wf c s) :
    swap_wf c s1 := by
  unfold swap_wf at hwf ⊢
  rw [h.swap_bitmap, h.swap_device]
  exact hwf

/-- When `frame_evict` returns a victim whose page is dirty, on a well-formed
swap store with a free slot: the descriptor is in state `PAGE_SWAP` with the
slot that `swap_out` took, the slot was free and is now occupied, and it
holds the bytes of the frame. -/
theorem frame_evict_dirty_ok (c : Consts) (fuel : Nat) (s s1 : State) (v : frame)
    (hswf : swap_wf c s) (hfree : false ∈ s.swap_bitmap)
    (hev : frame_evict c fuel s = .ok (some v, s1))
    (hdirty : pagedir_is_dirty s v.owner v.page.vaddr = true) :
    ∃ slot dev dev1 pg1, page_deref s1 v.page = some pg1 ∧ pg1.status = .PAGE_SWAP ∧
      pg1.swap_slot = slot ∧ pg1.frame = none ∧
      s.swap_bitmap[slot]? = some false ∧ s1.swap_bitmap = bitmap_flip s.swap_bitmap slot ∧
      s.swap_device = some dev ∧ s1.swap_device = some dev1 ∧ dev1.size = dev.size ∧
      (∀ j off, j < SECTORS_PER_PAGE c → off < c.BLOCK_SECTOR_SIZE →
        dev1.data (slot * SECTORS_PER_PAGE c + j) off
          = s.mem (v.kpage + j * c.BLOCK_SECTOR_SIZE + off)) ∧
      s1.mem = s.mem ∧ s1.free_pages = s.free_pages := by
  obtain ⟨sel, pg, hsw, -, -, hpg, -, -, hvic⟩ := frame_evict_ok hev
  have hva : pg.vaddr = v.page.vaddr := hash_find_vaddr hpg
  obtain ⟨-, sw, hand, hswap, rfl⟩ := frame_evict_victim_shape hvic
  rcases frame_evict_swap_shape hswap with ⟨hnd, -, -⟩ | ⟨-, slot, s2, hout, rfl⟩
  · rw [swept_dirty hsw, hva, hdirty] at hnd
    cases hnd
  · obtain ⟨slot0, dev, dev1, hok, hdev, hbit, -, hsz, hdata⟩ :=
      swap_out_ok c sel v.kpage (swap_wf_swept hsw hswf) (by rw [hsw.swap_bitmap]; exact hfree)
    rw [hout] at hok
    have hinj := Except.ok.inj hok
    have hslot : slot = slot0 := congrArg Prod.fst hinj
    have hs2 : s2 = _ := congrArg Prod.snd hinj
    subst hslot
    subst hs2
    rw [hsw.swap_bitmap] at hbit
    rw [hsw.swap_device] at hdev
    rw [hsw.mem] at hdata
    refine ⟨slot, dev, dev1,
      { pg with swap_slot := slot, status := .PAGE_SWAP, frame := none }, ?_, rfl, rfl, rfl,
      hbit, ?_, hdev, rfl, hsz, hdata, hsw.mem, hsw.free_pages⟩
    · show page_deref (frame_evict_detach _ v pg) v.page = _
      unfold frame_evict_detach
      show page_deref (page_assign _ v.page _) v.page = _
      rw [page_deref_assign]
      · show Option.map _ (page_deref (page_assign _ v.page _) v.page) = _
        rw [page_deref_assign]
        · show Option.map _ (Option.map _ (page_deref sel v.page)) = _
          rw [hpg]
          rfl
        · intro _; rfl
      · intro _; rfl
    · show bitmap_flip sel.swap_bitmap slot = _
      rw [hsw.swap_bitmap]

/-- C1: swap round trip.  On a well-formed frame table and swap store with a
free slot (and sectors that divide the page), if `frame_evict` takes the
frame of a page whose dirty bit is set and `page_load` is then called on the
same descriptor with a free physical page, a working `malloc` and a working
`pagedir_set_page`, then `page_load` succeeds, the descriptor is Resident
again, the new frame holds byte for byte what the evicted frame held, and the
swap bitmap is what it was before the eviction.  That the page is resident,
unpinned and not accessed is not needed beyond the eviction having chosen
this frame. -/
theorem swap_round_trip (c : Consts) (s s1 : State) (p : page_ptr) (v : frame)
    (fuel fuel1 : Nat)
    (hbss : 0 < c.BLOCK_SECTOR_SIZE) (hdiv : c.BLOCK_SECTOR_SIZE ∣ c.PGSIZE)
    (hswf : swap_wf c s) (hwf : frame_table_wf s)
    (hdirty : pagedir_is_dirty s p.owner p.vaddr = true)
    (hfree : false ∈ s.swap_bitmap)
    (hev : frame_evict c fuel s = .ok (some v, s1)) (hvp : v.page = p)
    (havail : s1.free_pages ≠ []) :
    ∃ s2 pg2 k2, page_load c fuel1 s1 p true true = .ok (true, s2) ∧
      page_deref s2 p = some pg2 ∧ pg2.status = .PAGE_FRAME ∧ pg2.frame = some k2 ∧
      (∀ j, j < c.PGSIZE → s2.mem (k2 + j) = s.mem (v.kpage + j)) ∧
      s2.swap_bitmap = s.swap_bitmap := by
  have hvT : v ∈ s.frame_table := by
    obtain ⟨sel, pg, hsw, -, hent, -⟩ := frame_evict_ok hev
    rw [hsw.frame_table] at hent
    unfold list_entry at hent
    exact List.mem_of_find?_eq_some hent
  have hown : v.owner = p.owner := by rw [hwf.owner v hvT, hvp]
  obtain ⟨slot, dev, dev1, pg1, hd1, hst1, hslot1, -, hbit, hbm1, hdev, hdev1, hsz, hdata,
    hmem1, -⟩ := frame_evict_dirty_ok c fuel s s1 v hswf hfree hev (by rw [hown, hvp]; exact hdirty)
  rw [hvp] at hd1
  obtain ⟨k2, rest, hfp⟩ : ∃ k2 rest, s1.free_pages = k2 :: rest := by
    cases h : s1.free_pages with
    | nil => exact absurd h havail
    | cons a t => exact ⟨a, t, rfl⟩
  have hsize : s.swap_bitmap.length * SECTORS_PER_PAGE c ≤ dev.size := by
    have := hswf.2
    rw [hdev] at this
    exact this
  obtain ⟨s2, pg2, hload, hd2, hst2, hfr2, hbm2, hmem2⟩ :=
    page_load_swap_ok c fuel1 s1 p pg1 dev1 k2 rest hd1 hst1
      (by rw [hbm1, hslot1, bitmap_flip_getElem, if_pos rfl, hbit]; rfl) hdev1
      (by rw [hbm1, bitmap_flip_length, hsz]; exact hsize) hfp
  refine ⟨s2, pg2, k2, hload, hd2, hst2, hfr2, ?_, ?_⟩
  · intro j hj
    have hpg : c.PGSIZE = c.BLOCK_SECTOR_SIZE * SECTORS_PER_PAGE c := by
      unfold SECTORS_PER_PAGE
      exact (Nat.mul_div_cancel' hdiv).symm
    have hq : j / c.BLOCK_SECTOR_SIZE < SECTORS_PER_PAGE c :=
      Nat.div_lt_of_lt_mul (by rw [← hpg]; exact hj)
    have hr : j % c.BLOCK_SECTOR_SIZE < c.BLOCK_SECTOR_SIZE := Nat.mod_lt _ hbss
    have e : j / c.BLOCK_SECTOR_SIZE * c.BLOCK_SECTOR_SIZE + j % c.BLOCK_SECTOR_SIZE = j :=
      Nat.div_add_mod' j _
    have h1 := hmem2 _ _ hq hr
    have h2 := hdata _ _ hq hr
    rw [hslot1] at h1
    rw [h2] at h1
    have e1 : k2 + j / c.BLOCK_SECTOR_SIZE * c.BLOCK_SECTOR_SIZE + j % c.BLOCK_SECTOR_SIZE
        = k2 + j := by omega
    have e2 : v.kpage + j / c.BLOCK_SECTOR_SIZE * c.BLOCK_SECTOR_SIZE + j % c.BLOCK_SECTOR_SIZE
        = v.kpage + j := by omega
    rw [e1, e2] at h1
    exact h1
  · rw [hbm2, hbm1, hslot1, bitmap_flip_flip]

/-- C1, witness: the unpinned page of the example, dirty and not accessed,
is evicted from frame 2000 and loaded again into the free page 3000. -/
theorem swap_round_trip_witness :
    0 < ex_consts.BLOCK_SECTOR_SIZE ∧ ex_consts.BLOCK_SECTOR_SIZE ∣ ex_consts.PGSIZE ∧
    swap_wf ex_consts ex_dirty ∧ frame_table_wf ex_dirty ∧
    pagedir_is_dirty ex_dirty 1 24 = true ∧ pagedir_is_accessed ex_dirty 1 24 = false ∧
    false ∈ ex_dirty.swap_bitmap ∧
    frame_evict ex_consts 4 ex_dirty = .ok (some ⟨2000, ⟨1, 24⟩, 1⟩, ex_dirty_evicted) ∧
    ex_dirty_evicted.free_pages ≠ [] ∧
    ∃ s2 pg2 k2, page_load ex_consts 1 ex_dirty_evicted ⟨1, 24⟩ true true = .ok (true, s2) ∧
      page_deref s2 ⟨1, 24⟩ = some pg2 ∧ pg2.status = .PAGE_FRAME ∧ pg2.frame = some k2 ∧
      (∀ j, j < ex_consts.PGSIZE → s2.mem (k2 + j) = ex_dirty.mem (2000 + j)) ∧
      s2.swap_bitmap = ex_dirty.swap_bitmap :=
  have hswf : swap_wf ex_consts ex_dirty :=
    ⟨by decide, (by decide : [true, false].length * SECTORS_PER_PAGE ex_consts ≤ 4)⟩
  have hwf : frame_table_wf ex_dirty := ⟨by decide, by decide, by decide, by decide⟩
  ⟨by decide, by decide, hswf, hwf, rfl, rfl, by decide, rfl, by decide,
    swap_round_trip ex_consts ex_dirty ex_dirty_evicted ⟨1, 24⟩ ⟨2000, ⟨1, 24⟩, 1⟩ 4 1
      (by decide) (by decide) hswf hwf rfl (by decide) rfl rfl (by decide)⟩

/-! ## `FP_ROUND` -/

/-- C20 (code at the failing input): for a negative `fixed_t` the macro
`FP_ROUND` does not round to the nearest integer.  `-1.0` (`-65536`) becomes
`-2`, and `-1/65536` (`-1`) becomes `-1`; the distance to the value is `1`
and `65535/65536`, both more than `1/2`. -/
theorem FP_ROUND_negative_off_by_one :
    FP_ROUND (-65536) = -2 ∧ FP_ROUND (-1) = -1 ∧
    ¬ (|((FP_ROUND (-65536) : Int) : ℚ) - ((-65536 : Int) : ℚ) / 2 ^ FP_SHIFT_AMOUNT| ≤ 1 / 2) ∧
    ¬ (|((FP_ROUND (-1) : Int) : ℚ) - ((-1 : Int) : ℚ) / 2 ^ FP_SHIFT_AMOUNT| ≤ 1 / 2) := by
  have h1 : FP_ROUND (-65536) = -2 := by decide
  have h2 : FP_ROUND (-1) = -1 := by decide
  refine ⟨h1, h2, ?_, ?_⟩
  · rw [h1]
    norm_num [FP_SHIFT_AMOUNT, abs_le]
  · rw [h2]
    norm_num [FP_SHIFT_AMOUNT, abs_le]

/-! ## Layout of the swap device -/

theorem slot_sector_inj (n s s1 i i1 : Nat) (hi : i < n) (hi1 : i1 < n)
    (h : s * n + i = s1 * n + i1) : s = s1 := by
  rcases Nat.lt_trichotomy s s1 with hlt | heq | hgt
  · have : (s + 1) * n ≤ s1 * n := Nat.mul_le_mul_right _ hlt
    rw [Nat.succ_mul] at this
    omega
  · exact heq
  · have : (s1 + 1) * n ≤ s * n := Nat.mul_le_mul_right _ hgt
    rw [Nat.succ_mul] at this
    omega

/-- C19: `swap_init` on a device of `S` sectors creates a bitmap of
`S / SECTORS_PER_PAGE` slots; every sector `s * SECTORS_PER_PAGE + i` of a
slot `s` of the bitmap (`i < SECTORS_PER_PAGE`) is below `S`, and sectors of
two different slots differ, so that the store is well formed (`swap_wf`) and
`swap_out` and `swap_in` stay on the device and inside their slot. -/
theorem swap_slot_layout (c : Consts) (st : State) (dev : block) :
    ∃ st1, swap_init c st (some dev) true = .ok st1 ∧ st1.swap_device = some dev ∧
      st1.swap_bitmap.length = dev.size / SECTORS_PER_PAGE c ∧
      (∀ s i, s < st1.swap_bitmap.length → i < SECTORS_PER_PAGE c →
        s * SECTORS_PER_PAGE c + i < dev.size) ∧
      (∀ s s1 i i1, s ≠ s1 → i < SECTORS_PER_PAGE c → i1 < SECTORS_PER_PAGE c →
        s * SECTORS_PER_PAGE c + i ≠ s1 * SECTORS_PER_PAGE c + i1) ∧
      (dev.size / SECTORS_PER_PAGE c ≤ c.BITMAP_ERROR → swap_wf c st1) := by
  have hlen : (bitmap_create (dev.size / SECTORS_PER_PAGE c)).length
      = dev.size / SECTORS_PER_PAGE c := by
    unfold bitmap_create
    exact List.length_replicate _ _
  have hsz : dev.size / SECTORS_PER_PAGE c * SECTORS_PER_PAGE c ≤ dev.size :=
    Nat.div_mul_le_self _ _
  refine ⟨_, rfl, rfl, hlen, ?_, ?_, ?_⟩
  · intro s i hs hi
    exact slot_sector_lt c _ _ _ _ hs (by
      show (bitmap_create (dev.size / SECTORS_PER_PAGE c)).length * _ ≤ _
      rw [hlen]; exact hsz) hi
  · intro s s1 i i1 hne hi hi1 h
    exact hne (slot_sector_inj _ _ _ _ _ hi hi1 h)
  · intro hle
    refine ⟨?_, ?_⟩
    · show (bitmap_create (dev.size / SECTORS_PER_PAGE c)).length ≤ _
      rw [hlen]; exact hle
    · show (bitmap_create (dev.size / SECTORS_PER_PAGE c)).length * _ ≤ _
      rw [hlen]; exact hsz

/-! ## `swap_out`, `swap_in`, `swap_free` -/

theorem bitmap_scan_from_none (v : Bool) :
    ∀ (b : List Bool) (start : Nat), v ∉ b → bitmap_scan_from v b start = none := by
  intro b
  induction b with
  | nil => intro _ _; rfl
  | cons a t ih =>
    intro start h
    unfold bitmap_scan_from
    have ha : a ≠ v := fun e => h (by rw [e]; simp)
    rw [if_neg ha]
    exact ih _ (fun e => h (List.mem_cons_of_mem _ e))

/-- C14: `swap_out` is first-fit and fails loudly.  On a well-formed swap
store with a free slot it returns the lowest free slot, marks exactly that
slot occupied, and leaves on the device, in the `SECTORS_PER_PAGE` sectors
of the slot, the bytes of the page sector by sector, all other sectors
untouched.  Without a free slot, and so on the empty bitmap that `swap_init`
creates when there is no swap device, it panics with `Swap is full` right
after the scan, which has left the bitmap as it was, before any write. -/
theorem swap_out_first_fit (c : Consts) (s : State) (k : Nat) (hwf : swap_wf c s) :
    (false ∈ s.swap_bitmap →
      ∃ slot dev dev1, swap_out c s k = .ok (slot,
          { s with swap_bitmap := bitmap_flip s.swap_bitmap slot, swap_device := some dev1 }) ∧
        s.swap_device = some dev ∧ dev1.size = dev.size ∧
        s.swap_bitmap[slot]? = some false ∧
        (∀ j, j < slot → s.swap_bitmap[j]? = some true) ∧
        (bitmap_flip s.swap_bitmap slot)[slot]? = some true ∧
        (∀ j, j ≠ slot → (bitmap_flip s.swap_bitmap slot)[j]? = s.swap_bitmap[j]?) ∧
        (∀ j off, j < SECTORS_PER_PAGE c → off < c.BLOCK_SECTOR_SIZE →
          dev1.data (slot * SECTORS_PER_PAGE c + j) off
            = s.mem (k + j * c.BLOCK_SECTOR_SIZE + off)) ∧
        (∀ sec off, ¬ ((slot * SECTORS_PER_PAGE c ≤ sec ∧
            sec < slot * SECTORS_PER_PAGE c + SECTORS_PER_PAGE c) ∧ off < c.BLOCK_SECTOR_SIZE) →
          dev1.data sec off = dev.data sec off)) ∧
    (false ∉ s.swap_bitmap →
      swap_out c s k = .error .swap_full ∧
        (bitmap_scan_and_flip c s.swap_bitmap false).2 = s.swap_bitmap) ∧
    (∀ st b st1, swap_init c st none b = .ok st1 →
      st1.swap_bitmap = [] ∧ swap_out c st1 k = .error .swap_full) := by
  have hfull : ∀ st : State, false ∉ st.swap_bitmap →
      swap_out c st k = .error .swap_full ∧
        (bitmap_scan_and_flip c st.swap_bitmap false).2 = st.swap_bitmap := by
    intro st hno
    have hscan := bitmap_scan_from_none false st.swap_bitmap 0 hno
    refine ⟨?_, ?_⟩
    · unfold swap_out bitmap_scan_and_flip
      simp [hscan]
    · unfold bitmap_scan_and_flip
      simp [hscan]
  refine ⟨?_, hfull s, ?_⟩
  · intro hfree
    obtain ⟨slot, hscan⟩ := bitmap_scan_from_some false s.swap_bitmap 0 hfree
    obtain ⟨-, hlt, hbit, hlow⟩ := bitmap_scan_from_spec false _ _ _ hscan
    rw [Nat.sub_zero] at hlt hbit hlow
    obtain ⟨hlen, hdev⟩ := hwf
    cases hd : s.swap_device with
    | none =>
      rw [hd] at hdev
      simp only at hdev
      rw [hdev] at hlt
      cases hlt
    | some dev =>
      rw [hd] at hdev
      simp only at hdev
      obtain ⟨dev1, hloop, hsz, hdata⟩ := swap_out_loop_ok c slot k s.mem (SECTORS_PER_PAGE c) 0
        dev (fun j _ hj => slot_sector_lt c _ _ _ _ hlt hdev (by omega))
      refine ⟨slot, dev, dev1, ?_, rfl, hsz, hbit, ?_, ?_, ?_, ?_, ?_⟩
      · unfold swap_out bitmap_scan_and_flip
        simp only [hscan, hd, hloop]
        rw [if_neg (by omega)]
      · intro j hj
        have hjl : j < s.swap_bitmap.length := by omega
        have hne := hlow j hj
        rw [List.getElem?_eq_getElem hjl] at hne ⊢
        cases hb : s.swap_bitmap[j] with
        | true => rfl
        | false => rw [hb] at hne; exact absurd rfl hne
      · rw [bitmap_flip_getElem, if_pos rfl, hbit]
        rfl
      · intro j hj
        rw [bitmap_flip_getElem, if_neg (fun e => hj e.symm)]
      · intro j off hj hoff
        have e : slot * SECTORS_PER_PAGE c + j - slot * SECTORS_PER_PAGE c = j := by omega
        rw [hdata, if_pos ⟨⟨by omega, by omega⟩, hoff⟩, e]
      · intro sec off hno
        rw [hdata, if_neg]
        intro h
        exact hno ⟨⟨by omega, by omega⟩, h.2⟩
  · intro st b st1 hinit
    unfold swap_init at hinit
    simp only at hinit
    cases hinit
    exact ⟨rfl, (hfull _ (by simp [bitmap_create])).1⟩

/-- C14, witness: the example store is well formed, its lowest free slot is
slot 1. -/
theorem swap_out_first_fit_witness :
    swap_wf ex_consts ex_two ∧ false ∈ ex_two.swap_bitmap ∧
    ∃ slot dev dev1, swap_out ex_consts ex_two 2000 = .ok (slot,
        { ex_two with swap_bitmap := bitmap_flip ex_two.swap_bitmap slot,
                      swap_device := some dev1 }) ∧
      ex_two.swap_device = some dev ∧ dev1.size = dev.size ∧
      ex_two.swap_bitmap[slot]? = some false :=
  have hswf : swap_wf ex_consts ex_two :=
    ⟨by decide, (by decide : [true, false].length * SECTORS_PER_PAGE ex_consts ≤ 4)⟩
  ⟨hswf, by decide,
    match (swap_out_first_fit ex_consts ex_two 2000 hswf).1 (by decide) with
    | ⟨slot, dev, dev1, h1, h2, h3, h4, _⟩ => ⟨slot, dev, dev1, h1, h2, h3, h4⟩⟩

/-- C15: on a well-formed swap store, `swap_in` and `swap_free` fail fatally
exactly when the slot is not marked occupied: out of range they stop in the
assertion of `bitmap_test`, on a free slot in `PANIC ("Invalid swap slot")`,
both before the bitmap is touched.  On an occupied slot each returns with
exactly that slot marked free and all other bits as before; `swap_in` has
copied the `SECTORS_PER_PAGE` sectors of the slot into the frame, `swap_free`
has changed nothing but the bitmap. -/
theorem swap_in_free_spec (c : Consts) (s : State) (slot k : Nat) (hwf : swap_wf c s) :
    (s.swap_bitmap[slot]? = none →
      swap_in c s slot k = .error .assertion ∧ swap_free s slot = .error .assertion) ∧
    (s.swap_bitmap[slot]? = some false →
      swap_in c s slot k = .error .invalid_swap_slot ∧
        swap_free s slot = .error .invalid_swap_slot) ∧
    (s.swap_bitmap[slot]? = some true →
      swap_free s slot = .ok { s with swap_bitmap := bitmap_flip s.swap_bitmap slot } ∧
      (bitmap_flip s.swap_bitmap slot)[slot]? = some false ∧
      (∀ j, j ≠ slot → (bitmap_flip s.swap_bitmap slot)[j]? = s.swap_bitmap[j]?) ∧
      ∃ dev mem1, s.swap_device = some dev ∧
        swap_in c s slot k = .ok
          { s with mem := mem1, swap_bitmap := bitmap_flip s.swap_bitmap slot } ∧
        ∀ j off, j < SECTORS_PER_PAGE c → off < c.BLOCK_SECTOR_SIZE →
          mem1 (k + j * c.BLOCK_SECTOR_SIZE + off)
            = dev.data (slot * SECTORS_PER_PAGE c + j) off) := by
  refine ⟨?_, ?_, ?_⟩
  · intro h
    unfold swap_in swap_free bitmap_test
    simp [h]
  · intro h
    unfold swap_in swap_free bitmap_test
    simp [h]
  · intro h
    refine ⟨?_, ?_, ?_, ?_⟩
    · unfold swap_free bitmap_test
      simp only [h]
    · rw [bitmap_flip_getElem, if_pos rfl, h]
      rfl
    · intro j hj
      rw [bitmap_flip_getElem, if_neg (fun e => hj e.symm)]
    · obtain ⟨-, hdev⟩ := hwf
      rcases Option.eq_none_or_eq_some s.swap_device with hd | ⟨dev, hd⟩
      · rw [hd] at hdev
        simp only at hdev
        rw [hdev] at h
        cases h
      · rw [hd] at hdev
        simp only at hdev
        obtain ⟨mem1, hin, hdata⟩ := swap_in_ok c s slot k dev hd hdev h
        exact ⟨dev, mem1, hd, hin, hdata⟩

/-- C15, witness: slot 0 of the example store is occupied. -/
theorem swap_in_free_spec_witness :
    swap_wf ex_consts ex_two ∧ ex_two.swap_bitmap[0]? = some true ∧
    swap_free ex_two 0
      = .ok { ex_two with swap_bitmap := bitmap_flip ex_two.swap_bitmap 0 } :=
  have hswf : swap_wf ex_consts ex_two :=
    ⟨by decide, (by decide : [true, false].length * SECTORS_PER_PAGE ex_consts ≤ 4)⟩
  ⟨hswf, by decide, ((swap_in_free_spec ex_consts ex_two 0 3000 hswf).2.2 (by decide)).1⟩

/-! ## `page_fault_handler` -/

theorem pg_round_down_idem (c : Consts) (v : Nat) :
    pg_round_down c (pg_round_down c v) = pg_round_down c v := by
  unfold pg_round_down
  have h : (v - v % c.PGSIZE) % c.PGSIZE = 0 :=
    Nat.sub_mod_eq_zero_of_mod_eq (Nat.mod_mod _ _).symm
  rw [h, Nat.sub_zero]

theorem page_lookup_round_down (c : Consts) (s : State) (v : Nat) :
    page_lookup c s (pg_round_down c v) = page_lookup c s v := by
  unfold page_lookup
  rw [pg_round_down_idem]

theorem stack_limit_eq (sp : Nat) (h1 : 32 ≤ sp) (h2 : sp < 2 ^ 32) :
    stack_limit sp = sp - 32 := by
  unfold stack_limit
  omega

/-- The stack growth block does nothing when the page has a descriptor. -/
theorem page_fault_grow_mapped (c : Consts) (s : State) (vaddr sp : Nat) (m : Bool)
    (p : page_ptr) (h : page_lookup c s vaddr = some p) :
    page_fault_grow c s vaddr sp m = (true, s) := by
  unfold page_fault_grow
  split
  · simp only [page_lookup_round_down, h]
  · rfl

/-- C16: `page_fault_handler` reports the fault unresolved and leaves the
whole state (supplemental page tables, frame table, swap bitmap) as it is
(a) for a NULL or non-user address, (b) when the page has no descriptor and
the address is more than 32 bytes below the effective stack pointer (the
trap `esp`, or the thread's saved `esp` when the trap `esp` is NULL), (c) for
a write to a page whose descriptor is not writable. -/
theorem page_fault_rejects (c : Consts) (fuel : Nat) (s : State) (vaddr : Nat) (write : Bool)
    (esp : Nat) (m1 m2 i : Bool) :
    ((vaddr = 0 ∨ ¬ vaddr < c.PHYS_BASE) →
      page_fault_handler c fuel s vaddr write esp m1 m2 i = .ok (false, s)) ∧
    (page_lookup c s vaddr = none →
      (if esp = 0 then s.esp s.current else esp) < 2 ^ 32 →
      vaddr + 32 < (if esp = 0 then s.esp s.current else esp) →
      page_fault_handler c fuel s vaddr write esp m1 m2 i = .ok (false, s)) ∧
    (∀ p pg, write = true → page_lookup c s vaddr = some p → page_deref s p = some pg →
      pg.writable = false →
      page_fault_handler c fuel s vaddr write esp m1 m2 i = .ok (false, s)) := by
  have ha : (vaddr = 0 ∨ ¬ vaddr < c.PHYS_BASE) →
      page_fault_handler c fuel s vaddr write esp m1 m2 i = .ok (false, s) := by
    intro h
    unfold page_fault_handler is_user_vaddr
    rw [if_pos]
    simpa using h
  refine ⟨ha, ?_, ?_⟩
  · intro hl hsp hlow
    by_cases h : vaddr = 0 ∨ ¬ vaddr < c.PHYS_BASE
    · exact ha h
    · unfold page_fault_handler is_user_vaddr
      rw [if_neg (by simpa using h)]
      simp only
      have hgrow : page_fault_grow c s vaddr (if esp = 0 then s.esp s.current else esp) m1
          = (true, s) := by
        unfold page_fault_grow
        rw [if_neg]
        rw [stack_limit_eq _ (by omega) hsp]
        omega
      rw [hgrow]
      simp only [hl]
  · intro p pg hw hl hd hnw
    by_cases h : vaddr = 0 ∨ ¬ vaddr < c.PHYS_BASE
    · exact ha h
    · unfold page_fault_handler is_user_vaddr
      rw [if_neg (by simpa using h)]
      simp only
      rw [page_fault_grow_mapped c s vaddr _ m1 p hl]
      simp only [hl, hd, hw, hnw, Bool.not_false, Bool.and_self, if_true]

/-! ## The clock hand after `frame_free` -/

/-- C18 (code at the failing input): the hand stands on the entry of frame
2000; `page_destroy` of its page calls `frame_free`, which removes the entry
and leaves the static `clock_hand` of `frame_evict` pointing at it.  The
hand is then neither NULL nor the list end nor an entry of the table, and
the next `frame_evict` starts at the removed entry. -/
theorem frame_free_leaves_hand_dangling :
    hand_valid ex_two ∧ ex_two.clock_hand = .elem 2000 ∧
    page_destroy ex_consts ex_two ⟨1, 24⟩ = .ok ex_destroyed ∧
    ex_destroyed.frame_table = [⟨1000, ⟨1, 16⟩, 1⟩] ∧
    ex_destroyed.clock_hand = .elem 2000 ∧
    (frame_free ex_two 2000).clock_hand = .elem 2000 ∧
    ¬ hand_valid ex_destroyed ∧
    ∀ fuel, frame_evict ex_consts (fuel + 1) ex_destroyed = .error .bad_pointer := by
  refine ⟨Or.inr (Or.inr ⟨2000, rfl, ⟨2000, ⟨1, 24⟩, 1⟩, by decide, rfl⟩), rfl, rfl, rfl, rfl,
    rfl, ?_, fun _ => rfl⟩
  rintro (h | h | ⟨k, hk, f, hf, hfk⟩)
  · cases h
  · cases h
  · have hk1 : k = 2000 := by
      have : ex_destroyed.clock_hand = .elem 2000 := rfl
      rw [this] at hk
      cases hk
      rfl
    have hft : ex_destroyed.frame_table = [⟨1000, ⟨1, 16⟩, 1⟩] := rfl
    rw [hft] at hf
    have hf1 : f = ⟨1000, ⟨1, 16⟩, 1⟩ := by simpa using hf
    subst hf1
    subst hk1
    cases hfk

/-! ## `page_load` that fails after the swap slot was read -/

/-- C12 (code at the failing input): a descriptor in state `PAGE_SWAP` with
the occupied slot 1.  `page_load` with a failing `pagedir_set_page` returns
false and releases the frame, but `swap_in` has already freed the slot and the
descriptor's `swap_slot` is `BITMAP_ERROR`: the descriptor is not as it was,
the page contents are gone, and the next `page_load` stops in the assertion
of `bitmap_test`. -/
theorem page_load_install_failure_loses_slot :
    page_deref ex_dirty_evicted ⟨1, 24⟩ =
      some ⟨24, 1, .PAGE_SWAP, true, false, none, 0, 0, 8, 1, none⟩ ∧
    ex_dirty_evicted.swap_bitmap = [true, true] ∧
    page_load ex_consts 1 ex_dirty_evicted ⟨1, 24⟩ true false = .ok (false, ex_install_failed) ∧
    page_deref ex_install_failed ⟨1, 24⟩ =
      some ⟨24, 1, .PAGE_SWAP, true, false, none, 0, 0, 8, 4294967295, none⟩ ∧
    ex_install_failed.swap_bitmap = [true, false] ∧
    ex_install_failed.frame_table = [⟨1000, ⟨1, 16⟩, 1⟩] ∧
    ex_install_failed.free_pages = [3000] ∧
    page_load ex_consts 1 ex_install_failed ⟨1, 24⟩ true true = .error .assertion :=
  ⟨by decide, by decide, rfl, by decide, by decide, by decide, by decide, rfl⟩



/-! ## Stack growth -/

theorem map_if_not_mem (h : List page) (v : Nat) (f : page → page)
    (hn : hash_find h v = none) :
    h.map (fun q => if q.vaddr = v then f q else q) = h := by
  unfold hash_find at hn
  rw [List.find?_eq_none] at hn
  induction h with
  | nil => rfl
  | cons a t ih =>
    rw [List.map_cons]
    have ha : ¬ a.vaddr = v := by
      have := hn a (List.mem_cons_self _ _)
      simpa using this
    rw [if_neg ha, ih (fun x hx => hn x (List.mem_cons_of_mem _ hx))]

/-- On a table without a descriptor for the page, `page_create` with a
successful `malloc` puts the new descriptor in front of the table. -/
theorem page_create_fresh (c : Consts) (s : State) (v : Nat) (w : Bool)
    (hn : hash_find (s.pages s.current) (pg_round_down c v) = none) :
    page_create c s v w true
      = (some ⟨s.current, pg_round_down c v⟩, with_page s (fresh_page c s.current v w)) := by
  unfold page_create hash_insert
  simp only [if_true, hn]
  rfl

/-- Writing fields of the descriptor that was just put in front. -/
theorem page_assign_with_page (s : State) (pg : page) (f : page → page)
    (hn : hash_find (s.pages s.current) pg.vaddr = none) :
    page_assign (with_page s pg) ⟨s.current, pg.vaddr⟩ f = with_page s (f pg) := by
  have hp : (page_assign (with_page s pg) ⟨s.current, pg.vaddr⟩ f).pages
      = (with_page s (f pg)).pages := by
    funext t
    by_cases ht : t = s.current
    · simp [page_assign, with_page, ht, map_if_not_mem _ _ _ hn]
    · simp [page_assign, with_page, ht]
  unfold page_assign at hp ⊢
  simp only at hp
  rw [hp]
  rfl

theorem page_map_zero_fresh (c : Consts) (s : State) (v : Nat) (w : Bool)
    (hn : hash_find (s.pages s.current) (pg_round_down c v) = none) :
    page_map_zero c s v w true = (true, with_page s (fresh_page c s.current v w)) := by
  unfold page_map_zero
  rw [page_create_fresh c s v w hn]
  simp only
  have h := page_assign_with_page s (fresh_page c s.current v w)
    (fun q => { q with status := .PAGE_ZERO }) hn
  rw [show (⟨s.current, pg_round_down c v⟩ : page_ptr)
    = ⟨s.current, (fresh_page c s.current v w).vaddr⟩ from rfl, h]
  rfl

theorem page_lookup_with_page (c : Consts) (s : State) (pg : page) (v : Nat)
    (hv : pg.vaddr = pg_round_down c v) :
    page_lookup c (with_page s pg) v = some ⟨s.current, pg.vaddr⟩ := by
  unfold page_lookup hash_find with_page
  simp [hv]

theorem page_deref_with_page (s : State) (pg : page) :
    page_deref (with_page s pg) ⟨s.current, pg.vaddr⟩ = some pg := by
  unfold page_deref hash_find with_page
  simp

/-- C17 (as stated) fails: at a fault within the stack range on a page without
a descriptor, the handler installs nothing and reports failure when the
`malloc` of `page_create` has no memory; and with an effective stack pointer
below 32 (here the never-saved `esp` 0 of the thread) the pointer
`stack_ptr - 32` wraps around, the range test fails and nothing is installed
although `malloc` would succeed. -/
theorem page_fault_growth_fails :
    (19 ≠ 0 ∧ 19 < ex_consts.PHYS_BASE ∧ 40 - 32 ≤ 19 ∧ page_lookup ex_consts ex_boot 19 = none ∧
      page_fault_handler ex_consts 1 ex_boot 19 false 40 false true true = .ok (false, ex_boot)) ∧
    (ex_boot.esp ex_boot.current = 0 ∧
      page_fault_handler ex_consts 1 ex_boot 19 false 0 true true true = .ok (false, ex_boot)) :=
  ⟨⟨by decide, by decide, by decide, by decide, rfl⟩, by decide, rfl⟩

/-- C17 (amended): for a non-null user address `vaddr` and an effective stack
pointer `sp` (the trap `esp`, or the thread's saved `esp` when that is NULL)
with `32 ≤ sp < 2 ^ 32` and `sp - 32 ≤ vaddr`: when the page of `vaddr` has no
descriptor and the `malloc` of `page_create` succeeds, `page_fault_handler`
puts exactly one new descriptor into the table of the current thread, at
`vaddr` rounded down, in state `PAGE_ZERO`, writable, and changes nothing
else before it returns the result of `page_load` on that descriptor; when
that `malloc` fails it installs nothing and reports failure.  When the page
has a descriptor, none is created and the handler returns failure for a write
to a read-only page and the result of `page_load` on the existing descriptor
otherwise. -/
theorem page_fault_stack_growth (c : Consts) (fuel : Nat) (s : State) (vaddr : Nat)
    (write : Bool) (esp : Nat) (m2 i : Bool)
    (hv0 : vaddr ≠ 0) (hvu : vaddr < c.PHYS_BASE)
    (hsp1 : 32 ≤ (if esp = 0 then s.esp s.current else esp))
    (hsp2 : (if esp = 0 then s.esp s.current else esp) < 2 ^ 32)
    (hlow : (if esp = 0 then s.esp s.current else esp) - 32 ≤ vaddr) :
    (page_lookup c s vaddr = none →
      (with_page s (fresh_page c s.current vaddr true)).pages s.current =
          (⟨pg_round_down c vaddr, s.current, .PAGE_ZERO, true, false, none, 0, 0, c.PGSIZE,
            c.BITMAP_ERROR, none⟩ : page) :: s.pages s.current ∧
        (∀ t, t ≠ s.current →
          (with_page s (fresh_page c s.current vaddr true)).pages t = s.pages t) ∧
        page_lookup c (with_page s (fresh_page c s.current vaddr true)) vaddr
          = some ⟨s.current, pg_round_down c vaddr⟩ ∧
        page_fault_handler c fuel s vaddr write esp true m2 i
          = page_load c fuel (with_page s (fresh_page c s.current vaddr true))
              ⟨s.current, pg_round_down c vaddr⟩ m2 i ∧
        page_fault_handler c fuel s vaddr write esp false m2 i = .ok (false, s)) ∧
    (∀ p pg m1, page_lookup c s vaddr = some p → page_deref s p = some pg →
      page_fault_handler c fuel s vaddr write esp m1 m2 i
        = if write && !pg.writable then .ok (false, s) else page_load c fuel s p m2 i) := by
  have hguard : ¬ (vaddr = 0 ∨ is_user_vaddr c vaddr = false) := by
    unfold is_user_vaddr
    simpa using ⟨hv0, hvu⟩
  refine ⟨?_, ?_⟩
  · intro hl
    have hn := page_lookup_eq_none.mp hl
    have hn1 : hash_find (s.pages s.current) (pg_round_down c (pg_round_down c vaddr)) = none := by
      rw [pg_round_down_idem]
      exact hn
    have hrange : vaddr ≥ stack_limit (if esp = 0 then s.esp s.current else esp) ∧
        vaddr < c.PHYS_BASE := by
      rw [stack_limit_eq _ hsp1 hsp2]
      exact ⟨hlow, hvu⟩
    have hl1 : page_lookup c s (pg_round_down c vaddr) = none := by
      rw [page_lookup_round_down]
      exact hl
    have hfresh : fresh_page c s.current (pg_round_down c vaddr) true
        = fresh_page c s.current vaddr true := by
      unfold fresh_page
      rw [pg_round_down_idem]
    have hgrow : page_fault_grow c s vaddr (if esp = 0 then s.esp s.current else esp) true
        = (true, with_page s (fresh_page c s.current vaddr true)) := by
      unfold page_fault_grow
      rw [if_pos hrange]
      simp only [hl1]
      rw [page_map_zero_fresh c s _ true hn1, hfresh]
    have hgrow0 : page_fault_grow c s vaddr (if esp = 0 then s.esp s.current else esp) false
        = (false, s) := by
      unfold page_fault_grow
      rw [if_pos hrange]
      simp only [hl1]
      rfl
    have hlk := page_lookup_with_page c s (fresh_page c s.current vaddr true) vaddr rfl
    have hdr := page_deref_with_page s (fresh_page c s.current vaddr true)
    refine ⟨?_, ?_, hlk, ?_, ?_⟩
    · simp [with_page, fresh_page]
    · intro t ht
      simp [with_page, ht]
    · unfold page_fault_handler
      rw [if_neg hguard]
      simp only
      rw [hgrow]
      simp only
      rw [hlk]
      simp only
      rw [hdr]
      simp [fresh_page]
    · unfold page_fault_handler
      rw [if_neg hguard]
      simp only
      rw [hgrow0]
  · intro p pg m1 hl hd
    unfold page_fault_handler
    rw [if_neg hguard]
    simp only
    rw [page_fault_grow_mapped c s vaddr _ m1 p hl]
    simp only [hl, hd]

/-- C17, witness: a read fault at address 19 with the stack pointer at 40 on
the freshly booted machine. -/
theorem page_fault_stack_growth_witness :
    page_lookup ex_consts ex_boot 19 = none ∧
    page_fault_handler ex_consts 1 ex_boot 19 false 40 true true true
      = page_load ex_consts 1 (with_page ex_boot (fresh_page ex_consts 1 19 true))
          ⟨1, 16⟩ true true :=
  ⟨by decide,
    ((page_fault_stack_growth ex_consts 1 ex_boot 19 false 40 true true (by decide)
      (by decide) (by decide) (by decide) (by decide)).1 (by decide)).2.2.2.1⟩


/-! ## `page_map_file` -/

theorem frame_evict_victim_files {c : Consts} {sel s1 : State} {v r : frame} {pg : page}
    (h : frame_evict_victim c sel v pg = .ok (r, s1)) : s1.files = sel.files := by
  obtain ⟨-, sw, hand, hswap, rfl⟩ := frame_evict_victim_shape h
  rcases frame_evict_swap_shape hswap with ⟨-, -, rfl⟩ | ⟨-, slot, s2, hout, rfl⟩
  · rfl
  · obtain ⟨-, dev1, rfl⟩ := swap_out_shape hout
    rfl

/-- A successful `frame_alloc` for a page without an entry in the frame table
leaves the descriptor of that page, the files and the current thread alone. -/
theorem frame_alloc_keeps {c : Consts} {fuel : Nat} {s s1 : State} {p : page_ptr} {m : Bool}
    {k : Nat} (hnf : ∀ f ∈ s.frame_table, f.page ≠ p)
    (h : frame_alloc c fuel s p PAL_USER m = .ok (some k, s1)) :
    page_deref s1 p = page_deref s p ∧ s1.files = s.files ∧ s1.current = s.current := by
  unfold frame_alloc palloc_get_page at h
  simp only [PAL_USER, Bool.true_eq_false, Bool.false_eq_true, if_false] at h
  cases hfp : s.free_pages with
  | nil =>
    simp only [hfp] at h
    cases hev : frame_evict c fuel s with
    | error e => simp [hev] at h
    | ok r =>
      obtain ⟨ov, s2⟩ := r
      cases ov with
      | none => simp [hev] at h
      | some v =>
        simp only [hev] at h
        have h' := Except.ok.inj h
        obtain ⟨-, rfl⟩ := frame_alloc_register_shape _ _ _ _ h'
        obtain ⟨sel, pg, hsw, -, hentry, -, -, -, hv⟩ := frame_evict_ok hev
        have hmem : v ∈ s.frame_table := by
          rw [← hsw.frame_table]
          unfold list_entry at hentry
          exact List.mem_of_find?_eq_some hentry
        have hne : p ≠ v.page := fun e => hnf v hmem e.symm
        obtain ⟨-, -, -, hpd, -, -, hcur⟩ := frame_evict_victim_effects hv
        refine ⟨?_, ?_, ?_⟩
        · show page_deref s2 p = _
          rw [hpd p hne, swept_page_deref hsw]
        · show s2.files = _
          rw [frame_evict_victim_files hv, hsw.files]
        · show s2.current = _
          rw [hcur, hsw.current]
  | cons k0 rest =>
    simp only [hfp] at h
    have h' := Except.ok.inj h
    obtain ⟨-, rfl⟩ := frame_alloc_register_shape _ _ _ _ h'
    exact ⟨rfl, rfl, rfl⟩

/-- The steps of a successful `page_load` of a page that is not resident. -/
theorem page_load_steps {c : Consts} {fuel : Nat} {s s2 : State} {p : page_ptr} {m i : Bool}
    {pg : page} (hd : page_deref s p = some pg) (hst : pg.status ≠ .PAGE_FRAME)
    (h : page_load c fuel s p m i = .ok (true, s2)) :
    ∃ k sa pg1 sf, frame_alloc c fuel s p PAL_USER m = .ok (some k, sa) ∧
      page_deref sa p = some pg1 ∧ page_load_fill c sa p pg1 k = .ok (true, sf) ∧
      s2 = page_assign (pagedir_set_page sf sf.current pg1.vaddr k pg1.writable true).2 p
        (fun q => { q with status := .PAGE_FRAME, frame := some k }) := by
  unfold page_load at h
  simp only [hd, hst, if_false] at h
  cases ha : frame_alloc c fuel s p PAL_USER m with
  | error e => simp [ha] at h
  | ok r =>
    obtain ⟨ok, sa⟩ := r
    cases ok with
    | none => simp [ha] at h
    | some k =>
      simp only [ha] at h
      cases hd1 : page_deref sa p with
      | none => simp [hd1] at h
      | some pg1 =>
        simp only [hd1] at h
        cases hf : page_load_fill c sa p pg1 k with
        | error e => simp [hf] at h
        | ok r =>
          obtain ⟨b, sf⟩ := r
          cases b with
          | false => simp [hf] at h
          | true =>
            simp only [hf] at h
            cases i with
            | false => simp [pagedir_set_page] at h
            | true =>
              refine ⟨k, sa, pg1, sf, rfl, hd1, hf, ?_⟩
              unfold pagedir_set_page at h ⊢
              simp only [if_true] at h ⊢
              cases h
              rfl

theorem page_load_read_contents {s s2 : State} {pg : page} {k : Nat}
    (h : page_load_read s pg k = .ok (true, s2)) (hfb : pg.file_bytes < 2 ^ 32) :
    ∀ j, j < pg.file_bytes → ∃ f, pg.file = some f ∧ 0 ≤ pg.file_offset ∧
      (s.files f)[pg.file_offset.toNat + j]? = some (s2.mem (k + j)) := by
  intro j hj
  unfold page_load_read at h
  rw [if_pos (by omega : pg.file_bytes > 0)] at h
  cases hfile : pg.file with
  | none => simp [hfile, file_seek] at h
  | some f =>
    by_cases hneg : pg.file_offset < 0
    · simp [hfile, file_seek, hneg] at h
    · simp only [hfile, file_seek, hneg, if_false, file_read, if_true] at h
      have h' := Except.ok.inj h
      obtain ⟨h1, h2⟩ := Prod.mk.inj h'
      simp only [decide_eq_true_eq] at h1
      refine ⟨f, rfl, by omega, ?_⟩
      have hn : min (int_of_size_t pg.file_bytes).toNat
          ((s.files f).length - pg.file_offset.toNat) = pg.file_bytes := by
        unfold int_of_size_t at h1 ⊢
        split at h1 <;> split <;> omega
      rw [hn] at h2
      rw [← h2]
      simp only
      have hlen : pg.file_offset.toNat + j < (s.files f).length := by omega
      have e : k + j - k = j := by omega
      rw [if_pos (by omega), e, List.getD_eq_getElem?_getD, List.getElem?_eq_getElem hlen]
      rfl

theorem page_load_fill_zero {c : Consts} {s sf : State} {p : page_ptr} {pg : page} {k : Nat}
    (hst : pg.status = .PAGE_ZERO) (h : page_load_fill c s p pg k = .ok (true, sf)) :
    sf.pages = s.pages ∧ sf.current = s.current ∧ sf.pagedir = s.pagedir ∧
      ∀ j, j < c.PGSIZE → sf.mem (k + j) = 0 := by
  unfold page_load_fill at h
  simp only [hst] at h
  cases h
  refine ⟨rfl, rfl, rfl, ?_⟩
  intro j hj
  simp only [memset_zero]
  rw [if_pos (by omega)]

theorem page_load_fill_file {c : Consts} {s sf : State} {p : page_ptr} {pg : page} {k : Nat}
    (hst : pg.status = .PAGE_FILE) (hfb : pg.file_bytes < 2 ^ 32)
    (h : page_load_fill c s p pg k = .ok (true, sf)) :
    sf.pages = s.pages ∧ sf.current = s.current ∧ sf.pagedir = s.pagedir ∧
      (∀ j, j < pg.file_bytes → ∃ f, pg.file = some f ∧ 0 ≤ pg.file_offset ∧
        (s.files f)[pg.file_offset.toNat + j]? = some (sf.mem (k + j))) ∧
      ∀ j, j < pg.zero_bytes → sf.mem (k + pg.file_bytes + j) = 0 := by
  unfold page_load_fill at h
  simp only [hst] at h
  cases hr : page_load_read s pg k with
  | error e => simp [hr] at h
  | ok r =>
    obtain ⟨b, s3⟩ := r
    cases b with
    | false => simp [hr] at h
    | true =>
      simp only [hr] at h
      cases h
      obtain ⟨mem1, fp, hs3⟩ := page_load_read_shape hr
      have hcont := page_load_read_contents hr hfb
      subst hs3
      refine ⟨rfl, rfl, rfl, ?_, ?_⟩
      · intro j hj
        obtain ⟨f, hf, h0, hget⟩ := hcont j hj
        refine ⟨f, hf, h0, ?_⟩
        rw [hget]
        simp only [memset_zero]
        rw [if_neg (by omega)]
      · intro j hj
        simp only [memset_zero]
        rw [if_pos (by omega)]

theorem page_load_fill_keeps {c : Consts} {s sf : State} {p : page_ptr} {pg : page} {k : Nat}
    {b : Bool} (hst : pg.status = .PAGE_ZERO ∨ pg.status = .PAGE_FILE)
    (h : page_load_fill c s p pg k = .ok (b, sf)) :
    sf.pages = s.pages ∧ sf.pagedir = s.pagedir := by
  unfold page_load_fill at h
  rcases hst with hst | hst
  · simp only [hst] at h
    cases h
    exact ⟨rfl, rfl⟩
  · simp only [hst] at h
    cases hr : page_load_read s pg k with
    | error e => simp [hr] at h
    | ok r =>
      obtain ⟨b1, s3⟩ := r
      obtain ⟨mem1, fp, rfl⟩ := page_load_read_shape hr
      cases b1 with
      | false =>
        simp only [hr] at h
        cases h
        exact ⟨rfl, rfl⟩
      | true =>
        simp only [hr] at h
        cases h
        exact ⟨rfl, rfl⟩

/-- C11: a successful `page_load` of a descriptor in state `PAGE_ZERO` or
`PAGE_FILE` that has no entry in the frame table returns a frame `k` that is
the last entry of the frame table, for this page; the descriptor is as before
except for state `PAGE_FRAME` and the frame `k`, and the page table of the
current thread maps the descriptor's `vaddr` to `k` with the descriptor's
`writable` flag.  For `PAGE_ZERO` the `PGSIZE` bytes of the frame are zero.
For `PAGE_FILE` with `file_bytes + zero_bytes = PGSIZE` the file has the bytes
`file_offset .. file_offset + file_bytes - 1`, the first `file_bytes` bytes of
the frame equal them, and the remaining bytes of the frame are zero. -/
theorem page_load_fill_contents (c : Consts) (fuel : Nat) (s s2 : State) (p : page_ptr)
    (pg : page) (m i : Bool) (hd : page_deref s p = some pg)
    (hst : pg.status = .PAGE_ZERO ∨ pg.status = .PAGE_FILE)
    (hnf : ∀ f ∈ s.frame_table, f.page ≠ p)
    (hload : page_load c fuel s p m i = .ok (true, s2)) :
    ∃ k, page_deref s2 p = some { pg with status := .PAGE_FRAME, frame := some k } ∧
      s2.pagedir s.current pg.vaddr = some ⟨k, pg.writable, false, false⟩ ∧
      (∃ T, T.Sublist s.frame_table ∧ s2.frame_table = T ++ [⟨k, p, s.current⟩]) ∧
      (pg.status = .PAGE_ZERO → ∀ j, j < c.PGSIZE → s2.mem (k + j) = 0) ∧
      (pg.status = .PAGE_FILE → pg.file_bytes + pg.zero_bytes = c.PGSIZE → c.PGSIZE < 2 ^ 32 →
        (∀ j, j < pg.file_bytes → ∃ f, pg.file = some f ∧ 0 ≤ pg.file_offset ∧
          (s.files f)[pg.file_offset.toNat + j]? = some (s2.mem (k + j))) ∧
        ∀ j, pg.file_bytes ≤ j → j < c.PGSIZE → s2.mem (k + j) = 0) := by
  have hne : pg.status ≠ .PAGE_FRAME := by
    rcases hst with h | h <;> rw [h] <;> intro e <;> cases e
  obtain ⟨k, sa, pg1, sf, ha, hd1, hf, rfl⟩ := page_load_steps hd hne hload
  obtain ⟨hpd, hfiles, hcur⟩ := frame_alloc_keeps hnf ha
  rw [hpd, hd] at hd1
  cases hd1
  obtain ⟨T, hT, hft, -⟩ := frame_alloc_ok ha
  obtain ⟨hft2, hcur2, -, -, -⟩ := page_load_fill_ok hf
  obtain ⟨hpages, hpagedir⟩ := page_load_fill_keeps hst hf
  have hdI : page_deref (pagedir_set_page sf sf.current pg.vaddr k pg.writable true).2 p
      = some pg := by
    have e : (pagedir_set_page sf sf.current pg.vaddr k pg.writable true).2.pages = sa.pages :=
      hpages
    rw [page_deref_congr e, hpd, hd]
  refine ⟨k, ?_, ?_, ⟨T, hT, ?_⟩, ?_, ?_⟩
  · rw [page_deref_assign]
    · rw [hdI]
      rfl
    · intro _
      rfl
  · show (pagedir_set_page sf sf.current pg.vaddr k pg.writable true).2.pagedir s.current pg.vaddr
      = _
    rw [hcur2, hcur]
    simp [pagedir_set_page]
  · show sf.frame_table = _
    rw [hft2, hft]
  · intro hz j hj
    show sf.mem (k + j) = 0
    exact (page_load_fill_zero hz hf).2.2.2 j hj
  · intro hfile hsum hpg
    obtain ⟨-, -, -, hread, hzero⟩ := page_load_fill_file hfile (by omega) hf
    refine ⟨?_, ?_⟩
    · intro j hj
      obtain ⟨f, hf1, h0, hget⟩ := hread j hj
      refine ⟨f, hf1, h0, ?_⟩
      rw [← hfiles]
      exact hget
    · intro j hj1 hj2
      show sf.mem (k + j) = 0
      have := hzero (j - pg.file_bytes) (by omega)
      rw [show k + pg.file_bytes + (j - pg.file_bytes) = k + j by omega] at this
      exact this

/-- C11, witness: the load of the file-backed page of the example, three
bytes of file 7 and five zero bytes, into the free frame 1000. -/
theorem page_load_fill_contents_witness :
    page_deref ex_mapped ex_file_page
      = some ⟨32, 1, .PAGE_FILE, false, false, some 7, 0, 3, 5, 4294967295, none⟩ ∧
    page_load ex_consts 1 ex_mapped ex_file_page true true = .ok (true, ex_file_loaded) ∧
    ∃ k, page_deref ex_file_loaded ex_file_page
        = some ⟨32, 1, .PAGE_FRAME, false, false, some 7, 0, 3, 5, 4294967295, some k⟩ ∧
      ex_file_loaded.pagedir 1 32 = some ⟨k, false, false, false⟩ :=
  ⟨by decide, rfl,
    match page_load_fill_contents ex_consts 1 ex_mapped ex_file_loaded ex_file_page
      ⟨32, 1, .PAGE_FILE, false, false, some 7, 0, 3, 5, 4294967295, none⟩ true true
      (by decide) (Or.inr rfl) (fun _ hf => nomatch hf) rfl with
    | ⟨k, h1, h2, _⟩ => ⟨k, h1, h2⟩⟩

end Pintos
